import Mathlib

/-!
# multiviewpatcher.cpp: the instruction-level patching engine

A shallow embedding of `src/multiviewpatcher.cpp`.  A disassembled shader is a
`std::vector<std::string>`; here it is a list of lines, each line the list of its
characters.  Vector accesses and insertions outside the vector, which the C++ leaves
undefined, are reported as `Fault.outOfRange`.
-/

namespace MultiViewPatcher

/-- One line of disassembled SPIR-V text (a `std::string`). -/
abbrev Line := List Char

/-- The three shader flavours (`enum ShaderType`). -/
inductive ShaderType
  | VS
  | FF_VS
  | BTB
deriving DecidableEq, Repr

/-- Ways in which a run of the model stops without a result. -/
inductive Fault
  /-- an index or an insert position outside the vector: undefined in the C++ -/
  | outOfRange
  /-- the iteration budget handed to a loop of the model is used up -/
  | outOfFuel
deriving DecidableEq, Repr

deriving instance DecidableEq for Except

/-! ## Strings -/

/-- The double quote character. -/
def dq : Char := Char.ofNat 34

/-- Decimal text of an unsigned number, as `std::format` prints it for a brace pair. -/
def fmt (n : Nat) : Line := Nat.toDigits 10 n

/-- Substring test, `x.contains(needle)`. -/
def contains (x needle : Line) : Bool :=
  x.tails.any (fun t => needle.isPrefixOf t)

/-- Suffix test, `x.ends_with(pat)`. -/
def ends_with (x pat : Line) : Bool := pat.isSuffixOf x

/-- The text before the first equals sign, `x.substr(0, x.find("="))`; the whole line when
there is none (`find` gives `npos`). -/
def substrToEq (x : Line) : Line := x.takeWhile (fun c => c != '=')

/-- Position of the first line containing `needle`, the length when there is none
(`find_it`, as a position, and `find_idx`). -/
def find_idx (it : List Line) (needle : Line) : Nat :=
  it.findIdx (fun x => contains x needle)

/-- The call `a.insert(a.begin() + pos, x)`: defined for `0 ≤ pos ≤ a.size()` only. -/
def insertAt (a : List Line) (pos : Int) (x : Line) : Except Fault (List Line) :=
  if 0 ≤ pos ∧ pos ≤ (a.length : Int) then
    .ok (a.take pos.toNat ++ x :: a.drop pos.toNat)
  else .error .outOfRange

/-! ## detectType -/

def needleOpString : Line := "OpString".toList
def needleVS : Line := "OpString ".toList ++ dq :: "VS_".toList
def needleFFVS : Line := "OpString ".toList ++ dq :: "FF_VS".toList

/-- The function `detectType` (source lines 28-39). -/
def detectType (a : List Line) : Except Fault ShaderType :=
  let ver_idx := find_idx a needleOpString
  match a[ver_idx]? with
  | none => .error .outOfRange
  | some ver =>
    if contains ver needleVS then .ok .VS
    else if contains ver needleFFVS then .ok .FF_VS
    else .ok .BTB

/-! ## addMultiViewCapability -/

def capabilityLine : Line := "OpCapability MultiView".toList

/-- The function `addMultiViewCapability` (source lines 64-70); `a.front()` needs a
non-empty vector. -/
def addMultiViewCapability (a : List Line) : Except Fault (List Line) :=
  match a with
  | [] => .error .outOfRange
  | x :: rest =>
    if x = capabilityLine then .ok (x :: rest)
    else .ok (capabilityLine :: x :: rest)

/-! ## patchEntryPoint -/

def needleOpFunction : Line := " = OpFunction".toList
def needleOpVariable : Line := "= OpVariable".toList
def needleOpEntryPoint : Line := "OpEntryPoint".toList

/-- The text assigned to the entry line at source line 86. -/
def entryHeader (includeViewIndex : Bool) : Line :=
  "OpEntryPoint Vertex %main ".toList ++ dq :: "main".toList ++ dq :: ' ' ::
    (if includeViewIndex then "%ViewIndex".toList else []) ++ [' ']

/-- One step of the loop at source lines 87-89.  The range `vars` is a lazy view over the
vector itself, so the step reads element `k` of the current state `s`; when that line passes
the filter, its text before the equals sign is appended to the entry line at `e`. -/
def appendVar (e : Nat) (s : List Line) (k : Nat) : List Line :=
  match s[k]? with
  | none => s
  | some x =>
    if contains x needleOpVariable then
      match s[e]? with
      | none => s
      | some entry => s.set e (entry ++ substrToEq x)
    else s

/-- The function `patchEntryPoint` (source lines 72-90).  The position `fun_idx` of source
line 79 is computed and never used. -/
def patchEntryPoint (a : List Line) (includeViewIndex : Bool) : Except Fault (List Line) :=
  let e := find_idx a needleOpEntryPoint
  if e < a.length then
    .ok ((List.range a.length).foldl (appendVar e) (a.set e (entryHeader includeViewIndex)))
  else .error .outOfRange

/-! ## patchMatrixAccesses -/

def needleOpDecorate : Line := "OpDecorate".toList
def needleOpLabel : Line := " = OpLabel".toList
def decorationLine : Line := "OpDecorate %ViewIndex BuiltIn ViewIndex".toList
def ptrLine : Line := "%ptr = OpTypePointer Input %uint".toList
def viewIndexLine : Line := "%ViewIndex = OpVariable %ptr Input".toList
def dataBeginLine (offset : Nat) : Line :=
  "%shader_data_begin = OpConstant %uint ".toList ++ fmt offset
def fIdxLine (f_idx : Nat) : Line := "%f_idx = OpConstant %uint ".toList ++ fmt f_idx
def viLine : Line := "%vi = OpLoad %uint %ViewIndex".toList
def viewOffsetLine : Line := "%view_offset = OpIMul %uint %vi %uint_4".toList
def dataOffsetLine : Line :=
  "%data_offset = OpIAdd %uint %shader_data_begin %view_offset".toList

/-- Source lines 114-117, for the row digit `d`. -/
def faddLine (d : Char) : Line :=
  "%fadd_".toList ++ d :: " = OpIAdd %uint %uint_".toList ++ d :: " %f_idx".toList

/-- Source lines 118-121, for the row digit `d`. -/
def rowFaddLine (f_idx : Nat) (d : Char) : Line :=
  "%i_f".toList ++ fmt f_idx ++ '_' :: d :: " = OpIAdd %uint %data_offset %fadd_".toList ++ [d]

/-- Source lines 123-126, for the row digit `d`. -/
def rowUintLine (f_idx : Nat) (d : Char) : Line :=
  "%i_f".toList ++ fmt f_idx ++ '_' :: d :: " = OpIAdd %uint %data_offset %uint_".toList ++ [d]

/-- The text a line must end with to be rewritten in pass `i` (source lines 134-135);
`i + f_idx` is a 32-bit unsigned sum. -/
def accessPattern (f_idx i : Nat) : Line :=
  "OpAccessChain %_ptr_Uniform_v4float %c %uint_1 %int_".toList ++
    fmt ((i + f_idx) % 4294967296)

/-- The replacement text for a matched line `x` in pass `i` (source lines 139-141). -/
def rewriteAccess (f_idx i : Nat) (x : Line) : Line :=
  substrToEq x ++ "= OpAccessChain %_ptr_Uniform_v4float %c %uint_1 %i_f".toList ++
    fmt f_idx ++ '_' :: fmt i

/-- The `while` loop of pass `i` (source lines 131-143), from scan position `use`, with an
iteration budget.  A match is rewritten in place and the scan resumes at the same position. -/
def patchRow (f_idx i : Nat) : Nat → List Line → Nat → Except Fault (List Line)
  | 0, _, _ => .error .outOfFuel
  | fuel + 1, a, use =>
    if use = a.length then .ok a
    else
      let found := use + (a.drop use).findIdx (fun x => ends_with x (accessPattern f_idx i))
      match a[found]? with
      | some x => patchRow f_idx i fuel (a.set found (rewriteAccess f_idx i x)) found
      | none => patchRow f_idx i fuel a found

/-- Source line 96: the decoration goes before the first decoration line, or at the end. -/
def insertDecoration (a : List Line) : Except Fault (List Line) :=
  insertAt a (find_idx a needleOpDecorate) decorationLine

/-- Source lines 102-107: four declarations, from two lines above the label on. -/
def insertDeclarations (a : List Line) (f_idx offset : Nat) : Except Fault (List Line) := do
  let fun_idx : Int := (find_idx a needleOpLabel : Int) - 2
  let a ← insertAt a fun_idx ptrLine
  let a ← insertAt a (fun_idx + 1) viewIndexLine
  let a ← insertAt a (fun_idx + 2) (dataBeginLine offset)
  insertAt a (fun_idx + 3) (fIdxLine f_idx)

/-- Source lines 109-127: the offset arithmetic, after the label. -/
def insertViewOffset (a : List Line) (f_idx : Nat) : Except Fault (List Line) := do
  let code_idx : Int := (find_idx a needleOpLabel : Int)
  let a ← insertAt a (code_idx + 1) viLine
  let a ← insertAt a (code_idx + 2) viewOffsetLine
  let a ← insertAt a (code_idx + 3) dataOffsetLine
  if f_idx > 0 then do
    let a ← insertAt a (code_idx + 4) (faddLine '0')
    let a ← insertAt a (code_idx + 5) (faddLine '1')
    let a ← insertAt a (code_idx + 6) (faddLine '2')
    let a ← insertAt a (code_idx + 7) (faddLine '3')
    let a ← insertAt a (code_idx + 8) (rowFaddLine f_idx '0')
    let a ← insertAt a (code_idx + 9) (rowFaddLine f_idx '1')
    let a ← insertAt a (code_idx + 10) (rowFaddLine f_idx '2')
    insertAt a (code_idx + 11) (rowFaddLine f_idx '3')
  else do
    let a ← insertAt a (code_idx + 4) (rowUintLine f_idx '0')
    let a ← insertAt a (code_idx + 5) (rowUintLine f_idx '1')
    let a ← insertAt a (code_idx + 6) (rowUintLine f_idx '2')
    insertAt a (code_idx + 7) (rowUintLine f_idx '3')

/-- Source lines 130-144: the `for` loop over `i = 0, 1, 2, 3`, written out; each pass scans
from the start. -/
def patchRows (fuel f_idx : Nat) (a : List Line) : Except Fault (List Line) := do
  let a ← patchRow f_idx 0 fuel a 0
  let a ← patchRow f_idx 1 fuel a 0
  let a ← patchRow f_idx 2 fuel a 0
  patchRow f_idx 3 fuel a 0

/-- The function `patchMatrixAccesses` (source lines 92-145); `fuel` bounds the iterations
of each of the four `while` loops. -/
def patchMatrixAccesses (fuel : Nat) (a : List Line) (f_idx offset : Nat) :
    Except Fault (List Line) := do
  let a ← insertDecoration a
  let a ← insertDeclarations a f_idx offset
  let a ← insertViewOffset a f_idx
  patchRows fuel f_idx a


/-- The number a decimal text stands for. -/
def decimalValue (l : Line) : Nat := l.foldl (fun acc c => 10 * acc + (c.toNat - 48)) 0

/-- The texts the loop of `patchEntryPoint` appends for the lines of `s`: for every line
that contains `= OpVariable`, in order, its text before the equals sign. -/
def collectedVars (s : List Line) : List Line :=
  (s.filter (fun x => contains x needleOpVariable)).map substrToEq

/-! ## Closed forms used to state what `patchMatrixAccesses` returns -/

/-- The sequence after source line 96. -/
def withDecoration (a : List Line) : List Line :=
  a.take (find_idx a needleOpDecorate) ++ decorationLine :: a.drop (find_idx a needleOpDecorate)

/-- Position of the first label line of `a` once the decoration line has been inserted: one
further down when the insert position is not after the label. -/
def labelIndexAfterDecoration (a : List Line) : Nat :=
  find_idx a needleOpLabel +
    (if find_idx a needleOpDecorate ≤ find_idx a needleOpLabel then 1 else 0)

/-- The four lines of source lines 104-107. -/
def declarationLines (f_idx offset : Nat) : List Line :=
  [ptrLine, viewIndexLine, dataBeginLine offset, fIdxLine f_idx]

/-- The lines of source lines 110-126. -/
def viewOffsetLines (f_idx : Nat) : List Line :=
  [viLine, viewOffsetLine, dataOffsetLine] ++
    (if f_idx > 0 then
      [faddLine '0', faddLine '1', faddLine '2', faddLine '3',
       rowFaddLine f_idx '0', rowFaddLine f_idx '1', rowFaddLine f_idx '2',
       rowFaddLine f_idx '3']
    else
      [rowUintLine f_idx '0', rowUintLine f_idx '1', rowUintLine f_idx '2',
       rowUintLine f_idx '3'])

/-- What pass `i` makes of a line. -/
def rewriteIf (f_idx i : Nat) (x : Line) : Line :=
  if ends_with x (accessPattern f_idx i) then rewriteAccess f_idx i x else x

/-- What the four passes together make of a line: the rewrite of the first pass whose
pattern the line ends with. -/
def rewriteLine (f_idx : Nat) (x : Line) : Line :=
  if ends_with x (accessPattern f_idx 0) then rewriteAccess f_idx 0 x
  else if ends_with x (accessPattern f_idx 1) then rewriteAccess f_idx 1 x
  else if ends_with x (accessPattern f_idx 2) then rewriteAccess f_idx 2 x
  else if ends_with x (accessPattern f_idx 3) then rewriteAccess f_idx 3 x
  else x

/-! ## Result names -/

/-- The result name a line binds: its text before the first equals sign (as
`patchEntryPoint` and `patchMatrixAccesses` take it, the blank before the sign included),
when the line has an equals sign. -/
def resultName (x : Line) : Option Line :=
  if '=' ∈ x then some (substrToEq x) else none

/-- The result names bound by the lines of a sequence, in order. -/
def boundNames (s : List Line) : List Line := s.filterMap resultName

/-- The result name of the row lines of source lines 118-126, for the row digit `d`. -/
def rowName (f_idx : Nat) (d : Char) : Line := "%i_f".toList ++ fmt f_idx ++ ['_', d, ' ']

/-- The result names of the lines that `patchMatrixAccesses` inserts. -/
def introducedNames (f_idx : Nat) : List Line :=
  ["%ptr ".toList, "%ViewIndex ".toList, "%shader_data_begin ".toList, "%f_idx ".toList,
   "%vi ".toList, "%view_offset ".toList, "%data_offset ".toList] ++
  (if f_idx > 0 then
    ["%fadd_0 ".toList, "%fadd_1 ".toList, "%fadd_2 ".toList, "%fadd_3 ".toList]
   else []) ++
  [rowName f_idx '0', rowName f_idx '1', rowName f_idx '2', rowName f_idx '3']

/-! ## Values of the inserted arithmetic -/

/-- The blank-separated words of a line. -/
def words : Line → List Line
  | [] => [[]]
  | c :: cs =>
    if c = ' ' then [] :: words cs
    else
      match words cs with
      | [] => [[c]]
      | w :: ws => (c :: w) :: ws

/-- Result names with their 32-bit values, latest first. -/
abbrev Env := List (Line × Nat)

/-- The value bound to a name. -/
def lookupName : Env → Line → Option Nat
  | [], _ => none
  | (k, v) :: rest, name => if name = k then some v else lookupName rest name

/-- The effect of one instruction line `%r = OpLoad %t %p`, `%r = OpIAdd %t %p %q` or
`%r = OpIMul %t %p %q` on the values, in 32-bit unsigned arithmetic; a load gives the value
held for the variable. -/
def evalLine (env : Env) (x : Line) : Option Env :=
  match words x with
  | [r, eq, op, _, p] =>
    if eq = "=".toList ∧ op = "OpLoad".toList then
      match lookupName env p with
      | some v => some ((r, v) :: env)
      | none => none
    else none
  | [r, eq, op, _, p, q] =>
    if eq = "=".toList ∧ op = "OpIAdd".toList then
      match lookupName env p, lookupName env q with
      | some v, some w => some ((r, (v + w) % 4294967296) :: env)
      | _, _ => none
    else if eq = "=".toList ∧ op = "OpIMul".toList then
      match lookupName env p, lookupName env q with
      | some v, some w => some ((r, (v * w) % 4294967296) :: env)
      | _, _ => none
    else none
  | _ => none

/-- The effect of a run of instruction lines. -/
def evalLines (env : Env) : List Line → Option Env
  | [] => some env
  | x :: xs =>
    match evalLine env x with
    | some e => evalLines e xs
    | none => none

/-- The values the inserted arithmetic starts from: the view index `v`, the two constants
declared at source lines 106-107, and `%uint_k` standing for `k`. -/
def initialEnv (f_idx offset v : Nat) : Env :=
  [("%ViewIndex".toList, v % 4294967296),
   ("%shader_data_begin".toList, offset % 4294967296),
   ("%f_idx".toList, f_idx % 4294967296),
   ("%uint_0".toList, 0), ("%uint_1".toList, 1), ("%uint_2".toList, 2),
   ("%uint_3".toList, 3), ("%uint_4".toList, 4)]

/-- The name of a row value, `%i_f<f_idx>_<d>`. -/
def rowToken (f_idx : Nat) (d : Char) : Line := "%i_f".toList ++ fmt f_idx ++ ['_', d]

/-- The value the inserted lines give `%data_offset`, step by step. -/
def dataOffsetValue (offset v : Nat) : Nat :=
  (offset % 4294967296 + v % 4294967296 * 4 % 4294967296) % 4294967296

/-- The values after the three lines of source lines 110-112. -/
def commonEnv (f_idx offset v : Nat) : Env :=
  ("%data_offset".toList, dataOffsetValue offset v) ::
  ("%view_offset".toList, v % 4294967296 * 4 % 4294967296) ::
  ("%vi".toList, v % 4294967296) :: initialEnv f_idx offset v

/-- The values after the four lines of source lines 114-117 as well. -/
def faddEnv (f_idx offset v : Nat) : Env :=
  ("%fadd_3".toList, (3 + f_idx % 4294967296) % 4294967296) ::
  ("%fadd_2".toList, (2 + f_idx % 4294967296) % 4294967296) ::
  ("%fadd_1".toList, (1 + f_idx % 4294967296) % 4294967296) ::
  ("%fadd_0".toList, (0 + f_idx % 4294967296) % 4294967296) :: commonEnv f_idx offset v

/-! ## Sample input -/

/-- The sample shader with a pointer type that is already called `%ptr`. -/
def ptrTaken : List Line := [
  "OpCapability Shader".toList,
  "OpDecorate %a Location 0".toList,
  "%uint = OpTypeInt 32 0".toList,
  "%ptr = OpTypePointer Uniform %v4float".toList,
  "%a = OpVariable %x Input".toList,
  "%main = OpFunction %void None %3".toList,
  "%5 = OpLabel".toList,
  "%7 = OpAccessChain %ptr %c %uint_1 %int_0".toList,
  "OpReturn".toList,
  "OpFunctionEnd".toList]

/-- A vertex shader without any decoration line. -/
def noDecoration : List Line := [
  "OpCapability Shader".toList,
  "%uint = OpTypeInt 32 0".toList,
  "%main = OpFunction %void None %3".toList,
  "%5 = OpLabel".toList,
  "%7 = OpAccessChain %_ptr_Uniform_v4float %c %uint_1 %int_0".toList,
  "OpReturn".toList,
  "OpFunctionEnd".toList]


/-- A sequence whose label line is its first line. -/
def labelFirst : List Line := [
  "%5 = OpLabel".toList,
  "%7 = OpAccessChain %_ptr_Uniform_v4float %c %uint_1 %int_0".toList,
  "OpReturn".toList]

/-- A sequence whose label line is its second line, with no decoration line. -/
def labelSecond : List Line := [
  "%main = OpFunction %void None %3".toList,
  "%5 = OpLabel".toList,
  "%11 = OpAccessChain %_ptr_Uniform_v4float %c %uint_1 %int_9".toList,
  "OpReturn".toList]


/-- A small vertex shader, as the disassembler prints it. -/
def sampleShader : List Line := [
  "OpCapability Shader".toList,
  "OpEntryPoint Vertex %main ".toList ++ dq :: "main".toList ++ dq :: " %a".toList,
  "%1 = OpString ".toList ++ dq :: "VS_test".toList ++ [dq],
  "OpDecorate %a Location 0".toList,
  "%uint = OpTypeInt 32 0".toList,
  "%a = OpVariable %x Input".toList,
  "%b = OpVariable %x Output".toList,
  "%main = OpFunction %void None %3".toList,
  "%5 = OpLabel".toList,
  "%7 = OpAccessChain %_ptr_Uniform_v4float %c %uint_1 %int_0".toList,
  "%8 = OpAccessChain %_ptr_Uniform_v4float %c %uint_1 %int_1".toList,
  "%9 = OpAccessChain %_ptr_Uniform_v4float %c %uint_1 %int_2".toList,
  "%10 = OpAccessChain %_ptr_Uniform_v4float %c %uint_1 %int_3".toList,
  "%11 = OpAccessChain %_ptr_Uniform_v4float %c %uint_1 %int_4".toList,
  "OpReturn".toList,
  "OpFunctionEnd".toList]

/-- What `patchMatrixAccesses` makes of the sample shader for `f_idx = 0`, `offset = 16`. -/
def samplePatched : List Line := [
  "OpCapability Shader".toList,
  "OpEntryPoint Vertex %main ".toList ++ dq :: "main".toList ++ dq :: " %a".toList,
  "%1 = OpString ".toList ++ dq :: "VS_test".toList ++ [dq],
  "OpDecorate %ViewIndex BuiltIn ViewIndex".toList,
  "OpDecorate %a Location 0".toList,
  "%uint = OpTypeInt 32 0".toList,
  "%a = OpVariable %x Input".toList,
  "%ptr = OpTypePointer Input %uint".toList,
  "%ViewIndex = OpVariable %ptr Input".toList,
  "%shader_data_begin = OpConstant %uint 16".toList,
  "%f_idx = OpConstant %uint 0".toList,
  "%b = OpVariable %x Output".toList,
  "%main = OpFunction %void None %3".toList,
  "%5 = OpLabel".toList,
  "%vi = OpLoad %uint %ViewIndex".toList,
  "%view_offset = OpIMul %uint %vi %uint_4".toList,
  "%data_offset = OpIAdd %uint %shader_data_begin %view_offset".toList,
  "%i_f0_0 = OpIAdd %uint %data_offset %uint_0".toList,
  "%i_f0_1 = OpIAdd %uint %data_offset %uint_1".toList,
  "%i_f0_2 = OpIAdd %uint %data_offset %uint_2".toList,
  "%i_f0_3 = OpIAdd %uint %data_offset %uint_3".toList,
  "%7 = OpAccessChain %_ptr_Uniform_v4float %c %uint_1 %i_f0_0".toList,
  "%8 = OpAccessChain %_ptr_Uniform_v4float %c %uint_1 %i_f0_1".toList,
  "%9 = OpAccessChain %_ptr_Uniform_v4float %c %uint_1 %i_f0_2".toList,
  "%10 = OpAccessChain %_ptr_Uniform_v4float %c %uint_1 %i_f0_3".toList,
  "%11 = OpAccessChain %_ptr_Uniform_v4float %c %uint_1 %int_4".toList,
  "OpReturn".toList,
  "OpFunctionEnd".toList]

/-! ## Entry-point identity -/

/-- The execution model, the function id and the quoted name of an entry-point line
`OpEntryPoint <model> <id> "<name>" ...`: its second, third and fourth word. -/
def entryIdentity (x : Line) : List Line := ((words x).drop 1).take 3

/-! ## More sample input -/

/-- A sequence in which the capability line stands second. -/
def capabilitySecond : List Line := [
  "OpCapability Shader".toList,
  "OpCapability MultiView".toList,
  "OpMemoryModel Logical GLSL450".toList]

/-- A sequence whose entry point is a fragment shader called `ps_main`. -/
def fragmentEntry : List Line := [
  "OpCapability Shader".toList,
  "OpEntryPoint Fragment %frag ".toList ++ dq :: "ps_main".toList ++ dq :: " %o".toList,
  "%o = OpVariable %_ptr_Output_v4float Output".toList,
  "%frag = OpFunction %void None %3".toList,
  "%5 = OpLabel".toList,
  "OpReturn".toList,
  "OpFunctionEnd".toList]

/-- A vertex shader with a variable declared inside its function body. -/
def localVariable : List Line := [
  "OpCapability Shader".toList,
  "OpEntryPoint Vertex %main ".toList ++ dq :: "main".toList ++ dq :: " %a".toList,
  "%1 = OpString ".toList ++ dq :: "VS_test".toList ++ [dq],
  "%a = OpVariable %_ptr_Input_v4float Input".toList,
  "%main = OpFunction %void None %3".toList,
  "%5 = OpLabel".toList,
  "%tmp = OpVariable %_ptr_Function_float Function".toList,
  "OpReturn".toList,
  "OpFunctionEnd".toList]

/-! ## The rewrite loop -/

/-- Whether a line ends with one of the four searched patterns. -/
def matchesAny (f_idx : Nat) (x : Line) : Bool :=
  ends_with x (accessPattern f_idx 0) || ends_with x (accessPattern f_idx 1) ||
    ends_with x (accessPattern f_idx 2) || ends_with x (accessPattern f_idx 3)

/-- A sequence whose first decoration line stands right behind the label. -/
def decorationAfterLabel : List Line := [
  "OpCapability Shader".toList,
  "%main = OpFunction %void None %3".toList,
  "%5 = OpLabel".toList,
  "OpDecorate %a Location 0".toList,
  "OpReturn".toList]

/-! ## The exported functions

The SPIRV-Tools objects (`spvtools::SpirvTools`, `spvtools::Optimizer`) are outside the
file; they are parameters of the model.  A binary is the list of its 32-bit words. -/

/-- The line feed, the delimiter of `std::getline` at source line 53. -/
def nl : Char := Char.ofNat 10

/-- The calls into SPIRV-Tools.  `disassemble` is `t.Disassemble` (`none` when it returns
false, else the text), `assemble` gives the content of `out` after `t.Assemble(text, &out)`,
whose return value the source drops, `validate` is `t.Validate`, and `optimize` is `opt.Run`
after `RegisterPerformancePasses` (`none` when it returns false). -/
structure Toolchain where
  disassemble : List Nat → Option (List Char)
  assemble : List Char → List Nat
  validate : List Nat → Bool
  optimize : List Nat → Option (List Nat)

/-- The memory behind the two output pointers.  `data_out = none` is the null pointer, which
the source tests for; `some buf` is a buffer with room for `buf.length` words.
`size_out = none` is the null pointer, which the source does not test for. -/
structure Output where
  data_out : Option (List Nat)
  size_out : Option Nat
deriving DecidableEq, Repr

/-- The copy loop and the size assignment that end the three exported functions (source
lines 165-170, 209-214, 256-261, 290-295).  The loop counter is an `int`; a write past the
end of the buffer, a counter past `INT_MAX` or a write through a null `size_out` is
undefined in the C++.  The size is converted to `uint32_t`. -/
def writeOutput (out : List Nat) (st : Output) : Except Fault Output :=
  match st.data_out with
  | some buf =>
    if out.length ≤ buf.length ∧ out.length ≤ 2147483647 then
      match st.size_out with
      | some _ => .ok ⟨some (out ++ buf.drop out.length), some (out.length % 4294967296)⟩
      | none => .error .outOfRange
    else .error .outOfRange
  | none =>
    match st.size_out with
    | some _ => .ok ⟨none, some (out.length % 4294967296)⟩
    | none => .error .outOfRange

/-- The lines `std::getline(sas, l, nl)` reads from a text, one after the other, until the
extraction fails: a text that ends with the delimiter has no empty last line. -/
def splitLines : List Char → List Line
  | [] => []
  | c :: cs =>
    if c = nl then [] :: splitLines cs
    else
      match splitLines cs with
      | [] => [[c]]
      | l :: ls => (c :: l) :: ls

/-- Source lines 41-62.  `l[0]` of an empty line is the terminating zero, so an empty line
is kept. -/
def disassembleShader (t : Toolchain) (spv : List Nat) : Option (List Line) :=
  match t.disassemble spv with
  | none => none
  | some text => some ((splitLines text).filter (fun l => !(l.head? == some ';')))

/-- The text the `ostringstream` loops build (source lines 197-200, 265-268). -/
def joinLines (a : List Line) : List Char :=
  (a.map (fun l => l ++ [nl])).flatten

/-- Source lines 147-152. -/
def patchVertexShader (fuel : Nat) (a : List Line) (f_idx offset : Nat) :
    Except Fault (List Line) := do
  let a ← addMultiViewCapability a
  let a ← patchEntryPoint a true
  patchMatrixAccesses fuel a f_idx offset

/-- Source lines 154-173.  The result is the returned `int` and the output memory. -/
def OptimizeSPIRV (t : Toolchain) (data : List Nat) (st : Output) :
    Except Fault (Int × Output) :=
  match t.optimize data with
  | none => .ok (-1, st)
  | some optimized => do
    let st ← writeOutput optimized st
    .ok (0, st)

/-- Source lines 175-220. -/
def AddSPIRVMultiViewCapability (t : Toolchain) (data : List Nat) (st : Output) :
    Except Fault (Int × Output) :=
  match disassembleShader t data with
  | none => .ok (-1, st)
  | some a => do
    let typ ← detectType a
    if typ = ShaderType.VS then do
      let a ← addMultiViewCapability a
      let a ← patchEntryPoint a false
      let out := t.assemble (joinLines a)
      if !t.validate out then .ok (-1, st)
      else do
        let st ← writeOutput out st
        .ok (0, st)
    else .ok (-1, st)

/-- Source lines 222-301.  `fuel` is the budget of the loops of `patchMatrixAccesses`. -/
def ChangeSPIRVMultiViewDataAccessLocation (t : Toolchain) (fuel : Nat) (data : List Nat)
    (st : Output) (f_idx offset : Nat) (optimize : Int) : Except Fault (Int × Output) :=
  match disassembleShader t data with
  | none => .ok (-1, st)
  | some a => do
    let typ ← detectType a
    if typ = ShaderType.FF_VS then
      if optimize ≠ 0 then
        match t.optimize data with
        | none => .ok (-1, st)
        | some optimized => do
          let st ← writeOutput optimized st
          .ok (0, st)
      else if !t.validate data then .ok (-1, st)
      else do
        let st ← writeOutput data st
        .ok (0, st)
    else if typ = ShaderType.VS then do
      let a ← patchVertexShader fuel a f_idx offset
      let out := t.assemble (joinLines a)
      if optimize ≠ 0 then
        match t.optimize out with
        | none => .ok (-1, st)
        | some optimized => do
          let st ← writeOutput optimized st
          .ok (0, st)
      else if !t.validate out then .ok (-1, st)
      else do
        let st ← writeOutput out st
        .ok (0, st)
    else .ok (-1, st)

/-- A toolchain whose disassembler prints a fixed-function vertex shader and whose
validator accepts the binaries of two words. -/
def fixedFunctionToolchain : Toolchain where
  disassemble := fun _ => some (joinLines [
    "; SPIR-V".toList,
    "OpCapability Shader".toList,
    "%1 = OpString ".toList ++ dq :: "FF_VS_0".toList ++ [dq]])
  assemble := fun _ => [1, 2, 3]
  validate := fun w => w.length == 2
  optimize := fun w => some w

/-- A toolchain in which the disassembler and the optimizer fail. -/
def failingToolchain : Toolchain where
  disassemble := fun _ => none
  assemble := fun _ => []
  validate := fun _ => true
  optimize := fun _ => none

/-- A toolchain whose disassembler prints the sample shader and whose validator rejects
everything. -/
def rejectingToolchain : Toolchain where
  disassemble := fun _ => some (joinLines sampleShader)
  assemble := fun _ => [1, 2, 3]
  validate := fun _ => false
  optimize := fun _ => none

/-- The lines `disassembleShader` returns for `fixedFunctionToolchain`. -/
def fixedFunctionLines : List Line := [
  "OpCapability Shader".toList,
  "%1 = OpString ".toList ++ dq :: "FF_VS_0".toList ++ [dq]]

/-- An output memory: a buffer of four words and a size cell. -/
def sampleOutput : Output := ⟨some [0, 0, 0, 0], some 9⟩

/-- Whether a line is a debug-string instruction in the words of the specification: its
opcode, the word behind the result id and the equals sign, is `OpString`. -/
def debugStringLine (x : Line) : Bool :=
  (words x)[2]? == some "OpString".toList

/-- A sequence whose entry-point line names an interface variable `%OpString_in` and whose
only debug string is `VS_abc`. -/
def opStringInInterface : List Line := [
  "OpCapability Shader".toList,
  "OpEntryPoint Vertex %main ".toList ++ dq :: "main".toList ++ dq ::
    " %OpString_in".toList,
  "%1 = OpString ".toList ++ dq :: "VS_abc".toList ++ [dq]]

/-! ## Facts about the string primitives -/

theorem contains_iff {x needle : Line} : contains x needle = true ↔ needle <:+: x := by
  unfold contains
  rw [List.any_eq_true]
  constructor
  · rintro ⟨t, ht, hp⟩
    rw [List.mem_tails] at ht
    rw [List.isPrefixOf_iff_prefix] at hp
    exact List.infix_iff_prefix_suffix.mpr ⟨t, hp, ht⟩
  · intro h
    obtain ⟨t, hp, ht⟩ := List.infix_iff_prefix_suffix.mp h
    exact ⟨t, (List.mem_tails _ _).mpr ht, List.isPrefixOf_iff_prefix.mpr hp⟩

theorem contains_eq_false_iff {x needle : Line} :
    contains x needle = false ↔ ¬ needle <:+: x := by
  rw [← contains_iff]; simp

theorem ends_with_iff {x pat : Line} : ends_with x pat = true ↔ pat <:+ x := by
  unfold ends_with
  exact List.isSuffixOf_iff_suffix

theorem ends_with_eq_false_iff {x pat : Line} : ends_with x pat = false ↔ ¬ pat <:+ x := by
  rw [← ends_with_iff]; simp

/-- A character of the needle occurs in every line that contains the needle. -/
theorem mem_of_contains {x needle : Line} {c : Char} (h : contains x needle = true)
    (hc : c ∈ needle) : c ∈ x :=
  (contains_iff.mp h).subset hc

/-- A needle whose last character does not occur in `d` lies in `c ++ d` only inside `c`. -/
theorem infix_append_of_last_not_mem {n c d : Line} {z : Char} (hz : z ∉ d)
    (h : n ++ [z] <:+: c ++ d) : n ++ [z] <:+: c := by
  obtain ⟨s, t, hst⟩ := h
  have hst2 : (s ++ (n ++ [z])) ++ t = c ++ d := by simpa using hst
  rcases List.append_eq_append_iff.mp hst2 with ⟨u, hu, _⟩ | ⟨u, hu, hd⟩
  · exact ⟨s, u, by simpa using hu.symm⟩
  · rcases List.eq_nil_or_concat u with rfl | ⟨v, w, rfl⟩
    · exact ⟨s, [], by simpa using hu⟩
    · exfalso
      have h1 : s ++ n ++ [z] = (c ++ v) ++ [w] := by simpa using hu
      have h2 := List.append_inj_right' h1 rfl
      have hw : w = z := by simpa using h2.symm
      subst hw
      apply hz
      rw [hd]
      simp

theorem substrToEq_no_eq (x : Line) : '=' ∉ substrToEq x := by
  intro h
  have := List.mem_takeWhile_imp h
  simp at this

theorem substrToEq_append_eq (name rest : Line) (h : '=' ∉ name) :
    substrToEq (name ++ '=' :: rest) = name := by
  unfold substrToEq
  induction name with
  | nil => simp
  | cons c cs ih =>
    have hc : c ≠ '=' := fun e => h (by simp [e])
    have hcs : '=' ∉ cs := fun e => h (by simp [e])
    simp [List.takeWhile_cons, hc, ih hcs]

theorem substrToEq_of_not_mem (x : Line) (h : '=' ∉ x) : substrToEq x = x := by
  unfold substrToEq
  induction x with
  | nil => simp
  | cons c cs ih =>
    have hc : c ≠ '=' := fun e => h (by simp [e])
    have hcs : '=' ∉ cs := fun e => h (by simp [e])
    simp [List.takeWhile_cons, hc, ih hcs]

/-! ### Decimal text -/

theorem digitChar_isDigit (k : Nat) (h : k < 10) : (Nat.digitChar k).isDigit = true := by
  interval_cases k <;> rfl

theorem digitChar_val (k : Nat) (h : k < 10) : (Nat.digitChar k).toNat - 48 = k := by
  interval_cases k <;> rfl

theorem toDigitsCore_eq (fuel : Nat) : ∀ (n : Nat) (ds : List Char), 0 < n → n < fuel →
    Nat.toDigitsCore 10 fuel n ds = ((Nat.digits 10 n).reverse.map Nat.digitChar) ++ ds := by
  induction fuel with
  | zero => intro n ds _ h; omega
  | succ fuel ih =>
    intro n ds hn hlt
    rw [Nat.toDigitsCore]
    rw [Nat.digits_def' (by norm_num) hn]
    by_cases h0 : n / 10 = 0
    · simp [h0]
    · simp only [h0, if_false]
      rw [ih (n / 10) _ (Nat.pos_of_ne_zero h0) (by omega)]
      simp

theorem fmt_zero : fmt 0 = ['0'] := rfl

theorem fmt_pos (n : Nat) (h : 0 < n) :
    fmt n = (Nat.digits 10 n).reverse.map Nat.digitChar := by
  unfold fmt Nat.toDigits
  rw [toDigitsCore_eq (n + 1) n [] h (by omega)]
  simp

theorem fmt_small (n : Nat) (h : n < 10) : fmt n = [Nat.digitChar n] := by
  interval_cases n <;> rfl

theorem fmt_step (n : Nat) (h : 10 ≤ n) :
    fmt n = fmt (n / 10) ++ [Nat.digitChar (n % 10)] := by
  rw [fmt_pos n (by omega), fmt_pos (n / 10) (by omega), Nat.digits_def' (by norm_num) (by omega)]
  simp

theorem fmt_ne_nil (n : Nat) : fmt n ≠ [] := by
  by_cases h : n < 10
  · rw [fmt_small n h]; simp
  · rw [fmt_step n (by omega)]; simp

theorem fmt_isDigit (n : Nat) : ∀ c ∈ fmt n, c.isDigit = true := by
  induction n using Nat.strong_induction_on with
  | _ n ih =>
    by_cases h : n < 10
    · rw [fmt_small n h]
      intro c hc
      simp only [List.mem_singleton] at hc
      subst hc
      exact digitChar_isDigit n h
    · rw [fmt_step n (by omega)]
      intro c hc
      rcases List.mem_append.mp hc with hc | hc
      · exact ih (n / 10) (by omega) c hc
      · simp only [List.mem_singleton] at hc
        subst hc
        exact digitChar_isDigit _ (Nat.mod_lt _ (by norm_num))

theorem decimalValue_fmt (n : Nat) : decimalValue (fmt n) = n := by
  induction n using Nat.strong_induction_on with
  | _ n ih =>
    by_cases h : n < 10
    · rw [fmt_small n h]
      simp [decimalValue, digitChar_val n h]
    · rw [fmt_step n (by omega)]
      have h1 := ih (n / 10) (by omega)
      unfold decimalValue at h1 ⊢
      rw [List.foldl_append, h1]
      simp only [List.foldl_cons, List.foldl_nil]
      rw [digitChar_val _ (Nat.mod_lt _ (by norm_num))]
      omega

theorem fmt_injective {n m : Nat} (h : fmt n = fmt m) : n = m := by
  have := congrArg decimalValue h
  simpa [decimalValue_fmt] using this

/-- A character that is no digit does not occur in a decimal text. -/
theorem not_mem_fmt {c : Char} (hc : c.isDigit = false) (n : Nat) : c ∉ fmt n := by
  intro h
  have := fmt_isDigit n c h
  simp [hc] at this


/-! ## Searching the sequence -/

theorem find_idx_append_cons (pre post : List Line) (x needle : Line)
    (hpre : ∀ y ∈ pre, contains y needle = false) (hx : contains x needle = true) :
    find_idx (pre ++ x :: post) needle = pre.length := by
  unfold find_idx
  rw [List.findIdx_append, List.findIdx_eq_length.mpr hpre]
  simp [List.findIdx_cons, hx]

theorem find_idx_eq_length_of_none (a : List Line) (needle : Line)
    (h : ∀ y ∈ a, contains y needle = false) : find_idx a needle = a.length :=
  List.findIdx_eq_length.mpr h

/-- A sequence with a line containing the needle splits at the first such line. -/
theorem split_at_find_idx (a : List Line) (needle : Line)
    (h : find_idx a needle < a.length) :
    ∃ pre x post, a = pre ++ x :: post ∧ pre.length = find_idx a needle ∧
      (∀ y ∈ pre, contains y needle = false) ∧ contains x needle = true := by
  refine ⟨a.take (find_idx a needle), a[find_idx a needle], a.drop (find_idx a needle + 1),
    ?_, ?_, ?_, ?_⟩
  · simp
  · simp [Nat.le_of_lt h]
  · intro y hy
    obtain ⟨k, hk, rfl⟩ := List.getElem_of_mem hy
    rw [List.getElem_take]
    have hk2 : k < find_idx a needle := by
      have := hk
      simp only [List.length_take] at this
      omega
    exact List.not_of_lt_findIdx hk2
  · exact @List.findIdx_getElem _ (fun x => contains x needle) a h

/-! ## detectType -/

/-- An occurrence of `n1 ++ c :: n2` in `u ++ c :: w`, when `c` is in neither `u` nor `n1`,
either has its `c` on the displayed one or lies in `w`. -/
theorem infix_split_at_char {u w n1 n2 : Line} {c : Char} (hu : c ∉ u) (hn : c ∉ n1)
    (h : n1 ++ c :: n2 <:+: u ++ c :: w) :
    (n1 <:+ u ∧ n2 <+: w) ∨ n1 ++ c :: n2 <:+: w := by
  obtain ⟨s, t, hst⟩ := h
  have hst2 : (s ++ n1) ++ c :: (n2 ++ t) = u ++ c :: w := by simpa using hst
  rcases List.append_eq_append_iff.mp hst2 with ⟨r, hr, hr2⟩ | ⟨r, hr, hr2⟩
  · cases r with
    | nil =>
      left
      simp only [List.nil_append, List.cons.injEq, true_and] at hr2
      exact ⟨⟨s, by simpa using hr.symm⟩, ⟨t, hr2⟩⟩
    | cons r0 r =>
      exfalso
      simp only [List.cons_append, List.cons.injEq] at hr2
      apply hu
      rw [hr, hr2.1]
      simp
  · cases r with
    | nil =>
      left
      simp only [List.nil_append, List.cons.injEq, true_and] at hr2
      exact ⟨⟨s, by simpa using hr⟩, ⟨t, hr2.symm⟩⟩
    | cons r0 r =>
      right
      simp only [List.cons_append, List.cons.injEq] at hr2
      obtain ⟨hr0, hw⟩ := hr2
      subst hr0
      have h1 : n1 <:+ u ++ c :: r := ⟨s, hr⟩
      have h2 : r <:+ u ++ c :: r := ⟨u ++ [c], by simp⟩
      rcases List.suffix_or_suffix_of_suffix h1 h2 with h3 | h3
      · obtain ⟨z, hz⟩ := h3
        exact ⟨z, t, by rw [hw, ← hz]; simp⟩
      · obtain ⟨z, hz⟩ := h3
        have h5 : (s ++ z) ++ r = (u ++ [c]) ++ r := by
          rw [List.append_assoc, hz]; simpa using hr
        have h6 := List.append_cancel_right h5
        rcases List.eq_nil_or_concat z with rfl | ⟨z1, c1, rfl⟩
        · simp only [List.nil_append] at hz
          subst hz
          exact ⟨[], t, by rw [hw]; simp⟩
        · exfalso
          have h7 : (s ++ z1) ++ [c1] = u ++ [c] := by simpa using h6
          have h8 := List.append_inj_right' h7 rfl
          have h9 : c1 = c := by simpa using h8
          subst h9
          apply hn
          rw [← hz]
          simp

theorem not_infix_nil_cons (n1 n2 : Line) (c : Char) : ¬ n1 ++ c :: n2 <:+: [] := by
  intro h
  have := List.eq_nil_of_infix_nil h
  simp at this

/-- In a line `name = OpString "lit"` whose name and literal hold no double quote, the needle
`OpString "<p>` occurs exactly when the literal starts with `p`. -/
theorem contains_debug_string (name lit p : Line) (hn : dq ∉ name) (hl : dq ∉ lit)
    (hp : dq ∉ p) (hp0 : p ≠ []) :
    contains (name ++ " = OpString ".toList ++ dq :: lit ++ [dq])
      ("OpString ".toList ++ dq :: p) = true ↔ p <+: lit := by
  rw [contains_iff]
  have hu : dq ∉ name ++ " = OpString ".toList := by
    intro h
    rcases List.mem_append.mp h with h | h
    · exact hn h
    · revert h; decide
  have hn1 : dq ∉ "OpString ".toList := by decide
  constructor
  · intro h
    have h1 : "OpString ".toList ++ dq :: p <:+:
        (name ++ " = OpString ".toList) ++ dq :: (lit ++ [dq]) := by simpa using h
    rcases infix_split_at_char hu hn1 h1 with ⟨_, h2⟩ | h2
    · rcases List.prefix_concat_iff.mp h2 with h3 | h3
      · exfalso
        apply hp
        rw [h3]
        simp
      · exact h3
    · exfalso
      rcases infix_split_at_char hl hn1 h2 with ⟨_, h3⟩ | h3
      · exact hp0 (List.prefix_nil.mp h3)
      · exact not_infix_nil_cons _ _ _ h3
  · rintro ⟨t, rfl⟩
    exact ⟨name ++ " = ".toList, t ++ [dq], by simp⟩

theorem detectType_at_first (pre post : List Line) (x : Line)
    (hpre : ∀ y ∈ pre, contains y needleOpString = false)
    (hx : contains x needleOpString = true) :
    detectType (pre ++ x :: post) =
      if contains x needleVS then .ok .VS
      else if contains x needleFFVS then .ok .FF_VS
      else .ok .BTB := by
  unfold detectType
  simp only [find_idx_append_cons pre post x needleOpString hpre hx]
  have hget : (pre ++ x :: post)[pre.length]? = some x := by
    rw [List.getElem?_append_right (le_refl _)]
    simp
  rw [hget]


/-- C4 (amended). On a sequence whose first line containing the text `OpString` is `x`
(anywhere in the line, not only as the opcode), the result of `detectType` is the same
whatever lines without that text stand before `x` and whatever lines stand after it; it is
one of the three flavours: VS when `x` contains `OpString "VS_`, else FF_VS when `x`
contains `OpString "FF_VS`, else BTB.  When `x` is a debug-string line
`name = OpString "lit"` (no double quote in the name or the literal) it is VS if the literal
starts with `VS_`, FF_VS if it starts with `FF_VS`, and BTB otherwise. -/
theorem detectType_first_debug_string (pre post : List Line) (x : Line)
    (hpre : ∀ y ∈ pre, contains y needleOpString = false)
    (hx : contains x needleOpString = true) :
    (∀ pre2 post2 : List Line, (∀ y ∈ pre2, contains y needleOpString = false) →
        detectType (pre2 ++ x :: post2) = detectType (pre ++ x :: post)) ∧
    (detectType (pre ++ x :: post) = .ok .VS ∨ detectType (pre ++ x :: post) = .ok .FF_VS ∨
        detectType (pre ++ x :: post) = .ok .BTB) ∧
    (detectType (pre ++ x :: post) =
      if contains x needleVS then .ok .VS
      else if contains x needleFFVS then .ok .FF_VS
      else .ok .BTB) ∧
    (∀ name lit : Line, x = name ++ " = OpString ".toList ++ dq :: lit ++ [dq] →
        dq ∉ name → dq ∉ lit →
        detectType (pre ++ x :: post) =
          .ok (if "VS_".toList <+: lit then ShaderType.VS
               else if "FF_VS".toList <+: lit then ShaderType.FF_VS else ShaderType.BTB)) := by
  refine ⟨?_, ?_, detectType_at_first pre post x hpre hx, ?_⟩
  · intro pre2 post2 hpre2
    rw [detectType_at_first pre2 post2 x hpre2 hx, detectType_at_first pre post x hpre hx]
  · rw [detectType_at_first pre post x hpre hx]
    by_cases h1 : contains x needleVS = true
    · simp [h1]
    · by_cases h2 : contains x needleFFVS = true
      · simp [h1, h2]
      · simp [h1, h2]
  · intro name lit hxe hn hl
    rw [detectType_at_first pre post x hpre hx]
    have hvs : contains x needleVS = true ↔ "VS_".toList <+: lit := by
      rw [hxe]
      exact contains_debug_string name lit "VS_".toList hn hl (by decide) (by decide)
    have hff : contains x needleFFVS = true ↔ "FF_VS".toList <+: lit := by
      rw [hxe]
      exact contains_debug_string name lit "FF_VS".toList hn hl (by decide) (by decide)
    by_cases h1 : "VS_".toList <+: lit
    · rw [if_pos (hvs.mpr h1), if_pos h1]
    · rw [if_neg (fun h => h1 (hvs.mp h)), if_neg h1]
      by_cases h2 : "FF_VS".toList <+: lit
      · rw [if_pos (hff.mpr h2), if_pos h2]
      · rw [if_neg (fun h => h2 (hff.mp h)), if_neg h2]

/-- The sample shader, whose debug string is `VS_test`, is classified VS. -/
theorem detectType_first_debug_string_witness : detectType sampleShader = .ok .VS :=
  ((detectType_first_debug_string (sampleShader.take 2) (sampleShader.drop 3)
      ("%1 = OpString ".toList ++ dq :: "VS_test".toList ++ [dq])
      (by decide) (by decide)).2.2.2 "%1".toList "VS_test".toList rfl (by decide)
      (by decide)).trans (by decide)

/-- C4 as stated fails.  In `opStringInInterface` the only debug-string instruction is the
third line, whose literal `VS_abc` starts with `VS_`, yet the result is BTB: the search of
source lines 18-22 and 30 stops at the entry-point line, which holds the text `OpString`
inside the id `%OpString_in`.  Without that entry-point line the first debug-string
instruction is the same and the result is VS, so the result does not depend on that
instruction only. -/
theorem detectType_first_debug_string_counterexample :
    opStringInInterface.map debugStringLine = [false, false, true] ∧
    opStringInInterface[2]? =
      some ("%1 = OpString ".toList ++ dq :: "VS_abc".toList ++ [dq]) ∧
    find_idx opStringInInterface needleOpString = 1 ∧
    detectType opStringInInterface = .ok .BTB ∧
    (opStringInInterface.eraseIdx 1).map debugStringLine = [false, true] ∧
    (opStringInInterface.eraseIdx 1)[1]? =
      some ("%1 = OpString ".toList ++ dq :: "VS_abc".toList ++ [dq]) ∧
    detectType (opStringInInterface.eraseIdx 1) = .ok .VS := by
  decide

/-- C8. On a sequence with no line containing `OpString`, `find_idx` gives the length of the
sequence and `detectType` reads the element at that position, outside the vector: no flavour
is returned and no classification failure is reported. -/
theorem detectType_no_debug_string (a : List Line)
    (h : ∀ y ∈ a, contains y needleOpString = false) :
    find_idx a needleOpString = a.length ∧ detectType a = .error .outOfRange := by
  have hidx := find_idx_eq_length_of_none a needleOpString h
  refine ⟨hidx, ?_⟩
  unfold detectType
  simp only [hidx]
  rw [List.getElem?_eq_none (le_refl _)]

/-- A sequence of two lines without a debug string: the read is at position 2. -/
theorem detectType_no_debug_string_witness :
    find_idx ["OpCapability Shader".toList, "OpMemoryModel Logical GLSL450".toList]
        needleOpString = 2 ∧
      detectType ["OpCapability Shader".toList, "OpMemoryModel Logical GLSL450".toList] =
        .error .outOfRange :=
  detectType_no_debug_string
    ["OpCapability Shader".toList, "OpMemoryModel Logical GLSL450".toList] (by decide)

/-! ## addMultiViewCapability -/

/-- C5. On a non-empty sequence `addMultiViewCapability` returns a sequence on which it is
the identity, and a sequence that starts with the capability line is returned unchanged. -/
theorem addMultiViewCapability_idempotent (a : List Line) (h : a ≠ []) :
    ∃ b, addMultiViewCapability a = .ok b ∧ addMultiViewCapability b = .ok b ∧
      (a.head? = some capabilityLine → b = a) := by
  cases a with
  | nil => exact absurd rfl h
  | cons x rest =>
    by_cases hx : x = capabilityLine
    · exact ⟨x :: rest, by simp [addMultiViewCapability, hx], by
        simp [addMultiViewCapability, hx], fun _ => rfl⟩
    · refine ⟨capabilityLine :: x :: rest, by simp [addMultiViewCapability, hx], by
        simp [addMultiViewCapability], ?_⟩
      intro h2
      simp only [List.head?_cons, Option.some.injEq] at h2
      exact absurd h2 hx

/-- The sample shader gets the capability line once; a second run changes nothing. -/
theorem addMultiViewCapability_idempotent_witness :
    ∃ b, addMultiViewCapability sampleShader = .ok b ∧ addMultiViewCapability b = .ok b ∧
      (sampleShader.head? = some capabilityLine → b = sampleShader) :=
  addMultiViewCapability_idempotent sampleShader (by decide)


/-! ## patchEntryPoint -/

theorem set_eq_self {l : List Line} {e : Nat} {x : Line} (h : l[e]? = some x) :
    l.set e x = l := by
  apply List.ext_getElem?
  intro i
  by_cases hi : e = i
  · subst hi
    have hlt : e < l.length := by
      by_contra hc
      rw [List.getElem?_eq_none (by omega)] at h
      cases h
    rw [List.getElem?_set_self hlt, h]
  · rw [List.getElem?_set_ne hi]

theorem not_var_of_no_eq {x : Line} (h : '=' ∉ x) : contains x needleOpVariable = false := by
  by_contra hc
  have hc2 : contains x needleOpVariable = true := by simpa using hc
  exact h (mem_of_contains hc2 (by decide))

theorem collectedVars_append (s t : List Line) :
    collectedVars (s ++ t) = collectedVars s ++ collectedVars t := by
  simp [collectedVars]

theorem collectedVars_no_eq (s : List Line) : '=' ∉ (collectedVars s).flatten := by
  intro h
  obtain ⟨l, hl, hc⟩ := List.mem_flatten.mp h
  unfold collectedVars at hl
  obtain ⟨x, _, rfl⟩ := List.mem_map.mp hl
  exact substrToEq_no_eq x hc

/-- The loop of `patchEntryPoint` after `n` steps: the entry line is the header followed by
the texts collected from the first `n` lines. -/
theorem foldl_appendVar (e : Nat) (s0 : List Line) (hdr : Line) (he : s0[e]? = some hdr)
    (hhdr : '=' ∉ hdr) : ∀ n, n ≤ s0.length →
    (List.range n).foldl (appendVar e) s0 =
      s0.set e (hdr ++ (collectedVars (s0.take n)).flatten) := by
  have helt : e < s0.length := by
    by_contra hc
    rw [List.getElem?_eq_none (by omega)] at he
    cases he
  intro n
  induction n with
  | zero =>
    intro _
    simp [collectedVars, set_eq_self he]
  | succ n ih =>
    intro hn
    have hn2 : n < s0.length := by omega
    rw [List.range_succ, List.foldl_append, ih (by omega)]
    simp only [List.foldl_cons, List.foldl_nil]
    have hEn : '=' ∉ hdr ++ (collectedVars (s0.take n)).flatten := by
      intro h
      rcases List.mem_append.mp h with h | h
      · exact hhdr h
      · exact collectedVars_no_eq _ h
    have htake : s0.take (n + 1) = s0.take n ++ [s0[n]] := by
      rw [List.take_succ, List.getElem?_eq_getElem hn2]
      rfl
    rw [htake, collectedVars_append]
    unfold appendVar
    by_cases hen : e = n
    · subst hen
      rw [List.getElem?_set_self helt]
      simp only [not_var_of_no_eq hEn]
      have h1 : s0[e] = hdr := by
        have := List.getElem?_eq_getElem helt
        rw [he] at this
        exact (Option.some.inj this).symm
      simp [collectedVars, h1, not_var_of_no_eq hhdr]
    · rw [List.getElem?_set_ne hen, List.getElem?_eq_getElem hn2]
      simp only
      by_cases hv : contains s0[n] needleOpVariable = true
      · rw [if_pos hv, List.getElem?_set_self helt]
        simp only [List.set_set]
        simp [collectedVars, hv]
      · rw [if_neg hv]
        simp [collectedVars, hv]

theorem entryHeader_no_eq (flag : Bool) : '=' ∉ entryHeader flag := by
  cases flag <;> decide

/-- The result of `patchEntryPoint` in closed form. -/
theorem patchEntryPoint_eq (a : List Line) (flag : Bool)
    (h : find_idx a needleOpEntryPoint < a.length) :
    patchEntryPoint a flag = .ok (a.set (find_idx a needleOpEntryPoint)
      (entryHeader flag ++
        (collectedVars (a.set (find_idx a needleOpEntryPoint) (entryHeader flag))).flatten)) := by
  unfold patchEntryPoint
  simp only [h, if_true]
  have he : (a.set (find_idx a needleOpEntryPoint) (entryHeader flag))[
      find_idx a needleOpEntryPoint]? = some (entryHeader flag) := List.getElem?_set_self h
  have := foldl_appendVar (find_idx a needleOpEntryPoint) _ (entryHeader flag) he
    (entryHeader_no_eq flag) a.length (by simp)
  rw [this, List.set_set, List.take_of_length_le (by simp)]

/-- C3. When the sequence has an entry-point line, `patchEntryPoint` succeeds with either
flag; the entry line it writes is the header followed by a list of texts, and that list holds
the text before the first equals sign of every line of the resulting sequence that contains
`= OpVariable`, which are the variable lines of the input at every position other than the
entry line. -/
theorem patchEntryPoint_complete (a : List Line) (flag : Bool)
    (h : ∃ y ∈ a, contains y needleOpEntryPoint = true) :
    ∃ (out : List Line) (vars : List Line),
      patchEntryPoint a flag = .ok out ∧
      out[find_idx a needleOpEntryPoint]? = some (entryHeader flag ++ vars.flatten) ∧
      (∀ x ∈ out, contains x needleOpVariable = true → substrToEq x ∈ vars) ∧
      (∀ (k : Nat) (x : Line), a[k]? = some x → k ≠ find_idx a needleOpEntryPoint →
        contains x needleOpVariable = true → substrToEq x ∈ vars) := by
  have hlt : find_idx a needleOpEntryPoint < a.length := List.findIdx_lt_length.mpr h
  have hkey : ∀ (k : Nat) (x : Line), (a.set (find_idx a needleOpEntryPoint) (entryHeader flag))[k]? = some x →
      contains x needleOpVariable = true →
      substrToEq x ∈ collectedVars (a.set (find_idx a needleOpEntryPoint) (entryHeader flag)) := by
    intro k x hk hv
    unfold collectedVars
    exact List.mem_map.mpr ⟨x, List.mem_filter.mpr ⟨List.mem_iff_getElem?.mpr ⟨k, hk⟩, hv⟩, rfl⟩
  have hne : '=' ∉ entryHeader flag ++
      (collectedVars (a.set (find_idx a needleOpEntryPoint) (entryHeader flag))).flatten := by
    intro hm
    rcases List.mem_append.mp hm with hm | hm
    · exact entryHeader_no_eq flag hm
    · exact collectedVars_no_eq _ hm
  refine ⟨a.set (find_idx a needleOpEntryPoint) (entryHeader flag ++
      (collectedVars (a.set (find_idx a needleOpEntryPoint) (entryHeader flag))).flatten),
    collectedVars (a.set (find_idx a needleOpEntryPoint) (entryHeader flag)),
    patchEntryPoint_eq a flag hlt, List.getElem?_set_self hlt, ?_, ?_⟩
  · intro x hx hv
    obtain ⟨k, hk⟩ := List.mem_iff_getElem?.mp hx
    by_cases hke : find_idx a needleOpEntryPoint = k
    · exfalso
      subst hke
      rw [List.getElem?_set_self hlt] at hk
      have hx2 := Option.some.inj hk
      rw [← hx2, not_var_of_no_eq hne] at hv
      cases hv
    · rw [List.getElem?_set_ne hke] at hk
      exact hkey k x (by rw [List.getElem?_set_ne hke]; exact hk) hv
  · intro k x hk hne2 hv
    exact hkey k x (by rw [List.getElem?_set_ne (Ne.symm hne2)]; exact hk) hv

/-- The sample shader: the entry line becomes the header followed by the names of its two
variables. -/
theorem patchEntryPoint_complete_witness :
    ∃ (out : List Line) (vars : List Line),
      patchEntryPoint sampleShader false = .ok out ∧
      out[find_idx sampleShader needleOpEntryPoint]? =
        some (entryHeader false ++ vars.flatten) ∧
      (∀ x ∈ out, contains x needleOpVariable = true → substrToEq x ∈ vars) ∧
      (∀ (k : Nat) (x : Line), sampleShader[k]? = some x → k ≠ find_idx sampleShader needleOpEntryPoint →
        contains x needleOpVariable = true → substrToEq x ∈ vars) :=
  patchEntryPoint_complete sampleShader false (by decide)


/-! ## patchMatrixAccesses: text facts -/

/-- The searched pattern without its row number and the underscore before it. -/
theorem accessPattern_eq (f_idx i : Nat) :
    accessPattern f_idx i =
      "OpAccessChain %_ptr_Uniform_v4float %c %uint_1 %int".toList ++
        '_' :: fmt ((i + f_idx) % 4294967296) := rfl

/-- Two texts that end in a run of digits after a character that is no digit: a suffix
relation between them matches the separators and the digit runs. -/
theorem suffix_sep_digits {A B d1 d2 : Line} {s1 s2 : Char}
    (hs1 : s1.isDigit = false) (hs2 : s2.isDigit = false)
    (hd1 : ∀ c ∈ d1, c.isDigit = true) (hd2 : ∀ c ∈ d2, c.isDigit = true)
    (h : A ++ s1 :: d1 <:+ B ++ s2 :: d2) : d1 = d2 ∧ s1 = s2 ∧ A <:+ B := by
  have h1 : s1 :: d1 <:+ B ++ s2 :: d2 := List.IsSuffix.trans ⟨A, rfl⟩ h
  have h2 : s2 :: d2 <:+ B ++ s2 :: d2 := ⟨B, rfl⟩
  have hcons : s1 :: d1 = s2 :: d2 := by
    rcases List.suffix_or_suffix_of_suffix h1 h2 with h3 | h3
    · rcases List.suffix_cons_iff.mp h3 with h4 | h4
      · exact h4
      · exfalso
        have := hd2 s1 (h4.subset (by simp))
        simp [hs1] at this
    · rcases List.suffix_cons_iff.mp h3 with h4 | h4
      · exact h4.symm
      · exfalso
        have := hd1 s2 (h4.subset (by simp))
        simp [hs2] at this
  simp only [List.cons.injEq] at hcons
  obtain ⟨hs, hd⟩ := hcons
  subst hs hd
  refine ⟨rfl, rfl, ?_⟩
  obtain ⟨t, ht⟩ := h
  have ht2 : (t ++ A) ++ s1 :: d1 = B ++ s1 :: d1 := by simpa using ht
  exact ⟨t, List.append_cancel_right ht2⟩

theorem suffix_last_eq {A B : Line} {a b : Char} (h : A ++ [a] <:+ B ++ [b]) : a = b := by
  obtain ⟨t, ht⟩ := h
  have ht2 : (t ++ A) ++ [a] = B ++ [b] := by simpa using ht
  have := List.append_inj_right' ht2 rfl
  simpa using this

/-- A line `B ++ s :: d`, with `s` no digit and `d` a run of digits, ends with a searched
pattern only if `s` is the underscore, `d` the row number and `B` ends with the head of the
pattern. -/
theorem pattern_suffix {B d : Line} {s : Char} {f_idx i : Nat} (hs : s.isDigit = false)
    (hd : ∀ c ∈ d, c.isDigit = true) (h : accessPattern f_idx i <:+ B ++ s :: d) :
    fmt ((i + f_idx) % 4294967296) = d ∧ '_' = s ∧
      "OpAccessChain %_ptr_Uniform_v4float %c %uint_1 %int".toList <:+ B := by
  rw [accessPattern_eq] at h
  exact suffix_sep_digits (by decide) hs (fmt_isDigit _) hd h

/-- A rewritten line ends with none of the searched patterns. -/
theorem rewriteAccess_not_match (f_idx i j : Nat) (x : Line) :
    ends_with (rewriteAccess f_idx i x) (accessPattern f_idx j) = false := by
  rw [ends_with_eq_false_iff]
  intro h
  have hform : rewriteAccess f_idx i x =
      (substrToEq x ++ "= OpAccessChain %_ptr_Uniform_v4float %c %uint_1 %i_f".toList ++
        fmt f_idx) ++ '_' :: fmt i := by
    simp [rewriteAccess]
  rw [hform] at h
  obtain ⟨_, _, h3⟩ := pattern_suffix (by decide) (fmt_isDigit i) h
  rcases List.eq_nil_or_concat (fmt f_idx) with h0 | ⟨g, z, hz⟩
  · exact fmt_ne_nil f_idx h0
  · have hzd : z.isDigit = true := fmt_isDigit f_idx z (by rw [hz]; simp)
    rw [hz] at h3
    have h4 : "OpAccessChain %_ptr_Uniform_v4float %c %uint_1 %in".toList ++ ['t'] <:+
        (substrToEq x ++ "= OpAccessChain %_ptr_Uniform_v4float %c %uint_1 %i_f".toList ++ g) ++
          [z] := by
      simpa using h3
    have := suffix_last_eq h4
    subst this
    simp at hzd

/-- A line whose last character is no digit ends with no searched pattern. -/
theorem not_match_of_last {B : Line} {z : Char} (hz : z.isDigit = false) (f_idx j : Nat) :
    ends_with (B ++ [z]) (accessPattern f_idx j) = false := by
  rw [ends_with_eq_false_iff]
  intro h
  obtain ⟨h1, _, _⟩ := pattern_suffix (d := []) hz (by simp) h
  exact fmt_ne_nil _ h1

/-- A line `B ++ s :: d` ends with no searched pattern when `B` does not end with the head
of the pattern. -/
theorem not_match_of_head {B d : Line} {s : Char} (hs : s.isDigit = false)
    (hd : ∀ c ∈ d, c.isDigit = true)
    (hB : ends_with B "OpAccessChain %_ptr_Uniform_v4float %c %uint_1 %int".toList = false)
    (f_idx j : Nat) : ends_with (B ++ s :: d) (accessPattern f_idx j) = false := by
  rw [ends_with_eq_false_iff]
  intro h
  obtain ⟨_, _, h3⟩ := pattern_suffix hs hd h
  rw [ends_with_eq_false_iff] at hB
  exact hB h3


/-- A line `B ++ T ++ s :: d` ends with no searched pattern when the known tail `T ++ [s]`
does not fit the end of the pattern head. -/
theorem not_match_of_tail {B T d : Line} {s : Char} (hs : s.isDigit = false)
    (hd : ∀ c ∈ d, c.isDigit = true)
    (hlen : T.length ≤ 51)
    (hT : ends_with "OpAccessChain %_ptr_Uniform_v4float %c %uint_1 %int_".toList (T ++ [s]) =
      false)
    (f_idx j : Nat) : ends_with (B ++ T ++ s :: d) (accessPattern f_idx j) = false := by
  rw [ends_with_eq_false_iff]
  intro h
  obtain ⟨_, h2, h3⟩ := pattern_suffix hs hd h
  subst h2
  rw [ends_with_eq_false_iff] at hT
  apply hT
  have h4 : T <:+ "OpAccessChain %_ptr_Uniform_v4float %c %uint_1 %int".toList :=
    List.suffix_of_suffix_length_le ⟨B, rfl⟩ h3 (by simpa using hlen)
  obtain ⟨t, ht⟩ := h4
  exact ⟨t, by
    rw [← List.append_assoc, ht]
    rfl⟩

theorem decorationLine_not_match (f_idx j : Nat) :
    ends_with decorationLine (accessPattern f_idx j) = false :=
  not_match_of_last (B := "OpDecorate %ViewIndex BuiltIn ViewInde".toList) (z := 'x')
    (by decide) f_idx j

theorem ptrLine_not_match (f_idx j : Nat) :
    ends_with ptrLine (accessPattern f_idx j) = false :=
  not_match_of_last (B := "%ptr = OpTypePointer Input %uin".toList) (z := 't')
    (by decide) f_idx j

theorem viewIndexLine_not_match (f_idx j : Nat) :
    ends_with viewIndexLine (accessPattern f_idx j) = false :=
  not_match_of_last (B := "%ViewIndex = OpVariable %ptr Inpu".toList) (z := 't')
    (by decide) f_idx j

theorem viLine_not_match (f_idx j : Nat) :
    ends_with viLine (accessPattern f_idx j) = false :=
  not_match_of_last (B := "%vi = OpLoad %uint %ViewInde".toList) (z := 'x')
    (by decide) f_idx j

theorem dataOffsetLine_not_match (f_idx j : Nat) :
    ends_with dataOffsetLine (accessPattern f_idx j) = false :=
  not_match_of_last
    (B := "%data_offset = OpIAdd %uint %shader_data_begin %view_offse".toList) (z := 't')
    (by decide) f_idx j

theorem faddLine_not_match (d : Char) (f_idx j : Nat) :
    ends_with (faddLine d) (accessPattern f_idx j) = false :=
  not_match_of_last
    (B := "%fadd_".toList ++ d :: " = OpIAdd %uint %uint_".toList ++ d :: " %f_id".toList)
    (z := 'x') (by decide) f_idx j

theorem dataBeginLine_not_match (offset f_idx j : Nat) :
    ends_with (dataBeginLine offset) (accessPattern f_idx j) = false :=
  not_match_of_tail (B := "%shader_data_begin = OpConstant ".toList) (T := "%uint".toList)
    (s := ' ') (by decide) (fmt_isDigit offset) (by decide) (by decide) f_idx j

theorem fIdxLine_not_match (f j k : Nat) :
    ends_with (fIdxLine f) (accessPattern k j) = false :=
  not_match_of_tail (B := "%f_idx = OpConstant ".toList) (T := "%uint".toList)
    (s := ' ') (by decide) (fmt_isDigit f) (by decide) (by decide) k j

theorem viewOffsetLine_not_match (f_idx j : Nat) :
    ends_with viewOffsetLine (accessPattern f_idx j) = false :=
  not_match_of_tail (B := "%view_offset = OpIMul %uint %vi ".toList) (T := "%uint".toList)
    (s := '_') (d := ['4']) (by decide) (by decide) (by decide) (by decide) f_idx j

theorem rowFaddLine_not_match (f : Nat) (c : Char) (hc : c.isDigit = true) (k j : Nat) :
    ends_with (rowFaddLine f c) (accessPattern k j) = false := by
  have hform : rowFaddLine f c =
      ("%i_f".toList ++ fmt f ++ '_' :: c :: " = OpIAdd %uint %data_offset ".toList) ++
        "%fadd".toList ++ '_' :: [c] := by
    simp [rowFaddLine]
  rw [hform]
  exact not_match_of_tail (by decide) (by simpa using hc) (by decide) (by decide) k j

theorem rowUintLine_not_match (f : Nat) (c : Char) (hc : c.isDigit = true) (k j : Nat) :
    ends_with (rowUintLine f c) (accessPattern k j) = false := by
  have hform : rowUintLine f c =
      ("%i_f".toList ++ fmt f ++ '_' :: c :: " = OpIAdd %uint %data_offset ".toList) ++
        "%uint".toList ++ '_' :: [c] := by
    simp [rowUintLine]
  rw [hform]
  exact not_match_of_tail (by decide) (by simpa using hc) (by decide) (by decide) k j

/-- None of the lines inserted by `patchMatrixAccesses` ends with a searched pattern. -/
theorem inserted_not_match (f_idx offset k j : Nat) :
    ∀ x ∈ decorationLine :: (declarationLines f_idx offset ++ viewOffsetLines f_idx),
      ends_with x (accessPattern k j) = false := by
  intro x hx
  simp only [declarationLines, viewOffsetLines, List.mem_cons, List.mem_append,
    List.mem_singleton, List.not_mem_nil, or_false] at hx
  rcases hx with rfl | (rfl | rfl | rfl | rfl) | (rfl | rfl | rfl) | hx
  · exact decorationLine_not_match k j
  · exact ptrLine_not_match k j
  · exact viewIndexLine_not_match k j
  · exact dataBeginLine_not_match offset k j
  · exact fIdxLine_not_match f_idx j k
  · exact viLine_not_match k j
  · exact viewOffsetLine_not_match k j
  · exact dataOffsetLine_not_match k j
  · by_cases hf : f_idx > 0
    · simp only [hf, if_true, List.mem_cons, List.mem_singleton, List.not_mem_nil,
        or_false] at hx
      rcases hx with rfl | rfl | rfl | rfl | rfl | rfl | rfl | rfl
      · exact faddLine_not_match _ k j
      · exact faddLine_not_match _ k j
      · exact faddLine_not_match _ k j
      · exact faddLine_not_match _ k j
      · exact rowFaddLine_not_match f_idx _ (by decide) k j
      · exact rowFaddLine_not_match f_idx _ (by decide) k j
      · exact rowFaddLine_not_match f_idx _ (by decide) k j
      · exact rowFaddLine_not_match f_idx _ (by decide) k j
    · simp only [hf, if_false, List.mem_cons, List.mem_singleton, List.not_mem_nil,
        or_false] at hx
      rcases hx with rfl | rfl | rfl | rfl
      · exact rowUintLine_not_match f_idx _ (by decide) k j
      · exact rowUintLine_not_match f_idx _ (by decide) k j
      · exact rowUintLine_not_match f_idx _ (by decide) k j
      · exact rowUintLine_not_match f_idx _ (by decide) k j

/-- A fixed text followed by a number does not contain ` = OpLabel` unless the fixed text
does. -/
theorem no_label_of_number (C : Line) (n : Nat) (hC : contains C needleOpLabel = false) :
    contains (C ++ fmt n) needleOpLabel = false := by
  rw [contains_eq_false_iff] at hC ⊢
  intro h
  apply hC
  have hz : 'l' ∉ fmt n := not_mem_fmt (by decide) n
  exact infix_append_of_last_not_mem (n := " = OpLabe".toList) hz h

theorem declarationLines_no_label (f_idx offset : Nat) :
    ∀ x ∈ declarationLines f_idx offset, contains x needleOpLabel = false := by
  intro x hx
  simp only [declarationLines, List.mem_cons, List.mem_singleton, List.not_mem_nil,
    or_false] at hx
  rcases hx with rfl | rfl | rfl | rfl
  · decide
  · decide
  · exact no_label_of_number _ offset (by decide)
  · exact no_label_of_number _ f_idx (by decide)

theorem decorationLine_no_label : contains decorationLine needleOpLabel = false := by decide


/-! ## patchMatrixAccesses: the insertions -/

theorem insertAt_append (u v : List Line) (x : Line) (pos : Int)
    (h : pos = (u.length : Int)) : insertAt (u ++ v) pos x = .ok (u ++ x :: v) := by
  subst h
  unfold insertAt
  simp

theorem insertAt_of_neg (a : List Line) (x : Line) (pos : Int) (h : pos < 0) :
    insertAt a pos x = .error .outOfRange := by
  unfold insertAt
  rw [if_neg]
  omega

theorem insertAt_of_gt (a : List Line) (x : Line) (pos : Int) (h : (a.length : Int) < pos) :
    insertAt a pos x = .error .outOfRange := by
  unfold insertAt
  rw [if_neg]
  omega

theorem insertDecoration_eq (a : List Line) : insertDecoration a = .ok (withDecoration a) := by
  unfold insertDecoration withDecoration insertAt
  have := @List.findIdx_le_length _ (fun x => contains x needleOpDecorate) a
  simp [find_idx, this]

theorem find_idx_append_of_none (u v : List Line) (needle : Line)
    (hu : ∀ y ∈ u, contains y needle = false) :
    find_idx (u ++ v) needle = u.length + find_idx v needle := by
  unfold find_idx
  rw [List.findIdx_append, List.findIdx_eq_length.mpr hu]
  simp [Nat.add_comm]

theorem take_past_cons (pre post : List Line) (x : Line) (D : Nat) (h : pre.length < D) :
    (pre ++ x :: post).take D = pre ++ x :: post.take (D - pre.length - 1) := by
  rw [List.take_append_eq_append_take, List.take_of_length_le (Nat.le_of_lt h)]
  have h4 : D - pre.length = (D - pre.length - 1) + 1 := by omega
  rw [h4, List.take_succ_cons]
  simp

/-- Position of the first label line after the decoration has been inserted. -/
theorem find_idx_withDecoration (a : List Line) :
    find_idx (withDecoration a) needleOpLabel = labelIndexAfterDecoration a := by
  unfold withDecoration labelIndexAfterDecoration
  have hsplit := List.take_append_drop (find_idx a needleOpDecorate) a
  have hle : find_idx a needleOpDecorate ≤ a.length :=
    List.findIdx_le_length (fun x => contains x needleOpDecorate)
  have hlen : (a.take (find_idx a needleOpDecorate)).length = find_idx a needleOpDecorate := by
    simp [hle]
  by_cases h : find_idx a needleOpDecorate ≤ find_idx a needleOpLabel
  · rw [if_pos h]
    have hnone : ∀ y ∈ a.take (find_idx a needleOpDecorate),
        contains y needleOpLabel = false := by
      intro y hy
      obtain ⟨k, hk, rfl⟩ := List.getElem_of_mem hy
      rw [List.getElem_take]
      have hk2 : k < find_idx a needleOpLabel := by
        simp only [List.length_take] at hk
        omega
      exact List.not_of_lt_findIdx hk2
    have h1 : find_idx a needleOpLabel = find_idx a needleOpDecorate +
        find_idx (a.drop (find_idx a needleOpDecorate)) needleOpLabel := by
      conv_lhs => rw [← hsplit]
      rw [find_idx_append_of_none _ _ _ hnone, hlen]
    rw [find_idx_append_of_none _ _ _ hnone, hlen]
    have h2 : find_idx (decorationLine :: a.drop (find_idx a needleOpDecorate)) needleOpLabel =
        find_idx (a.drop (find_idx a needleOpDecorate)) needleOpLabel + 1 := by
      unfold find_idx
      rw [List.findIdx_cons, decorationLine_no_label]
      rfl
    rw [h2, h1]
    omega
  · rw [if_neg h]
    have hlt : find_idx a needleOpLabel < find_idx a needleOpDecorate := by omega
    have hlt2 : find_idx a needleOpLabel < a.length := by omega
    obtain ⟨pre, x, post, ha, hpl, hpre, hx⟩ := split_at_find_idx a needleOpLabel hlt2
    have htake : a.take (find_idx a needleOpDecorate) =
        pre ++ x :: post.take (find_idx a needleOpDecorate - pre.length - 1) := by
      have h3 : pre.length < find_idx a needleOpDecorate := by omega
      have := take_past_cons pre post x (find_idx a needleOpDecorate) h3
      rw [← ha] at this
      exact this
    rw [htake]
    simp only [List.append_assoc, List.cons_append]
    rw [find_idx_append_cons pre _ x needleOpLabel hpre hx, hpl]
    simp


/-- An insert right after the block `m` that follows `u`. -/
theorem insertAt_step (u m v : List Line) (x : Line) (pos : Int)
    (h : pos = ((u.length + m.length : Nat) : Int)) :
    insertAt (u ++ (m ++ v)) pos x = .ok (u ++ ((m ++ [x]) ++ v)) := by
  have := insertAt_append (u ++ m) v x pos (by simp [h])
  simpa using this

theorem ok_bind {α β : Type} (x : α) (g : α → Except Fault β) :
    (Except.ok x >>= g) = g x := rfl

theorem error_bind {α β : Type} (e : Fault) (g : α → Except Fault β) :
    ((Except.error e : Except Fault α) >>= g) = Except.error e := rfl

theorem insertDeclarations_eq (P R : List Line) (q1 q2 lab : Line) (f_idx offset : Nat)
    (hP : ∀ y ∈ P, contains y needleOpLabel = false)
    (hq1 : contains q1 needleOpLabel = false) (hq2 : contains q2 needleOpLabel = false)
    (hlab : contains lab needleOpLabel = true) :
    insertDeclarations (P ++ q1 :: q2 :: lab :: R) f_idx offset =
      .ok (P ++ (declarationLines f_idx offset ++ q1 :: q2 :: lab :: R)) := by
  have hfind : find_idx (P ++ q1 :: q2 :: lab :: R) needleOpLabel = P.length + 2 := by
    have := find_idx_append_cons (P ++ [q1, q2]) R lab needleOpLabel (by
      intro y hy
      simp only [List.mem_append, List.mem_cons, List.mem_singleton, List.not_mem_nil,
        or_false] at hy
      rcases hy with hy | rfl | rfl
      · exact hP y hy
      · exact hq1
      · exact hq2) hlab
    simpa using this
  unfold insertDeclarations
  simp only [hfind]
  have e1 := insertAt_step P [] (q1 :: q2 :: lab :: R) ptrLine
    (((P.length + 2 : Nat) : Int) - 2) (by simp)
  have e2 := insertAt_step P ([] ++ [ptrLine]) (q1 :: q2 :: lab :: R) viewIndexLine
    (((P.length + 2 : Nat) : Int) - 2 + 1) (by simp)
  have e3 := insertAt_step P ([] ++ [ptrLine] ++ [viewIndexLine]) (q1 :: q2 :: lab :: R)
    (dataBeginLine offset) (((P.length + 2 : Nat) : Int) - 2 + 2) (by simp)
  have e4 := insertAt_step P ([] ++ [ptrLine] ++ [viewIndexLine] ++ [dataBeginLine offset])
    (q1 :: q2 :: lab :: R) (fIdxLine f_idx) (((P.length + 2 : Nat) : Int) - 2 + 3)
    (by simp)
  simp only [List.nil_append] at e1 e2 e3 e4
  rw [e1, ok_bind, e2, ok_bind, e3, ok_bind, e4]
  simp [declarationLines]

/-- With the label at position 0 or 1 the first declaration is inserted at a negative
position. -/
theorem insertDeclarations_of_lt (a : List Line) (f_idx offset : Nat)
    (h : find_idx a needleOpLabel < 2) :
    insertDeclarations a f_idx offset = .error .outOfRange := by
  unfold insertDeclarations
  simp only []
  rw [insertAt_of_neg _ _ _ (by omega)]
  rfl


theorem insertViewOffset_eq (U R : List Line) (lab : Line) (f_idx : Nat)
    (hU : ∀ y ∈ U, contains y needleOpLabel = false)
    (hlab : contains lab needleOpLabel = true) :
    insertViewOffset (U ++ lab :: R) f_idx =
      .ok (U ++ lab :: (viewOffsetLines f_idx ++ R)) := by
  have hfind := find_idx_append_cons U R lab needleOpLabel hU hlab
  unfold insertViewOffset
  simp only [hfind]
  have hform : U ++ lab :: R = (U ++ [lab]) ++ ([] ++ R) := by simp
  rw [hform]
  have e1 := insertAt_step (U ++ [lab]) [] R viLine ((U.length : Int) + 1) (by simp)
  have e2 := insertAt_step (U ++ [lab]) ([] ++ [viLine]) R viewOffsetLine
    ((U.length : Int) + 2) (by simp; omega)
  have e3 := insertAt_step (U ++ [lab]) ([] ++ [viLine] ++ [viewOffsetLine]) R dataOffsetLine
    ((U.length : Int) + 3) (by simp; omega)
  rw [e1, ok_bind, e2, ok_bind, e3, ok_bind]
  by_cases hf : f_idx > 0
  · simp only [hf, if_true]
    have e4 := insertAt_step (U ++ [lab]) ([] ++ [viLine] ++ [viewOffsetLine] ++
      [dataOffsetLine]) R (faddLine '0') ((U.length : Int) + 4) (by simp; omega)
    have e5 := insertAt_step (U ++ [lab]) ([] ++ [viLine] ++ [viewOffsetLine] ++
      [dataOffsetLine] ++ [faddLine '0']) R (faddLine '1') ((U.length : Int) + 5)
      (by simp; omega)
    have e6 := insertAt_step (U ++ [lab]) ([] ++ [viLine] ++ [viewOffsetLine] ++
      [dataOffsetLine] ++ [faddLine '0'] ++ [faddLine '1']) R (faddLine '2')
      ((U.length : Int) + 6) (by simp; omega)
    have e7 := insertAt_step (U ++ [lab]) ([] ++ [viLine] ++ [viewOffsetLine] ++
      [dataOffsetLine] ++ [faddLine '0'] ++ [faddLine '1'] ++ [faddLine '2']) R (faddLine '3')
      ((U.length : Int) + 7) (by simp; omega)
    have e8 := insertAt_step (U ++ [lab]) ([] ++ [viLine] ++ [viewOffsetLine] ++
      [dataOffsetLine] ++ [faddLine '0'] ++ [faddLine '1'] ++ [faddLine '2'] ++
      [faddLine '3']) R (rowFaddLine f_idx '0') ((U.length : Int) + 8) (by simp; omega)
    have e9 := insertAt_step (U ++ [lab]) ([] ++ [viLine] ++ [viewOffsetLine] ++
      [dataOffsetLine] ++ [faddLine '0'] ++ [faddLine '1'] ++ [faddLine '2'] ++
      [faddLine '3'] ++ [rowFaddLine f_idx '0']) R (rowFaddLine f_idx '1')
      ((U.length : Int) + 9) (by simp; omega)
    have e10 := insertAt_step (U ++ [lab]) ([] ++ [viLine] ++ [viewOffsetLine] ++
      [dataOffsetLine] ++ [faddLine '0'] ++ [faddLine '1'] ++ [faddLine '2'] ++
      [faddLine '3'] ++ [rowFaddLine f_idx '0'] ++ [rowFaddLine f_idx '1']) R
      (rowFaddLine f_idx '2') ((U.length : Int) + 10) (by simp; omega)
    have e11 := insertAt_step (U ++ [lab]) ([] ++ [viLine] ++ [viewOffsetLine] ++
      [dataOffsetLine] ++ [faddLine '0'] ++ [faddLine '1'] ++ [faddLine '2'] ++
      [faddLine '3'] ++ [rowFaddLine f_idx '0'] ++ [rowFaddLine f_idx '1'] ++
      [rowFaddLine f_idx '2']) R (rowFaddLine f_idx '3') ((U.length : Int) + 11)
      (by simp; omega)
    rw [e4, ok_bind, e5, ok_bind, e6, ok_bind, e7, ok_bind, e8, ok_bind, e9, ok_bind, e10,
      ok_bind, e11]
    simp [viewOffsetLines, hf]
  · simp only [hf, if_false]
    have e4 := insertAt_step (U ++ [lab]) ([] ++ [viLine] ++ [viewOffsetLine] ++
      [dataOffsetLine]) R (rowUintLine f_idx '0') ((U.length : Int) + 4) (by simp; omega)
    have e5 := insertAt_step (U ++ [lab]) ([] ++ [viLine] ++ [viewOffsetLine] ++
      [dataOffsetLine] ++ [rowUintLine f_idx '0']) R (rowUintLine f_idx '1')
      ((U.length : Int) + 5) (by simp; omega)
    have e6 := insertAt_step (U ++ [lab]) ([] ++ [viLine] ++ [viewOffsetLine] ++
      [dataOffsetLine] ++ [rowUintLine f_idx '0'] ++ [rowUintLine f_idx '1']) R
      (rowUintLine f_idx '2') ((U.length : Int) + 6) (by simp; omega)
    have e7 := insertAt_step (U ++ [lab]) ([] ++ [viLine] ++ [viewOffsetLine] ++
      [dataOffsetLine] ++ [rowUintLine f_idx '0'] ++ [rowUintLine f_idx '1'] ++
      [rowUintLine f_idx '2']) R (rowUintLine f_idx '3') ((U.length : Int) + 7)
      (by simp; omega)
    rw [e4, ok_bind, e5, ok_bind, e6, ok_bind, e7]
    simp [viewOffsetLines, hf]

/-- Without a label line the first insert of source line 110 is one past the end. -/
theorem insertViewOffset_of_none (a : List Line) (f_idx : Nat)
    (h : ∀ y ∈ a, contains y needleOpLabel = false) :
    insertViewOffset a f_idx = .error .outOfRange := by
  unfold insertViewOffset
  simp only [find_idx_eq_length_of_none a needleOpLabel h]
  rw [insertAt_of_gt _ _ _ (by omega)]
  rfl


/-! ## patchMatrixAccesses: the rewrite passes -/

theorem split_at_findIdx (p : Line → Bool) (l : List Line) (h : l.findIdx p < l.length) :
    ∃ mid x rest, l = mid ++ x :: rest ∧ mid.length = l.findIdx p ∧
      (∀ y ∈ mid, p y = false) ∧ p x = true := by
  refine ⟨l.take (l.findIdx p), l[l.findIdx p], l.drop (l.findIdx p + 1), ?_, ?_, ?_, ?_⟩
  · simp
  · simp [Nat.le_of_lt h]
  · intro y hy
    obtain ⟨k, hk, rfl⟩ := List.getElem_of_mem hy
    rw [List.getElem_take]
    have hk2 : k < l.findIdx p := by
      simp only [List.length_take] at hk
      omega
    exact List.not_of_lt_findIdx hk2
  · exact @List.findIdx_getElem _ p l h

theorem set_append_length (u v : List Line) (x y : Line) :
    (u ++ x :: v).set u.length y = u ++ y :: v := by
  induction u with
  | nil => rfl
  | cons c cs ih => simp [ih]

theorem map_rewriteIf_of_none (f_idx i : Nat) (l : List Line)
    (h : ∀ y ∈ l, ends_with y (accessPattern f_idx i) = false) :
    l.map (rewriteIf f_idx i) = l := by
  induction l with
  | nil => rfl
  | cons c cs ih =>
    have hc := h c (by simp)
    have hcs : ∀ y ∈ cs, ends_with y (accessPattern f_idx i) = false :=
      fun y hy => h y (by simp [hy])
    simp [rewriteIf, hc, ih hcs]

/-- Pass `i` from scan position `pre.length`, given one unit of budget for every matching
line ahead and two more: the lines ahead are rewritten where they match. -/
theorem patchRow_eq (f_idx i : Nat) : ∀ (fuel : Nat) (pre suf : List Line),
    suf.countP (fun x => ends_with x (accessPattern f_idx i)) + 2 ≤ fuel →
    patchRow f_idx i fuel (pre ++ suf) pre.length = .ok (pre ++ suf.map (rewriteIf f_idx i)) := by
  intro fuel
  induction fuel with
  | zero => intro pre suf h; omega
  | succ fuel ih =>
    intro pre suf h
    rw [patchRow]
    by_cases hnil : suf = []
    · subst hnil
      simp
    · have hne : pre.length ≠ (pre ++ suf).length := by
        have : 0 < suf.length := List.length_pos.mpr hnil
        simp only [List.length_append]
        omega
      rw [if_neg hne]
      simp only [List.drop_left]
      by_cases hfound : suf.findIdx (fun x => ends_with x (accessPattern f_idx i)) < suf.length
      · obtain ⟨mid, x, rest, hsuf, hlen, hmid, hx⟩ := split_at_findIdx _ suf hfound
        rw [← hlen]
        have hget : (pre ++ suf)[pre.length + mid.length]? = some x := by
          rw [hsuf]
          have : pre ++ (mid ++ x :: rest) = (pre ++ mid) ++ x :: rest := by simp
          rw [this]
          have hl : pre.length + mid.length = (pre ++ mid).length := by simp
          rw [hl, List.getElem?_append_right (le_refl _)]
          simp
        rw [hget]
        simp only
        have hset : (pre ++ suf).set (pre.length + mid.length) (rewriteAccess f_idx i x) =
            (pre ++ mid) ++ (rewriteAccess f_idx i x :: rest) := by
          rw [hsuf]
          have : pre ++ (mid ++ x :: rest) = (pre ++ mid) ++ x :: rest := by simp
          rw [this]
          have hl : pre.length + mid.length = (pre ++ mid).length := by simp
          rw [hl, set_append_length]
        rw [hset]
        have hl : pre.length + mid.length = (pre ++ mid).length := by simp
        rw [hl]
        have hcount : (rewriteAccess f_idx i x :: rest).countP
            (fun x => ends_with x (accessPattern f_idx i)) + 2 ≤ fuel := by
          rw [hsuf] at h
          have h1 : (x :: rest).countP (fun x => ends_with x (accessPattern f_idx i)) =
              rest.countP (fun x => ends_with x (accessPattern f_idx i)) + 1 := by
            simp [List.countP_cons, hx]
          have h2 : (rewriteAccess f_idx i x :: rest).countP
              (fun x => ends_with x (accessPattern f_idx i)) =
              rest.countP (fun x => ends_with x (accessPattern f_idx i)) := by
            simp [List.countP_cons, rewriteAccess_not_match f_idx i i x]
          rw [List.countP_append, h1] at h
          rw [h2]
          omega
        rw [ih (pre ++ mid) _ hcount, hsuf]
        simp only [List.map_append, List.map_cons, map_rewriteIf_of_none f_idx i mid hmid,
          List.append_assoc]
        simp [rewriteIf, hx, rewriteAccess_not_match f_idx i i x]
      · have hnone : suf.findIdx (fun x => ends_with x (accessPattern f_idx i)) =
            suf.length := by
          have := @List.findIdx_le_length _ (fun x => ends_with x (accessPattern f_idx i))
            suf
          omega
        rw [hnone]
        have hget : (pre ++ suf)[pre.length + suf.length]? = none := by
          rw [List.getElem?_eq_none (by simp)]
        rw [hget]
        simp only
        have hfuel : fuel = (fuel - 1) + 1 := by omega
        rw [hfuel, patchRow]
        rw [if_pos (by simp)]
        rw [map_rewriteIf_of_none f_idx i suf (List.findIdx_eq_length.mp hnone)]


theorem rewriteIf_comp (f_idx : Nat) (x : Line) :
    rewriteIf f_idx 3 (rewriteIf f_idx 2 (rewriteIf f_idx 1 (rewriteIf f_idx 0 x))) =
      rewriteLine f_idx x := by
  unfold rewriteLine
  by_cases h0 : ends_with x (accessPattern f_idx 0) = true
  · simp [rewriteIf, h0, rewriteAccess_not_match]
  · by_cases h1 : ends_with x (accessPattern f_idx 1) = true
    · simp [rewriteIf, h0, h1, rewriteAccess_not_match]
    · by_cases h2 : ends_with x (accessPattern f_idx 2) = true
      · simp [rewriteIf, h0, h1, h2, rewriteAccess_not_match]
      · by_cases h3 : ends_with x (accessPattern f_idx 3) = true
        · simp [rewriteIf, h0, h1, h2, h3]
        · simp [rewriteIf, h0, h1, h2, h3]

theorem patchRow_from_start (f_idx i fuel : Nat) (a : List Line) (h : a.length + 2 ≤ fuel) :
    patchRow f_idx i fuel a 0 = .ok (a.map (rewriteIf f_idx i)) := by
  have hc := @List.countP_le_length _ (fun x => ends_with x (accessPattern f_idx i)) a
  have := patchRow_eq f_idx i fuel [] a (by omega)
  simpa using this

/-- The four passes, given a budget of two more than the number of lines. -/
theorem patchRows_eq (fuel f_idx : Nat) (a : List Line) (h : a.length + 2 ≤ fuel) :
    patchRows fuel f_idx a = .ok (a.map (rewriteLine f_idx)) := by
  unfold patchRows
  rw [patchRow_from_start f_idx 0 fuel a h, ok_bind,
    patchRow_from_start f_idx 1 fuel _ (by simpa using h), ok_bind,
    patchRow_from_start f_idx 2 fuel _ (by simpa using h), ok_bind,
    patchRow_from_start f_idx 3 fuel _ (by simpa using h)]
  simp only [List.map_map]
  congr 1
  apply List.map_congr_left
  intro x _
  exact rewriteIf_comp f_idx x

/-! ## patchMatrixAccesses: the whole function -/

theorem viewOffsetLines_length (f_idx : Nat) : (viewOffsetLines f_idx).length ≤ 11 := by
  unfold viewOffsetLines
  by_cases hf : f_idx > 0 <;> simp [hf]

/-- The sequence with its decoration splits around the label when the label is at position
2 or later. -/
theorem exists_split (a : List Line) (hlab : find_idx a needleOpLabel < a.length)
    (h2 : 2 ≤ labelIndexAfterDecoration a) :
    ∃ (P : List Line) (q1 q2 lab : Line) (R : List Line),
      withDecoration a = P ++ q1 :: q2 :: lab :: R ∧
      P.length + 2 = labelIndexAfterDecoration a ∧
      (∀ y ∈ P, contains y needleOpLabel = false) ∧
      contains q1 needleOpLabel = false ∧ contains q2 needleOpLabel = false ∧
      contains lab needleOpLabel = true := by
  have hL := find_idx_withDecoration a
  have hlen : (withDecoration a).length = a.length + 1 := by
    unfold withDecoration
    have hle : find_idx a needleOpDecorate ≤ a.length :=
      List.findIdx_le_length (fun x => contains x needleOpDecorate)
    simp
    omega
  have hlt : find_idx (withDecoration a) needleOpLabel < (withDecoration a).length := by
    rw [hL, hlen]
    unfold labelIndexAfterDecoration
    split_ifs <;> omega
  obtain ⟨pre, lab, R, hsplit, hpl, hpre, hx⟩ :=
    split_at_find_idx (withDecoration a) needleOpLabel hlt
  rw [hL] at hpl
  rcases List.eq_nil_or_concat pre with hnil | ⟨pre1, q2, hpre1⟩
  · rw [hnil] at hpl
    simp at hpl
    omega
  rcases List.eq_nil_or_concat pre1 with hnil | ⟨P, q1, hP⟩
  · rw [hpre1, hnil] at hpl
    simp at hpl
    omega
  subst hP
  subst hpre1
  refine ⟨P, q1, q2, lab, R, ?_, ?_, ?_, ?_, ?_, hx⟩
  · rw [hsplit]
    simp
  · rw [← hpl]
    simp
  · intro y hy
    exact hpre y (by simp [hy])
  · exact hpre q1 (by simp)
  · exact hpre q2 (by simp)

/-- The result of `patchMatrixAccesses` in closed form, for a sequence that splits around
its label. -/
theorem patchMatrixAccesses_eq (fuel : Nat) (a : List Line) (f_idx offset : Nat)
    (P R : List Line) (q1 q2 lab : Line)
    (hsplit : withDecoration a = P ++ q1 :: q2 :: lab :: R)
    (hP : ∀ y ∈ P, contains y needleOpLabel = false)
    (hq1 : contains q1 needleOpLabel = false) (hq2 : contains q2 needleOpLabel = false)
    (hlab : contains lab needleOpLabel = true) (hfuel : a.length + 18 ≤ fuel) :
    patchMatrixAccesses fuel a f_idx offset =
      .ok ((P ++ (declarationLines f_idx offset ++
        q1 :: q2 :: lab :: (viewOffsetLines f_idx ++ R))).map (rewriteLine f_idx)) := by
  unfold patchMatrixAccesses
  rw [insertDecoration_eq, ok_bind, hsplit,
    insertDeclarations_eq P R q1 q2 lab f_idx offset hP hq1 hq2 hlab, ok_bind]
  have hform : P ++ (declarationLines f_idx offset ++ q1 :: q2 :: lab :: R) =
      (P ++ declarationLines f_idx offset ++ [q1, q2]) ++ lab :: R := by simp
  have hU : ∀ y ∈ P ++ declarationLines f_idx offset ++ [q1, q2],
      contains y needleOpLabel = false := by
    intro y hy
    simp only [List.mem_append, List.mem_cons, List.mem_singleton, List.not_mem_nil,
      or_false] at hy
    rcases hy with (hy | hy) | rfl | rfl
    · exact hP y hy
    · exact declarationLines_no_label f_idx offset y hy
    · exact hq1
    · exact hq2
  rw [hform, insertViewOffset_eq _ R lab f_idx hU hlab, ok_bind]
  have hlen : (withDecoration a).length = P.length + 3 + R.length := by
    rw [hsplit]
    simp
    omega
  have hlen2 : (withDecoration a).length = a.length + 1 := by
    unfold withDecoration
    have hle : find_idx a needleOpDecorate ≤ a.length :=
      List.findIdx_le_length (fun x => contains x needleOpDecorate)
    simp
    omega
  have hv := viewOffsetLines_length f_idx
  rw [patchRows_eq fuel f_idx _ (by
    simp [declarationLines]
    omega)]
  simp


/-- With the label at position 0 or 1 after the decoration insert, the first declaration
would go to a negative position: no sequence is returned, whatever the budget. -/
theorem patchMatrixAccesses_of_label_lt (fuel : Nat) (a : List Line) (f_idx offset : Nat)
    (h : labelIndexAfterDecoration a < 2) :
    patchMatrixAccesses fuel a f_idx offset = .error .outOfRange := by
  unfold patchMatrixAccesses
  rw [insertDecoration_eq, ok_bind,
    insertDeclarations_of_lt _ _ _ (by rw [find_idx_withDecoration]; exact h)]
  rfl

/-- The patterns of two different passes are different texts. -/
theorem accessPattern_injective {f_idx i j : Nat} (hi : i < 4)
    (hj : j < 4) {x : Line} (h1 : ends_with x (accessPattern f_idx i) = true)
    (h2 : ends_with x (accessPattern f_idx j) = true) : i = j := by
  rw [ends_with_iff] at h1 h2
  have key : ∀ {p q : Nat}, accessPattern f_idx p <:+ accessPattern f_idx q →
      (p + f_idx) % 4294967296 = (q + f_idx) % 4294967296 := by
    intro p q h
    rw [accessPattern_eq f_idx p, accessPattern_eq f_idx q] at h
    exact fmt_injective (suffix_sep_digits (by decide) (by decide) (fmt_isDigit _)
      (fmt_isDigit _) h).1
  rcases List.suffix_or_suffix_of_suffix h1 h2 with h | h
  · have := key h
    omega
  · have := key h
    omega

theorem rewriteLine_of_match {f_idx i : Nat} (hi : i < 4)
    {x : Line} (hx : ends_with x (accessPattern f_idx i) = true) :
    rewriteLine f_idx x = rewriteAccess f_idx i x := by
  have hne : ∀ j, j < 4 → j ≠ i → ends_with x (accessPattern f_idx j) = false := by
    intro j hj hji
    by_contra hc
    have hc2 : ends_with x (accessPattern f_idx j) = true := by simpa using hc
    exact hji (accessPattern_injective hj hi hc2 hx)
  unfold rewriteLine
  interval_cases i
  · simp [hx]
  · simp [hx, hne 0 (by norm_num) (by norm_num)]
  · simp [hx, hne 0 (by norm_num) (by norm_num), hne 1 (by norm_num) (by norm_num)]
  · simp [hx, hne 0 (by norm_num) (by norm_num), hne 1 (by norm_num) (by norm_num),
      hne 2 (by norm_num) (by norm_num)]

theorem rewriteLine_of_none {f_idx : Nat} {x : Line}
    (h : ∀ i, i < 4 → ends_with x (accessPattern f_idx i) = false) :
    rewriteLine f_idx x = x := by
  unfold rewriteLine
  simp [h 0 (by norm_num), h 1 (by norm_num), h 2 (by norm_num), h 3 (by norm_num)]

/-- After the four passes no line ends with a searched pattern. -/
theorem rewriteLine_not_match (f_idx j : Nat) (hj : j < 4) (x : Line) :
    ends_with (rewriteLine f_idx x) (accessPattern f_idx j) = false := by
  unfold rewriteLine
  by_cases h0 : ends_with x (accessPattern f_idx 0) = true
  · simp [h0, rewriteAccess_not_match]
  · by_cases h1 : ends_with x (accessPattern f_idx 1) = true
    · simp [h0, h1, rewriteAccess_not_match]
    · by_cases h2 : ends_with x (accessPattern f_idx 2) = true
      · simp [h0, h1, h2, rewriteAccess_not_match]
      · by_cases h3 : ends_with x (accessPattern f_idx 3) = true
        · simp [h0, h1, h2, h3, rewriteAccess_not_match]
        · simp only [h0, h1, h2, h3]
          interval_cases j
          · simpa using h0
          · simpa using h1
          · simpa using h2
          · simpa using h3

theorem sublist_withDecoration (a : List Line) : a.Sublist (withDecoration a) := by
  unfold withDecoration
  conv_lhs => rw [← List.take_append_drop (find_idx a needleOpDecorate) a]
  exact List.Sublist.append (List.Sublist.refl _) (List.sublist_cons_self _ _)

/-- The lines of the input, in their order, are among the lines the passes run over. -/
theorem sublist_patched (a P R : List Line) (q1 q2 lab : Line) (f_idx offset : Nat)
    (hsplit : withDecoration a = P ++ q1 :: q2 :: lab :: R) :
    a.Sublist (P ++ (declarationLines f_idx offset ++
      q1 :: q2 :: lab :: (viewOffsetLines f_idx ++ R))) := by
  refine List.Sublist.trans (sublist_withDecoration a) ?_
  rw [hsplit]
  refine List.Sublist.append (List.Sublist.refl _) ?_
  refine List.Sublist.trans ?_ (List.sublist_append_right _ _)
  refine List.Sublist.cons₂ _ (List.Sublist.cons₂ _ (List.Sublist.cons₂ _ ?_))
  exact List.sublist_append_right _ _


/-- The model run on the sample shader, line by line as the source does it. -/
theorem patchMatrixAccesses_sample :
    patchMatrixAccesses 40 sampleShader 0 16 = .ok samplePatched := by
  decide

/-! ## patchMatrixAccesses: a sequence without a label line -/

theorem insertAt_mem {a b : List Line} {pos : Int} {x : Line}
    (h : insertAt a pos x = .ok b) : ∀ y ∈ b, y ∈ a ∨ y = x := by
  unfold insertAt at h
  split_ifs at h
  have hb := Except.ok.inj h
  intro y hy
  rw [← hb] at hy
  rcases List.mem_append.mp hy with hy | hy
  · exact Or.inl (List.mem_of_mem_take hy)
  · rcases List.mem_cons.mp hy with hy | hy
    · exact Or.inr hy
    · exact Or.inl (List.mem_of_mem_drop hy)

theorem insertAt_no_label {a b : List Line} {pos : Int} {x : Line}
    (h : insertAt a pos x = .ok b) (ha : ∀ y ∈ a, contains y needleOpLabel = false)
    (hx : contains x needleOpLabel = false) : ∀ y ∈ b, contains y needleOpLabel = false := by
  intro y hy
  rcases insertAt_mem h y hy with hy | hy
  · exact ha y hy
  · rw [hy]
    exact hx

/-- The declarations do not bring a label line into a sequence that has none. -/
theorem insertDeclarations_no_label (a b : List Line) (f_idx offset : Nat)
    (ha : ∀ y ∈ a, contains y needleOpLabel = false)
    (h : insertDeclarations a f_idx offset = .ok b) :
    ∀ y ∈ b, contains y needleOpLabel = false := by
  unfold insertDeclarations at h
  simp only [] at h
  cases h1 : insertAt a ((find_idx a needleOpLabel : Int) - 2) ptrLine with
  | error e =>
    rw [h1] at h
    cases h
  | ok a1 =>
    rw [h1, ok_bind] at h
    have n1 := insertAt_no_label h1 ha
      (declarationLines_no_label f_idx offset ptrLine (by simp [declarationLines]))
    cases h2 : insertAt a1 ((find_idx a needleOpLabel : Int) - 2 + 1) viewIndexLine with
    | error e =>
      rw [h2] at h
      cases h
    | ok a2 =>
      rw [h2, ok_bind] at h
      have n2 := insertAt_no_label h2 n1
        (declarationLines_no_label f_idx offset viewIndexLine (by simp [declarationLines]))
      cases h3 : insertAt a2 ((find_idx a needleOpLabel : Int) - 2 + 2)
          (dataBeginLine offset) with
      | error e =>
        rw [h3] at h
        cases h
      | ok a3 =>
        rw [h3, ok_bind] at h
        have n3 := insertAt_no_label h3 n2
          (declarationLines_no_label f_idx offset (dataBeginLine offset)
            (by simp [declarationLines]))
        exact insertAt_no_label h n3
          (declarationLines_no_label f_idx offset (fIdxLine f_idx) (by simp [declarationLines]))

/-- Without a label line `patchMatrixAccesses` returns no sequence, whatever the budget: an
insert position is outside the vector, at the latest the one of source line 110, one past
the end. -/
theorem patchMatrixAccesses_of_no_label (fuel : Nat) (a : List Line) (f_idx offset : Nat)
    (h : ∀ y ∈ a, contains y needleOpLabel = false) :
    patchMatrixAccesses fuel a f_idx offset = .error .outOfRange := by
  unfold patchMatrixAccesses
  rw [insertDecoration_eq, ok_bind]
  have h1 : ∀ y ∈ withDecoration a, contains y needleOpLabel = false := by
    intro y hy
    unfold withDecoration at hy
    rcases List.mem_append.mp hy with hy | hy
    · exact h y (List.mem_of_mem_take hy)
    · rcases List.mem_cons.mp hy with hy | hy
      · rw [hy]
        exact decorationLine_no_label
      · exact h y (List.mem_of_mem_drop hy)
  cases h2 : insertDeclarations (withDecoration a) f_idx offset with
  | error e =>
    rw [error_bind]
    have h3 : e = Fault.outOfRange := by
      unfold insertDeclarations at h2
      simp only [] at h2
      cases e with
      | outOfRange => rfl
      | outOfFuel =>
        exfalso
        have key : ∀ (b : List Line) (pos : Int) (x : Line),
            insertAt b pos x ≠ .error .outOfFuel := by
          intro b pos x
          unfold insertAt
          split_ifs <;> simp
        cases h4 : insertAt (withDecoration a)
            ((find_idx (withDecoration a) needleOpLabel : Int) - 2) ptrLine with
        | error e1 =>
          rw [h4, error_bind] at h2
          rw [Except.error.inj h2] at h4
          exact key _ _ _ h4
        | ok a1 =>
          rw [h4, ok_bind] at h2
          cases h5 : insertAt a1
              ((find_idx (withDecoration a) needleOpLabel : Int) - 2 + 1) viewIndexLine with
          | error e1 =>
            rw [h5, error_bind] at h2
            rw [Except.error.inj h2] at h5
            exact key _ _ _ h5
          | ok a2 =>
            rw [h5, ok_bind] at h2
            cases h6 : insertAt a2
                ((find_idx (withDecoration a) needleOpLabel : Int) - 2 + 2)
                (dataBeginLine offset) with
            | error e1 =>
              rw [h6, error_bind] at h2
              rw [Except.error.inj h2] at h6
              exact key _ _ _ h6
            | ok a3 =>
              rw [h6, ok_bind] at h2
              exact key _ _ _ h2
    rw [h3]
  | ok b =>
    rw [ok_bind,
      insertViewOffset_of_none b f_idx (insertDeclarations_no_label _ b f_idx offset h1 h2)]
    rfl

/-! ## patchMatrixAccesses: the rewrite of the matrix accesses -/

theorem accessPattern_no_wrap {f_idx i : Nat} (hf : f_idx + 3 < 4294967296) (hi : i < 4) :
    accessPattern f_idx i =
      "OpAccessChain %_ptr_Uniform_v4float %c %uint_1 %int_".toList ++ fmt (f_idx + i) := by
  unfold accessPattern
  have : (i + f_idx) % 4294967296 = f_idx + i := by omega
  rw [this]

/-- The rewrite of an access-chain line with result name `name`. -/
theorem rewriteLine_access {f_idx i : Nat} (hf : f_idx + 3 < 4294967296) (hi : i < 4)
    (name : Line) (hname : '=' ∉ name) :
    rewriteLine f_idx (name ++
        " = OpAccessChain %_ptr_Uniform_v4float %c %uint_1 %int_".toList ++ fmt (f_idx + i)) =
      name ++ " = OpAccessChain %_ptr_Uniform_v4float %c %uint_1 %i_f".toList ++ fmt f_idx ++
        '_' :: fmt i := by
  have hmatch : ends_with (name ++
      " = OpAccessChain %_ptr_Uniform_v4float %c %uint_1 %int_".toList ++ fmt (f_idx + i))
      (accessPattern f_idx i) = true := by
    rw [ends_with_iff, accessPattern_no_wrap hf hi]
    exact ⟨name ++ " = ".toList, by simp⟩
  rw [rewriteLine_of_match hi hmatch]
  unfold rewriteAccess
  have hform : name ++ " = OpAccessChain %_ptr_Uniform_v4float %c %uint_1 %int_".toList ++
      fmt (f_idx + i) = (name ++ [' ']) ++ '=' ::
        (" OpAccessChain %_ptr_Uniform_v4float %c %uint_1 %int_".toList ++ fmt (f_idx + i)) := by
    simp
  have hname2 : '=' ∉ name ++ [' '] := by
    intro h
    rcases List.mem_append.mp h with h | h
    · exact hname h
    · revert h
      decide
  rw [hform, substrToEq_append_eq _ _ hname2]
  simp

/-- C1 (amended). When the first label line is at position 2 or later once the decoration
line is inserted, and `f_idx + 3` fits 32 bits, `patchMatrixAccesses` returns a sequence in
which every input line `name = OpAccessChain %_ptr_Uniform_v4float %c %uint_1 %int_N`, for
`N = f_idx + i` with `i < 4` and no equals sign in the name, appears with the last operand
replaced by `%i_f<f_idx>_<i>` (the input lines, so replaced and otherwise in their order,
form a subsequence of the output), and in which no line ends with one of the four
patterns. -/
theorem patchMatrixAccesses_rewrites (fuel : Nat) (a : List Line) (f_idx offset : Nat)
    (hlab : find_idx a needleOpLabel < a.length) (h2 : 2 ≤ labelIndexAfterDecoration a)
    (hf : f_idx + 3 < 4294967296) (hfuel : a.length + 18 ≤ fuel) :
    ∃ out, patchMatrixAccesses fuel a f_idx offset = .ok out ∧
      (∀ (i : Nat) (name : Line), i < 4 → '=' ∉ name →
        name ++ " = OpAccessChain %_ptr_Uniform_v4float %c %uint_1 %int_".toList ++
          fmt (f_idx + i) ∈ a →
        name ++ " = OpAccessChain %_ptr_Uniform_v4float %c %uint_1 %i_f".toList ++
          fmt f_idx ++ '_' :: fmt i ∈ out) ∧
      (∃ g : Line → Line, (a.map g).Sublist out ∧
        ∀ (i : Nat) (name : Line), i < 4 → '=' ∉ name →
          g (name ++ " = OpAccessChain %_ptr_Uniform_v4float %c %uint_1 %int_".toList ++
            fmt (f_idx + i)) =
          name ++ " = OpAccessChain %_ptr_Uniform_v4float %c %uint_1 %i_f".toList ++
            fmt f_idx ++ '_' :: fmt i) ∧
      (∀ x ∈ out, ∀ i, i < 4 →
        ¬ "OpAccessChain %_ptr_Uniform_v4float %c %uint_1 %int_".toList ++ fmt (f_idx + i)
          <:+ x) := by
  obtain ⟨P, q1, q2, lab, R, hsplit, _, hP, hq1, hq2, hl⟩ := exists_split a hlab h2
  refine ⟨_, patchMatrixAccesses_eq fuel a f_idx offset P R q1 q2 lab hsplit hP hq1 hq2 hl
    hfuel, ?_, ?_, ?_⟩
  · intro i name hi hname hmem
    rw [← rewriteLine_access hf hi name hname]
    exact List.mem_map_of_mem _ ((sublist_patched a P R q1 q2 lab f_idx offset hsplit).subset hmem)
  · exact ⟨rewriteLine f_idx, (sublist_patched a P R q1 q2 lab f_idx offset hsplit).map _,
      fun i name hi hname => rewriteLine_access hf hi name hname⟩
  · intro x hx i hi
    obtain ⟨y, _, rfl⟩ := List.mem_map.mp hx
    rw [← accessPattern_no_wrap hf hi, ← ends_with_iff]
    simp [rewriteLine_not_match f_idx i hi y]

/-- The sample shader with `f_idx = 1`: its accesses to rows 1 to 4 are rewritten. -/
theorem patchMatrixAccesses_rewrites_witness :
    ∃ out, patchMatrixAccesses 40 sampleShader 1 16 = .ok out ∧
      (∀ (i : Nat) (name : Line), i < 4 → '=' ∉ name →
        name ++ " = OpAccessChain %_ptr_Uniform_v4float %c %uint_1 %int_".toList ++
          fmt (1 + i) ∈ sampleShader →
        name ++ " = OpAccessChain %_ptr_Uniform_v4float %c %uint_1 %i_f".toList ++
          fmt 1 ++ '_' :: fmt i ∈ out) ∧
      (∃ g : Line → Line, (sampleShader.map g).Sublist out ∧
        ∀ (i : Nat) (name : Line), i < 4 → '=' ∉ name →
          g (name ++ " = OpAccessChain %_ptr_Uniform_v4float %c %uint_1 %int_".toList ++
            fmt (1 + i)) =
          name ++ " = OpAccessChain %_ptr_Uniform_v4float %c %uint_1 %i_f".toList ++
            fmt 1 ++ '_' :: fmt i) ∧
      (∀ x ∈ out, ∀ i, i < 4 →
        ¬ "OpAccessChain %_ptr_Uniform_v4float %c %uint_1 %int_".toList ++ fmt (1 + i)
          <:+ x) :=
  patchMatrixAccesses_rewrites 40 sampleShader 1 16 (by decide) (by decide) (by decide)
    (by decide)

/-- C1 as stated fails: `labelFirst` has a label line and a line of the searched form, but
its label is at position 0, the declarations would be inserted at position -2, and no
sequence is returned for any budget. -/
theorem patchMatrixAccesses_rewrites_counterexample :
    find_idx labelFirst needleOpLabel < labelFirst.length ∧
    "%7".toList ++ " = OpAccessChain %_ptr_Uniform_v4float %c %uint_1 %int_".toList ++
      fmt (0 + 0) ∈ labelFirst ∧
    ¬ ∃ fuel out, patchMatrixAccesses fuel labelFirst 0 16 = .ok out := by
  refine ⟨by decide, by decide, ?_⟩
  rintro ⟨fuel, out, h⟩
  rw [patchMatrixAccesses_of_label_lt fuel labelFirst 0 16 (by decide)] at h
  cases h

/-! ## patchMatrixAccesses: the inserted lines in the result -/

/-- The passes leave the inserted lines as they are. -/
theorem rewriteLine_inserted (f_idx offset : Nat) :
    ∀ x ∈ decorationLine :: (declarationLines f_idx offset ++ viewOffsetLines f_idx),
      rewriteLine f_idx x = x := by
  intro x hx
  exact rewriteLine_of_none (fun i _ => inserted_not_match f_idx offset f_idx i x hx)

theorem map_rewriteLine_inserted (f_idx offset : Nat) (l : List Line)
    (h : ∀ x ∈ l, x ∈ decorationLine :: (declarationLines f_idx offset ++
      viewOffsetLines f_idx)) : l.map (rewriteLine f_idx) = l := by
  induction l with
  | nil => rfl
  | cons c cs ih =>
    rw [List.map_cons, rewriteLine_inserted f_idx offset c (h c (by simp)),
      ih (fun x hx => h x (by simp [hx]))]

/-- The result of `patchMatrixAccesses` with the inserted lines displayed. -/
theorem patched_form (P R : List Line) (q1 q2 lab : Line) (f_idx offset : Nat) :
    (P ++ (declarationLines f_idx offset ++
        q1 :: q2 :: lab :: (viewOffsetLines f_idx ++ R))).map (rewriteLine f_idx) =
      (P.map (rewriteLine f_idx) ++ declarationLines f_idx offset ++
        [rewriteLine f_idx q1, rewriteLine f_idx q2]) ++ rewriteLine f_idx lab ::
          (viewOffsetLines f_idx ++ R.map (rewriteLine f_idx)) := by
  simp only [List.map_append, List.map_cons]
  rw [map_rewriteLine_inserted f_idx offset (declarationLines f_idx offset)
      (fun x hx => by simp [hx]),
    map_rewriteLine_inserted f_idx offset (viewOffsetLines f_idx) (fun x hx => by simp [hx])]
  simp

/-! ## patchMatrixAccesses: the other lines -/

theorem patched_length (a P R : List Line) (q1 q2 lab : Line) (f_idx offset : Nat)
    (hsplit : withDecoration a = P ++ q1 :: q2 :: lab :: R) :
    (P ++ (declarationLines f_idx offset ++
      q1 :: q2 :: lab :: (viewOffsetLines f_idx ++ R))).length =
      a.length + (if f_idx > 0 then 16 else 12) := by
  have hlen : (withDecoration a).length = P.length + 3 + R.length := by
    rw [hsplit]
    simp
    omega
  have hlen2 : (withDecoration a).length = a.length + 1 := by
    unfold withDecoration
    have hle : find_idx a needleOpDecorate ≤ a.length :=
      List.findIdx_le_length (fun x => contains x needleOpDecorate)
    simp
    omega
  by_cases hf : f_idx > 0
  · simp [declarationLines, viewOffsetLines, hf]
    omega
  · simp [declarationLines, viewOffsetLines, hf]
    omega

theorem perm_withDecoration (a : List Line) :
    (withDecoration a).Perm (decorationLine :: a) := by
  unfold withDecoration
  refine List.Perm.trans List.perm_middle ?_
  rw [List.take_append_drop]

/-- The output holds the rewritten input lines and the inserted lines, and nothing else. -/
theorem perm_patched (a P R : List Line) (q1 q2 lab : Line) (f_idx offset : Nat)
    (hsplit : withDecoration a = P ++ q1 :: q2 :: lab :: R) :
    ((P ++ (declarationLines f_idx offset ++
      q1 :: q2 :: lab :: (viewOffsetLines f_idx ++ R))).map (rewriteLine f_idx)).Perm
      (a.map (rewriteLine f_idx) ++
        decorationLine :: (declarationLines f_idx offset ++ viewOffsetLines f_idx)) := by
  have h1 : ((withDecoration a).map (rewriteLine f_idx)).Perm
      (decorationLine :: a.map (rewriteLine f_idx)) := by
    have := (perm_withDecoration a).map (rewriteLine f_idx)
    rw [List.map_cons, rewriteLine_inserted f_idx offset decorationLine (by simp)] at this
    exact this
  rw [hsplit] at h1
  rw [patched_form]
  rw [List.perm_iff_count] at h1 ⊢
  intro n
  have h2 := h1 n
  simp only [List.map_append, List.map_cons, List.count_append, List.count_cons,
    List.count_nil] at h2 ⊢
  omega

/-- C2 (amended). When the first label line is at position 2 or later once the decoration
line is inserted, `patchMatrixAccesses` returns a sequence that holds unchanged every input
line that ends with none of the four patterns `... %int_N`, `N = (f_idx + i) mod 2^32`; the
input with only its matching lines changed is a subsequence of the output, in order, the
other lines of the output are the inserted ones, and the output has 16 more lines than the
input (12 when `f_idx = 0`). -/
theorem patchMatrixAccesses_row_isolation (fuel : Nat) (a : List Line) (f_idx offset : Nat)
    (hlab : find_idx a needleOpLabel < a.length) (h2 : 2 ≤ labelIndexAfterDecoration a)
    (hfuel : a.length + 18 ≤ fuel) :
    ∃ out, patchMatrixAccesses fuel a f_idx offset = .ok out ∧
      (∀ x ∈ a, (∀ i, i < 4 →
          ¬ "OpAccessChain %_ptr_Uniform_v4float %c %uint_1 %int_".toList ++
            fmt ((i + f_idx) % 4294967296) <:+ x) → x ∈ out) ∧
      (∀ x : Line, (∀ i, i < 4 →
          ¬ "OpAccessChain %_ptr_Uniform_v4float %c %uint_1 %int_".toList ++
            fmt ((i + f_idx) % 4294967296) <:+ x) → rewriteLine f_idx x = x) ∧
      (a.map (rewriteLine f_idx)).Sublist out ∧
      out.Perm (a.map (rewriteLine f_idx) ++
        decorationLine :: (declarationLines f_idx offset ++ viewOffsetLines f_idx)) ∧
      out.length = a.length + (if f_idx > 0 then 16 else 12) := by
  obtain ⟨P, q1, q2, lab, R, hsplit, _, hP, hq1, hq2, hl⟩ := exists_split a hlab h2
  have hkeep : ∀ x : Line, (∀ i, i < 4 →
      ¬ "OpAccessChain %_ptr_Uniform_v4float %c %uint_1 %int_".toList ++
        fmt ((i + f_idx) % 4294967296) <:+ x) → rewriteLine f_idx x = x := by
    intro x hx
    apply rewriteLine_of_none
    intro i hi
    rw [ends_with_eq_false_iff]
    exact hx i hi
  refine ⟨_, patchMatrixAccesses_eq fuel a f_idx offset P R q1 q2 lab hsplit hP hq1 hq2 hl
    hfuel, ?_, hkeep, ?_, ?_, ?_⟩
  · intro x hx hno
    rw [← hkeep x hno]
    exact List.mem_map_of_mem _ ((sublist_patched a P R q1 q2 lab f_idx offset hsplit).subset hx)
  · exact (sublist_patched a P R q1 q2 lab f_idx offset hsplit).map _
  · exact perm_patched a P R q1 q2 lab f_idx offset hsplit
  · rw [List.length_map]
    exact patched_length a P R q1 q2 lab f_idx offset hsplit

/-- The sample shader with `f_idx = 1`: the access to row 0 and all other lines are kept. -/
theorem patchMatrixAccesses_row_isolation_witness :
    ∃ out, patchMatrixAccesses 40 sampleShader 1 16 = .ok out ∧
      (∀ x ∈ sampleShader, (∀ i, i < 4 →
          ¬ "OpAccessChain %_ptr_Uniform_v4float %c %uint_1 %int_".toList ++
            fmt ((i + 1) % 4294967296) <:+ x) → x ∈ out) ∧
      (∀ x : Line, (∀ i, i < 4 →
          ¬ "OpAccessChain %_ptr_Uniform_v4float %c %uint_1 %int_".toList ++
            fmt ((i + 1) % 4294967296) <:+ x) → rewriteLine 1 x = x) ∧
      (sampleShader.map (rewriteLine 1)).Sublist out ∧
      out.Perm (sampleShader.map (rewriteLine 1) ++
        decorationLine :: (declarationLines 1 16 ++ viewOffsetLines 1)) ∧
      out.length = sampleShader.length + (if 1 > 0 then 16 else 12) :=
  patchMatrixAccesses_row_isolation 40 sampleShader 1 16 (by decide) (by decide) (by decide)

/-- C2 as stated fails: `labelSecond` has a label line, at position 1, and no decoration
line; its access to row 9 matches none of the patterns for `f_idx = 0`, yet no sequence is
returned for any budget, so the line is in no output. -/
theorem patchMatrixAccesses_row_isolation_counterexample :
    find_idx labelSecond needleOpLabel < labelSecond.length ∧
    "%11 = OpAccessChain %_ptr_Uniform_v4float %c %uint_1 %int_9".toList ∈ labelSecond ∧
    (∀ i, i < 4 → ¬ "OpAccessChain %_ptr_Uniform_v4float %c %uint_1 %int_".toList ++
      fmt (0 + i) <:+ "%11 = OpAccessChain %_ptr_Uniform_v4float %c %uint_1 %int_9".toList) ∧
    ¬ ∃ fuel out, patchMatrixAccesses fuel labelSecond 0 16 = .ok out := by
  refine ⟨by decide, by decide, ?_, ?_⟩
  · intro i hi
    interval_cases i <;> decide
  · rintro ⟨fuel, out, h⟩
    rw [patchMatrixAccesses_of_label_lt fuel labelSecond 0 16 (by decide)] at h
    cases h


/-! ## patchMatrixAccesses: no check of the constants -/

/-- When the first label line is at position 2 or later once the decoration is inserted,
`patchMatrixAccesses` returns a sequence, and it holds the inserted arithmetic lines. -/
theorem patchMatrixAccesses_ok (fuel : Nat) (a : List Line) (f_idx offset : Nat)
    (hlab : find_idx a needleOpLabel < a.length) (h2 : 2 ≤ labelIndexAfterDecoration a)
    (hfuel : a.length + 18 ≤ fuel) :
    ∃ out, patchMatrixAccesses fuel a f_idx offset = .ok out ∧
      ∀ x ∈ viewOffsetLines f_idx, x ∈ out := by
  obtain ⟨P, q1, q2, lab, R, hsplit, _, hP, hq1, hq2, hl⟩ := exists_split a hlab h2
  refine ⟨_, patchMatrixAccesses_eq fuel a f_idx offset P R q1 q2 lab hsplit hP hq1 hq2 hl
    hfuel, ?_⟩
  intro x hx
  rw [patched_form]
  simp [hx]

/-- C10 (amended). `patchMatrixAccesses` does not look for the constants: for every
sequence whose first label line is at position 2 or later once the decoration is inserted,
with no condition on what the lines define, it returns a sequence, which holds the inserted
arithmetic lines; among them one names `%uint_4` and, for each of `%uint_0` to `%uint_3`,
one names that constant. -/
theorem patchMatrixAccesses_no_constant_check (fuel : Nat) (a : List Line)
    (f_idx offset : Nat) (hlab : find_idx a needleOpLabel < a.length)
    (h2 : 2 ≤ labelIndexAfterDecoration a) (hfuel : a.length + 18 ≤ fuel) :
    ∃ out, patchMatrixAccesses fuel a f_idx offset = .ok out ∧
      (∀ x ∈ viewOffsetLines f_idx, x ∈ out) ∧
      (∃ x ∈ viewOffsetLines f_idx, "%uint_4".toList <:+: x) ∧
      (∀ d ∈ ['0', '1', '2', '3'],
        ∃ x ∈ viewOffsetLines f_idx, "%uint_".toList ++ [d] <:+: x) := by
  obtain ⟨out, hout, hmem⟩ := patchMatrixAccesses_ok fuel a f_idx offset hlab h2 hfuel
  refine ⟨out, hout, hmem, ⟨viewOffsetLine, by simp [viewOffsetLines], by decide⟩, ?_⟩
  intro d hd
  by_cases hf : f_idx > 0
  · refine ⟨faddLine d, ?_, ?_⟩
    · simp only [List.mem_cons, List.mem_singleton, List.not_mem_nil, or_false] at hd
      rcases hd with rfl | rfl | rfl | rfl <;> simp [viewOffsetLines, hf]
    · exact ⟨"%fadd_".toList ++ d :: " = OpIAdd %uint ".toList, " %f_idx".toList, by
        simp [faddLine]⟩
  · refine ⟨rowUintLine f_idx d, ?_, ?_⟩
    · simp only [List.mem_cons, List.mem_singleton, List.not_mem_nil, or_false] at hd
      rcases hd with rfl | rfl | rfl | rfl <;> simp [viewOffsetLines, hf]
    · exact ⟨"%i_f".toList ++ fmt f_idx ++ '_' :: d :: " = OpIAdd %uint %data_offset ".toList,
        [], by simp [rowUintLine]⟩

/-- The sample shader, which defines none of the constants. -/
theorem patchMatrixAccesses_no_constant_check_witness :
    ∃ out, patchMatrixAccesses 40 sampleShader 0 16 = .ok out ∧
      (∀ x ∈ viewOffsetLines 0, x ∈ out) ∧
      (∃ x ∈ viewOffsetLines 0, "%uint_4".toList <:+: x) ∧
      (∀ d ∈ ['0', '1', '2', '3'],
        ∃ x ∈ viewOffsetLines 0, "%uint_".toList ++ [d] <:+: x) :=
  patchMatrixAccesses_no_constant_check 40 sampleShader 0 16 (by decide) (by decide)
    (by decide)

/-- C10 as stated fails: no line of the sample shader contains `%uint_0 =`, yet
`patchMatrixAccesses` returns a sequence, and it holds the inserted line
`%i_f0_0 = OpIAdd %uint %data_offset %uint_0`. -/
theorem patchMatrixAccesses_no_constant_check_counterexample :
    (∀ y ∈ sampleShader, contains y "%uint_0 =".toList = false) ∧
    ∃ out, patchMatrixAccesses 40 sampleShader 0 16 = .ok out ∧
      "%i_f0_0 = OpIAdd %uint %data_offset %uint_0".toList ∈ out := by
  refine ⟨by decide, ?_⟩
  obtain ⟨out, hout, hmem⟩ :=
    patchMatrixAccesses_ok 40 sampleShader 0 16 (by decide) (by decide) (by decide)
  exact ⟨out, hout, hmem _ (by decide)⟩

/-! ## patchMatrixAccesses: a sequence without a decoration line -/

theorem withDecoration_of_none (a : List Line)
    (h : ∀ y ∈ a, contains y needleOpDecorate = false) :
    withDecoration a = a ++ [decorationLine] := by
  unfold withDecoration
  rw [find_idx_eq_length_of_none a needleOpDecorate h]
  simp

/-- Without a decoration line the inserted decoration ends up as the last line of the
result. -/
theorem patchMatrixAccesses_decoration_last (fuel : Nat) (a : List Line) (f_idx offset : Nat)
    (hdec : ∀ y ∈ a, contains y needleOpDecorate = false)
    (hlab : find_idx a needleOpLabel < a.length) (h2 : 2 ≤ find_idx a needleOpLabel)
    (hfuel : a.length + 18 ≤ fuel) :
    ∃ out, patchMatrixAccesses fuel a f_idx offset = .ok out ∧
      out.getLast? = some decorationLine := by
  have h2b : 2 ≤ labelIndexAfterDecoration a := by
    unfold labelIndexAfterDecoration
    omega
  obtain ⟨P, q1, q2, lab, R, hsplit, _, hP, hq1, hq2, hl⟩ := exists_split a hlab h2b
  refine ⟨_, patchMatrixAccesses_eq fuel a f_idx offset P R q1 q2 lab hsplit hP hq1 hq2 hl
    hfuel, ?_⟩
  rw [withDecoration_of_none a hdec] at hsplit
  rcases List.eq_nil_or_concat R with hR | ⟨R1, z, hR⟩
  · exfalso
    subst hR
    have h3 : a ++ [decorationLine] = (P ++ [q1, q2]) ++ [lab] := by simpa using hsplit
    have h4 := List.append_inj_right' h3 rfl
    have h5 : decorationLine = lab := by simpa using h4
    rw [← h5, decorationLine_no_label] at hl
    cases hl
  · rw [List.concat_eq_append] at hR
    subst hR
    have h3 : a ++ [decorationLine] = (P ++ q1 :: q2 :: lab :: R1) ++ [z] := by
      simpa using hsplit
    have h4 := List.append_inj_right' h3 rfl
    have h5 : decorationLine = z := by simpa using h4
    subst h5
    rw [patched_form]
    have h6 : (P.map (rewriteLine f_idx) ++ declarationLines f_idx offset ++
        [rewriteLine f_idx q1, rewriteLine f_idx q2]) ++ rewriteLine f_idx lab ::
          (viewOffsetLines f_idx ++ (R1 ++ [decorationLine]).map (rewriteLine f_idx)) =
        ((P.map (rewriteLine f_idx) ++ declarationLines f_idx offset ++
        [rewriteLine f_idx q1, rewriteLine f_idx q2]) ++ rewriteLine f_idx lab ::
          (viewOffsetLines f_idx ++ R1.map (rewriteLine f_idx))) ++ [decorationLine] := by
      simp [rewriteLine_inserted f_idx offset decorationLine (by simp)]
    rw [h6, List.getLast?_concat]

/-- C9 (amended). A missing decoration line is no error in `patchMatrixAccesses`: for every
sequence without a decoration line whose first label line is at position 2 or later, a
patched sequence is returned, and its last line is the inserted decoration
`OpDecorate %ViewIndex BuiltIn ViewIndex`. -/
theorem patchMatrixAccesses_no_decoration (fuel : Nat) (a : List Line) (f_idx offset : Nat)
    (hdec : ∀ y ∈ a, contains y needleOpDecorate = false)
    (hlab : find_idx a needleOpLabel < a.length) (h2 : 2 ≤ find_idx a needleOpLabel)
    (hfuel : a.length + 18 ≤ fuel) :
    find_idx a needleOpDecorate = a.length ∧
    ∃ out, patchMatrixAccesses fuel a f_idx offset = .ok out ∧
      out.getLast? = some decorationLine ∧
      out.length = a.length + (if f_idx > 0 then 16 else 12) := by
  refine ⟨find_idx_eq_length_of_none a needleOpDecorate hdec, ?_⟩
  obtain ⟨out, hout, hlast⟩ :=
    patchMatrixAccesses_decoration_last fuel a f_idx offset hdec hlab h2 hfuel
  refine ⟨out, hout, hlast, ?_⟩
  have h2b : 2 ≤ labelIndexAfterDecoration a := by
    unfold labelIndexAfterDecoration
    omega
  obtain ⟨P, q1, q2, lab, R, hsplit, _, hP, hq1, hq2, hl⟩ := exists_split a hlab h2b
  have hout2 := patchMatrixAccesses_eq fuel a f_idx offset P R q1 q2 lab hsplit hP hq1 hq2 hl
    hfuel
  rw [hout] at hout2
  have hout3 := Except.ok.inj hout2
  rw [hout3, List.length_map]
  exact patched_length a P R q1 q2 lab f_idx offset hsplit

/-- A shader without any decoration line. -/
theorem patchMatrixAccesses_no_decoration_witness :
    find_idx noDecoration needleOpDecorate = noDecoration.length ∧
    ∃ out, patchMatrixAccesses 40 noDecoration 0 16 = .ok out ∧
      out.getLast? = some decorationLine ∧
      out.length = noDecoration.length + (if 0 > 0 then 16 else 12) :=
  patchMatrixAccesses_no_decoration 40 noDecoration 0 16 (by decide) (by decide) (by decide)
    (by decide)

/-- C9 as stated fails: `noDecoration` has no decoration line, and `patchMatrixAccesses`
returns a patched sequence for it instead of failing. -/
theorem patchMatrixAccesses_no_decoration_counterexample :
    (∀ y ∈ noDecoration, contains y needleOpDecorate = false) ∧
    ∃ out, patchMatrixAccesses 40 noDecoration 0 16 = .ok out ∧
      out.getLast? = some decorationLine := by
  refine ⟨by decide, ?_⟩
  exact patchMatrixAccesses_decoration_last 40 noDecoration 0 16 (by decide) (by decide)
    (by decide) (by decide)


/-! ## patchMatrixAccesses: result names -/

theorem resultName_of_eq (name rest : Line) (h : '=' ∉ name) :
    resultName (name ++ '=' :: rest) = some name := by
  unfold resultName
  rw [if_pos (by simp), substrToEq_append_eq name rest h]

theorem resultName_rewriteAccess (f_idx i : Nat) (x : Line) :
    resultName (rewriteAccess f_idx i x) = some (substrToEq x) := by
  have hform : rewriteAccess f_idx i x = substrToEq x ++ '=' ::
      (" OpAccessChain %_ptr_Uniform_v4float %c %uint_1 %i_f".toList ++ fmt f_idx ++
        '_' :: fmt i) := by
    simp [rewriteAccess]
  rw [hform]
  exact resultName_of_eq _ _ (substrToEq_no_eq x)

/-- A rewritten line binds the result name it had, provided it had one. -/
theorem resultName_rewriteLine (f_idx : Nat) (x : Line)
    (h : ∀ i, i < 4 → ends_with x (accessPattern f_idx i) = true → '=' ∈ x) :
    resultName (rewriteLine f_idx x) = resultName x := by
  have hx : ∀ i, i < 4 → ends_with x (accessPattern f_idx i) = true →
      resultName (rewriteAccess f_idx i x) = resultName x := by
    intro i hi hm
    rw [resultName_rewriteAccess]
    unfold resultName
    rw [if_pos (h i hi hm)]
  unfold rewriteLine
  by_cases h0 : ends_with x (accessPattern f_idx 0) = true
  · simp only [h0, if_true]
    exact hx 0 (by norm_num) h0
  · by_cases h1 : ends_with x (accessPattern f_idx 1) = true
    · simp only [h0, h1, if_true, if_false]
      exact hx 1 (by norm_num) h1
    · by_cases h2 : ends_with x (accessPattern f_idx 2) = true
      · simp only [h0, h1, h2, if_true, if_false]
        exact hx 2 (by norm_num) h2
      · by_cases h3 : ends_with x (accessPattern f_idx 3) = true
        · simp only [h0, h1, h2, h3, if_true, if_false]
          exact hx 3 (by norm_num) h3
        · simp [h0, h1, h2, h3]

theorem boundNames_map_rewriteLine (f_idx : Nat) (l : List Line)
    (h : ∀ x ∈ l, ∀ i, i < 4 → ends_with x (accessPattern f_idx i) = true → '=' ∈ x) :
    boundNames (l.map (rewriteLine f_idx)) = boundNames l := by
  induction l with
  | nil => rfl
  | cons c cs ih =>
    have hc := resultName_rewriteLine f_idx c (h c (by simp))
    have hcs := ih (fun x hx => h x (by simp [hx]))
    unfold boundNames at hcs ⊢
    simp only [List.map_cons, List.filterMap_cons, hc, hcs]

theorem boundNames_append (s t : List Line) :
    boundNames (s ++ t) = boundNames s ++ boundNames t := by
  simp [boundNames, List.filterMap_append]

theorem boundNames_cons (x : Line) (t : List Line) :
    boundNames (x :: t) = boundNames [x] ++ boundNames t := by
  rw [← boundNames_append]
  rfl

theorem resultName_rowFaddLine (f_idx : Nat) (d : Char) (hd : d ≠ '=') :
    resultName (rowFaddLine f_idx d) = some (rowName f_idx d) := by
  have hform : rowFaddLine f_idx d = rowName f_idx d ++ '=' ::
      (" OpIAdd %uint %data_offset %fadd_".toList ++ [d]) := by
    simp [rowFaddLine, rowName]
  rw [hform]
  apply resultName_of_eq
  intro h
  simp only [rowName, List.mem_append, List.mem_cons, List.mem_singleton, List.not_mem_nil,
    or_false] at h
  rcases h with (h | h) | h | h | h
  · revert h; decide
  · exact not_mem_fmt (by decide) f_idx h
  · revert h; decide
  · exact hd h.symm
  · revert h; decide

theorem resultName_rowUintLine (f_idx : Nat) (d : Char) (hd : d ≠ '=') :
    resultName (rowUintLine f_idx d) = some (rowName f_idx d) := by
  have hform : rowUintLine f_idx d = rowName f_idx d ++ '=' ::
      (" OpIAdd %uint %data_offset %uint_".toList ++ [d]) := by
    simp [rowUintLine, rowName]
  rw [hform]
  apply resultName_of_eq
  intro h
  simp only [rowName, List.mem_append, List.mem_cons, List.mem_singleton, List.not_mem_nil,
    or_false] at h
  rcases h with (h | h) | h | h | h
  · revert h; decide
  · exact not_mem_fmt (by decide) f_idx h
  · revert h; decide
  · exact hd h.symm
  · revert h; decide

theorem resultName_dataBeginLine (offset : Nat) :
    resultName (dataBeginLine offset) = some "%shader_data_begin ".toList :=
  resultName_of_eq "%shader_data_begin ".toList (" OpConstant %uint ".toList ++ fmt offset)
    (by decide)

theorem resultName_fIdxLine (f_idx : Nat) :
    resultName (fIdxLine f_idx) = some "%f_idx ".toList :=
  resultName_of_eq "%f_idx ".toList (" OpConstant %uint ".toList ++ fmt f_idx) (by decide)

/-- The names bound by the inserted lines. -/
theorem boundNames_inserted (f_idx offset : Nat) :
    boundNames (declarationLines f_idx offset ++ viewOffsetLines f_idx) =
      introducedNames f_idx := by
  have e1 : resultName ptrLine = some "%ptr ".toList := by decide
  have e2 : resultName viewIndexLine = some "%ViewIndex ".toList := by decide
  have e3 : resultName viLine = some "%vi ".toList := by decide
  have e4 : resultName viewOffsetLine = some "%view_offset ".toList := by decide
  have e5 : resultName dataOffsetLine = some "%data_offset ".toList := by decide
  have e6 : resultName (faddLine '0') = some "%fadd_0 ".toList := by decide
  have e7 : resultName (faddLine '1') = some "%fadd_1 ".toList := by decide
  have e8 : resultName (faddLine '2') = some "%fadd_2 ".toList := by decide
  have e9 : resultName (faddLine '3') = some "%fadd_3 ".toList := by decide
  by_cases hf : f_idx > 0
  · simp only [boundNames, declarationLines, viewOffsetLines, introducedNames, hf, if_true,
      List.cons_append, List.nil_append, List.filterMap_cons, List.filterMap_nil, e1, e2, e3,
      e4, e5, e6, e7, e8, e9, resultName_dataBeginLine, resultName_fIdxLine,
      resultName_rowFaddLine f_idx _ (by decide : '0' ≠ '='),
      resultName_rowFaddLine f_idx _ (by decide : '1' ≠ '='),
      resultName_rowFaddLine f_idx _ (by decide : '2' ≠ '='),
      resultName_rowFaddLine f_idx _ (by decide : '3' ≠ '=')]
  · simp only [boundNames, declarationLines, viewOffsetLines, introducedNames, hf, if_false,
      List.cons_append, List.nil_append, List.append_nil, List.filterMap_cons,
      List.filterMap_nil, e1, e2, e3,
      e4, e5, resultName_dataBeginLine, resultName_fIdxLine,
      resultName_rowUintLine f_idx _ (by decide : '0' ≠ '='),
      resultName_rowUintLine f_idx _ (by decide : '1' ≠ '='),
      resultName_rowUintLine f_idx _ (by decide : '2' ≠ '='),
      resultName_rowUintLine f_idx _ (by decide : '3' ≠ '=')]


theorem boundNames_withDecoration (a : List Line) :
    boundNames (withDecoration a) = boundNames a := by
  have hd : resultName decorationLine = none := by decide
  unfold withDecoration
  rw [boundNames_append, boundNames_cons]
  have : boundNames [decorationLine] = [] := by simp [boundNames, hd]
  rw [this, List.nil_append, ← boundNames_append, List.take_append_drop]

/-- The result names of the output of `patchMatrixAccesses`: those of the input and those
of the inserted lines, provided every line that the passes rewrite had a result name. -/
theorem patchMatrixAccesses_boundNames (fuel : Nat) (a : List Line) (f_idx offset : Nat)
    (hlab : find_idx a needleOpLabel < a.length) (h2 : 2 ≤ labelIndexAfterDecoration a)
    (hfuel : a.length + 18 ≤ fuel)
    (hres : ∀ x ∈ a, ∀ i, i < 4 → ends_with x (accessPattern f_idx i) = true → '=' ∈ x) :
    ∃ out, patchMatrixAccesses fuel a f_idx offset = .ok out ∧
      (boundNames out).Perm (introducedNames f_idx ++ boundNames a) := by
  obtain ⟨P, q1, q2, lab, R, hsplit, _, hP, hq1, hq2, hl⟩ := exists_split a hlab h2
  refine ⟨_, patchMatrixAccesses_eq fuel a f_idx offset P R q1 q2 lab hsplit hP hq1 hq2 hl
    hfuel, ?_⟩
  have hall : ∀ x ∈ P ++ (declarationLines f_idx offset ++
      q1 :: q2 :: lab :: (viewOffsetLines f_idx ++ R)),
      ∀ i, i < 4 → ends_with x (accessPattern f_idx i) = true → '=' ∈ x := by
    intro x hx i hi hm
    have hx2 : x ∈ withDecoration a ∨
        x ∈ decorationLine :: (declarationLines f_idx offset ++ viewOffsetLines f_idx) := by
      rw [hsplit]
      simp only [List.mem_append, List.mem_cons] at hx ⊢
      tauto
    have hx3 : x ∈ a ∨
        x ∈ decorationLine :: (declarationLines f_idx offset ++ viewOffsetLines f_idx) := by
      rcases hx2 with hx2 | hx2
      · unfold withDecoration at hx2
        rcases List.mem_append.mp hx2 with h | h
        · exact Or.inl (List.mem_of_mem_take h)
        · rcases List.mem_cons.mp h with h | h
          · right
            simp [h]
          · exact Or.inl (List.mem_of_mem_drop h)
      · exact Or.inr hx2
    rcases hx3 with hx3 | hx3
    · exact hres x hx3 i hi hm
    · rw [inserted_not_match f_idx offset f_idx i x hx3] at hm
      cases hm
  rw [boundNames_map_rewriteLine f_idx _ hall]
  have ha : boundNames a = boundNames P ++ (boundNames [q1, q2, lab] ++ boundNames R) := by
    have h3 : P ++ q1 :: q2 :: lab :: R = P ++ ([q1, q2, lab] ++ R) := rfl
    rw [← boundNames_withDecoration, hsplit, h3, boundNames_append, boundNames_append]
  have hout : boundNames (P ++ (declarationLines f_idx offset ++
      q1 :: q2 :: lab :: (viewOffsetLines f_idx ++ R))) =
      boundNames P ++ (boundNames (declarationLines f_idx offset) ++
        (boundNames [q1, q2, lab] ++ (boundNames (viewOffsetLines f_idx) ++ boundNames R))) := by
    rw [boundNames_append, boundNames_append]
    have : q1 :: q2 :: lab :: (viewOffsetLines f_idx ++ R) =
        [q1, q2, lab] ++ (viewOffsetLines f_idx ++ R) := rfl
    rw [this, boundNames_append, boundNames_append]
  rw [hout, ha, ← boundNames_inserted f_idx offset, boundNames_append]
  rw [List.perm_iff_count]
  intro n
  simp only [List.count_append]
  omega

theorem rowName_injective (f_idx : Nat) : Function.Injective (rowName f_idx) := by
  intro d1 d2 h
  unfold rowName at h
  have := List.append_cancel_left h
  simpa using this

theorem introducedNames_nodup (f_idx : Nat) : (introducedNames f_idx).Nodup := by
  have hrow : [rowName f_idx '0', rowName f_idx '1', rowName f_idx '2',
      rowName f_idx '3'].Nodup := by
    have : ['0', '1', '2', '3'].Nodup := by decide
    exact List.Nodup.map (rowName_injective f_idx) this
  have hsecond : ∀ d, (rowName f_idx d)[1]? = some 'i' := by
    intro d
    simp [rowName]
  unfold introducedNames
  rw [List.nodup_append]
  refine ⟨?_, hrow, ?_⟩
  · by_cases hf : f_idx > 0
    · simp only [hf, if_true]
      decide
    · simp only [hf, if_false]
      decide
  · intro n hn hn2
    have h1 : n[1]? = some 'i' := by
      simp only [List.mem_cons, List.mem_singleton, List.not_mem_nil, or_false] at hn2
      rcases hn2 with rfl | rfl | rfl | rfl <;> exact hsecond _
    have h2 : n[1]? ≠ some 'i' := by
      by_cases hf : f_idx > 0
      · simp only [hf, if_true, List.mem_append, List.mem_cons, List.mem_singleton,
          List.not_mem_nil, or_false] at hn
        rcases hn with (rfl | rfl | rfl | rfl | rfl | rfl | rfl) | (rfl | rfl | rfl | rfl) <;>
          decide
      · simp only [hf, if_false, List.mem_append, List.mem_cons, List.mem_singleton,
          List.not_mem_nil, or_false] at hn
        rcases hn with rfl | rfl | rfl | rfl | rfl | rfl | rfl <;> decide
    exact h2 h1

/-- C6 (amended). The names that `patchMatrixAccesses` introduces are fixed texts, not fresh
ones.  For a sequence whose first label line is at position 2 or later once the decoration
is inserted, in which every line ending with a searched pattern has a result name, in which
no line binds one of the introduced names and no result name is bound twice, the output
binds the names of the input and the introduced names, each of them once. -/
theorem patchMatrixAccesses_names (fuel : Nat) (a : List Line) (f_idx offset : Nat)
    (hlab : find_idx a needleOpLabel < a.length) (h2 : 2 ≤ labelIndexAfterDecoration a)
    (hfuel : a.length + 18 ≤ fuel)
    (hres : ∀ x ∈ a, ∀ i, i < 4 → ends_with x (accessPattern f_idx i) = true → '=' ∈ x)
    (hfresh : ∀ n ∈ introducedNames f_idx, n ∉ boundNames a)
    (hnodup : (boundNames a).Nodup) :
    ∃ out, patchMatrixAccesses fuel a f_idx offset = .ok out ∧
      (boundNames out).Perm (introducedNames f_idx ++ boundNames a) ∧
      (boundNames out).Nodup := by
  obtain ⟨out, hout, hperm⟩ :=
    patchMatrixAccesses_boundNames fuel a f_idx offset hlab h2 hfuel hres
  refine ⟨out, hout, hperm, ?_⟩
  rw [hperm.nodup_iff, List.nodup_append]
  exact ⟨introducedNames_nodup f_idx, hnodup, fun n hn hn2 => hfresh n hn hn2⟩

/-- The sample shader binds none of the introduced names. -/
theorem patchMatrixAccesses_names_witness :
    ∃ out, patchMatrixAccesses 40 sampleShader 0 16 = .ok out ∧
      (boundNames out).Perm (introducedNames 0 ++ boundNames sampleShader) ∧
      (boundNames out).Nodup :=
  patchMatrixAccesses_names 40 sampleShader 0 16 (by decide) (by decide) (by decide)
    (by decide) (by decide) (by decide)

/-- C6 as stated fails: `ptrTaken` already binds `%ptr`, which `patchMatrixAccesses`
introduces too, and the output binds that name twice. -/
theorem patchMatrixAccesses_names_counterexample :
    "%ptr ".toList ∈ boundNames ptrTaken ∧ "%ptr ".toList ∈ introducedNames 0 ∧
    (boundNames ptrTaken).Nodup ∧
    ∃ out, patchMatrixAccesses 40 ptrTaken 0 16 = .ok out ∧ ¬ (boundNames out).Nodup := by
  refine ⟨by decide, by decide, by decide, ?_⟩
  obtain ⟨out, hout, hperm⟩ := patchMatrixAccesses_boundNames 40 ptrTaken 0 16 (by decide)
    (by decide) (by decide) (by decide)
  refine ⟨out, hout, ?_⟩
  rw [hperm.nodup_iff, List.nodup_append]
  rintro ⟨_, _, hdis⟩
  exact hdis (a := "%ptr ".toList) (by decide) (by decide)


/-! ## patchMatrixAccesses: the values of the inserted arithmetic -/

theorem words_append_blank (p r : Line) (h : ' ' ∉ p) :
    words (p ++ ' ' :: r) = p :: words r := by
  induction p with
  | nil => simp [words]
  | cons c cs ih =>
    have hc : c ≠ ' ' := fun e => h (by simp [e])
    have hcs : ' ' ∉ cs := fun e => h (by simp [e])
    simp [words, hc, ih hcs]

theorem rowToken_no_blank (f_idx : Nat) (d : Char) (hd : d ≠ ' ') : ' ' ∉ rowToken f_idx d := by
  intro h
  simp only [rowToken, List.mem_append, List.mem_cons, List.mem_singleton, List.not_mem_nil,
    or_false] at h
  rcases h with (h | h) | h | h
  · revert h; decide
  · exact not_mem_fmt (by decide) f_idx h
  · revert h; decide
  · exact hd h.symm

theorem words_rowFaddLine (f_idx : Nat) (d : Char) (hd : d ∈ ['0', '1', '2', '3']) :
    words (rowFaddLine f_idx d) =
      [rowToken f_idx d, "=".toList, "OpIAdd".toList, "%uint".toList, "%data_offset".toList,
        "%fadd_".toList ++ [d]] := by
  have hform : rowFaddLine f_idx d = rowToken f_idx d ++ ' ' ::
      ("= OpIAdd %uint %data_offset %fadd_".toList ++ [d]) := by
    simp [rowFaddLine, rowToken]
  have hd2 : d ≠ ' ' := by
    intro e
    subst e
    revert hd
    decide
  rw [hform, words_append_blank _ _ (rowToken_no_blank f_idx d hd2)]
  simp only [List.mem_cons, List.mem_singleton, List.not_mem_nil, or_false] at hd
  rcases hd with rfl | rfl | rfl | rfl <;> rfl

theorem words_rowUintLine (f_idx : Nat) (d : Char) (hd : d ∈ ['0', '1', '2', '3']) :
    words (rowUintLine f_idx d) =
      [rowToken f_idx d, "=".toList, "OpIAdd".toList, "%uint".toList, "%data_offset".toList,
        "%uint_".toList ++ [d]] := by
  have hform : rowUintLine f_idx d = rowToken f_idx d ++ ' ' ::
      ("= OpIAdd %uint %data_offset %uint_".toList ++ [d]) := by
    simp [rowUintLine, rowToken]
  have hd2 : d ≠ ' ' := by
    intro e
    subst e
    revert hd
    decide
  rw [hform, words_append_blank _ _ (rowToken_no_blank f_idx d hd2)]
  simp only [List.mem_cons, List.mem_singleton, List.not_mem_nil, or_false] at hd
  rcases hd with rfl | rfl | rfl | rfl <;> rfl

theorem lookupName_skip (k name : Line) (v : Nat) (env : Env) (h : name ≠ k) :
    lookupName ((k, v) :: env) name = lookupName env name := by
  simp [lookupName, h]

theorem lookupName_hit (k : Line) (v : Nat) (env : Env) :
    lookupName ((k, v) :: env) k = some v := by
  simp [lookupName]

theorem ne_rowToken (f_idx : Nat) (d : Char) (name : Line) (h : name[1]? ≠ some 'i') :
    name ≠ rowToken f_idx d := by
  intro e
  apply h
  rw [e]
  simp [rowToken]

theorem rowToken_ne (f_idx : Nat) {d e : Char} (h : d ≠ e) :
    rowToken f_idx d ≠ rowToken f_idx e := by
  intro heq
  unfold rowToken at heq
  have := List.append_cancel_left heq
  apply h
  simpa using this

/-- A row line with the `%fadd` operand adds the two values it names. -/
theorem evalLine_rowFaddLine (env : Env) (f_idx : Nat) (d : Char) (vd w : Nat)
    (hd : d ∈ ['0', '1', '2', '3'])
    (h1 : lookupName env "%data_offset".toList = some vd)
    (h2 : lookupName env ("%fadd_".toList ++ [d]) = some w) :
    evalLine env (rowFaddLine f_idx d) =
      some ((rowToken f_idx d, (vd + w) % 4294967296) :: env) := by
  unfold evalLine
  rw [words_rowFaddLine f_idx d hd]
  simp only [h1, h2]
  simp

/-- A row line with the `%uint` operand adds the two values it names. -/
theorem evalLine_rowUintLine (env : Env) (f_idx : Nat) (d : Char) (vd w : Nat)
    (hd : d ∈ ['0', '1', '2', '3'])
    (h1 : lookupName env "%data_offset".toList = some vd)
    (h2 : lookupName env ("%uint_".toList ++ [d]) = some w) :
    evalLine env (rowUintLine f_idx d) =
      some ((rowToken f_idx d, (vd + w) % 4294967296) :: env) := by
  unfold evalLine
  rw [words_rowUintLine f_idx d hd]
  simp only [h1, h2]
  simp

theorem evalLines_append (env : Env) (l1 l2 : List Line) :
    evalLines env (l1 ++ l2) =
      match evalLines env l1 with
      | some e => evalLines e l2
      | none => none := by
  induction l1 generalizing env with
  | nil => rfl
  | cons x xs ih =>
    simp only [List.cons_append, evalLines]
    cases evalLine env x with
    | none => rfl
    | some e => exact ih e

/-- The four row lines of the branch `f_idx > 0`, one after the other. -/
theorem evalLines_rowFadd (env : Env) (f_idx vd w0 w1 w2 w3 : Nat)
    (h : lookupName env "%data_offset".toList = some vd)
    (h0 : lookupName env "%fadd_0".toList = some w0)
    (h1 : lookupName env "%fadd_1".toList = some w1)
    (h2 : lookupName env "%fadd_2".toList = some w2)
    (h3 : lookupName env "%fadd_3".toList = some w3) :
    evalLines env [rowFaddLine f_idx '0', rowFaddLine f_idx '1', rowFaddLine f_idx '2',
        rowFaddLine f_idx '3'] =
      some ((rowToken f_idx '3', (vd + w3) % 4294967296) ::
        (rowToken f_idx '2', (vd + w2) % 4294967296) ::
        (rowToken f_idx '1', (vd + w1) % 4294967296) ::
        (rowToken f_idx '0', (vd + w0) % 4294967296) :: env) := by
  simp only [evalLines]
  rw [evalLine_rowFaddLine env f_idx '0' vd w0 (by decide) h h0]
  simp only
  rw [evalLine_rowFaddLine _ f_idx '1' vd w1 (by decide)
    (by rw [lookupName_skip _ _ _ _ (ne_rowToken _ _ _ (by decide))]; exact h)
    (by rw [lookupName_skip _ _ _ _ (ne_rowToken _ _ _ (by decide))]; exact h1)]
  simp only
  rw [evalLine_rowFaddLine _ f_idx '2' vd w2 (by decide)
    (by rw [lookupName_skip _ _ _ _ (ne_rowToken _ _ _ (by decide)),
      lookupName_skip _ _ _ _ (ne_rowToken _ _ _ (by decide))]; exact h)
    (by rw [lookupName_skip _ _ _ _ (ne_rowToken _ _ _ (by decide)),
      lookupName_skip _ _ _ _ (ne_rowToken _ _ _ (by decide))]; exact h2)]
  simp only
  rw [evalLine_rowFaddLine _ f_idx '3' vd w3 (by decide)
    (by rw [lookupName_skip _ _ _ _ (ne_rowToken _ _ _ (by decide)),
      lookupName_skip _ _ _ _ (ne_rowToken _ _ _ (by decide)),
      lookupName_skip _ _ _ _ (ne_rowToken _ _ _ (by decide))]; exact h)
    (by rw [lookupName_skip _ _ _ _ (ne_rowToken _ _ _ (by decide)),
      lookupName_skip _ _ _ _ (ne_rowToken _ _ _ (by decide)),
      lookupName_skip _ _ _ _ (ne_rowToken _ _ _ (by decide))]; exact h3)]

/-- The four row lines of the branch `f_idx = 0`, one after the other. -/
theorem evalLines_rowUint (env : Env) (f_idx vd w0 w1 w2 w3 : Nat)
    (h : lookupName env "%data_offset".toList = some vd)
    (h0 : lookupName env "%uint_0".toList = some w0)
    (h1 : lookupName env "%uint_1".toList = some w1)
    (h2 : lookupName env "%uint_2".toList = some w2)
    (h3 : lookupName env "%uint_3".toList = some w3) :
    evalLines env [rowUintLine f_idx '0', rowUintLine f_idx '1', rowUintLine f_idx '2',
        rowUintLine f_idx '3'] =
      some ((rowToken f_idx '3', (vd + w3) % 4294967296) ::
        (rowToken f_idx '2', (vd + w2) % 4294967296) ::
        (rowToken f_idx '1', (vd + w1) % 4294967296) ::
        (rowToken f_idx '0', (vd + w0) % 4294967296) :: env) := by
  simp only [evalLines]
  rw [evalLine_rowUintLine env f_idx '0' vd w0 (by decide) h h0]
  simp only
  rw [evalLine_rowUintLine _ f_idx '1' vd w1 (by decide)
    (by rw [lookupName_skip _ _ _ _ (ne_rowToken _ _ _ (by decide))]; exact h)
    (by rw [lookupName_skip _ _ _ _ (ne_rowToken _ _ _ (by decide))]; exact h1)]
  simp only
  rw [evalLine_rowUintLine _ f_idx '2' vd w2 (by decide)
    (by rw [lookupName_skip _ _ _ _ (ne_rowToken _ _ _ (by decide)),
      lookupName_skip _ _ _ _ (ne_rowToken _ _ _ (by decide))]; exact h)
    (by rw [lookupName_skip _ _ _ _ (ne_rowToken _ _ _ (by decide)),
      lookupName_skip _ _ _ _ (ne_rowToken _ _ _ (by decide))]; exact h2)]
  simp only
  rw [evalLine_rowUintLine _ f_idx '3' vd w3 (by decide)
    (by rw [lookupName_skip _ _ _ _ (ne_rowToken _ _ _ (by decide)),
      lookupName_skip _ _ _ _ (ne_rowToken _ _ _ (by decide)),
      lookupName_skip _ _ _ _ (ne_rowToken _ _ _ (by decide))]; exact h)
    (by rw [lookupName_skip _ _ _ _ (ne_rowToken _ _ _ (by decide)),
      lookupName_skip _ _ _ _ (ne_rowToken _ _ _ (by decide)),
      lookupName_skip _ _ _ _ (ne_rowToken _ _ _ (by decide))]; exact h3)]

/-- The values after the lines that are the same for every `f_idx > 0`. -/
theorem evalLines_common_fadd (f_idx offset v : Nat) :
    evalLines (initialEnv f_idx offset v)
        [viLine, viewOffsetLine, dataOffsetLine, faddLine '0', faddLine '1', faddLine '2',
          faddLine '3'] = some (faddEnv f_idx offset v) := rfl

/-- The values after the first three lines. -/
theorem evalLines_common (f_idx offset v : Nat) :
    evalLines (initialEnv f_idx offset v) [viLine, viewOffsetLine, dataOffsetLine] =
      some (commonEnv f_idx offset v) := rfl

theorem lookupName_rows (f_idx x0 x1 x2 x3 : Nat) (env : Env) :
    lookupName ((rowToken f_idx '3', x3) :: (rowToken f_idx '2', x2) ::
        (rowToken f_idx '1', x1) :: (rowToken f_idx '0', x0) :: env) (rowToken f_idx '0') =
      some x0 ∧
    lookupName ((rowToken f_idx '3', x3) :: (rowToken f_idx '2', x2) ::
        (rowToken f_idx '1', x1) :: (rowToken f_idx '0', x0) :: env) (rowToken f_idx '1') =
      some x1 ∧
    lookupName ((rowToken f_idx '3', x3) :: (rowToken f_idx '2', x2) ::
        (rowToken f_idx '1', x1) :: (rowToken f_idx '0', x0) :: env) (rowToken f_idx '2') =
      some x2 ∧
    lookupName ((rowToken f_idx '3', x3) :: (rowToken f_idx '2', x2) ::
        (rowToken f_idx '1', x1) :: (rowToken f_idx '0', x0) :: env) (rowToken f_idx '3') =
      some x3 := by
  refine ⟨?_, ?_, ?_, ?_⟩
  · rw [lookupName_skip _ _ _ _ (rowToken_ne f_idx (by decide)),
      lookupName_skip _ _ _ _ (rowToken_ne f_idx (by decide)),
      lookupName_skip _ _ _ _ (rowToken_ne f_idx (by decide)), lookupName_hit]
  · rw [lookupName_skip _ _ _ _ (rowToken_ne f_idx (by decide)),
      lookupName_skip _ _ _ _ (rowToken_ne f_idx (by decide)), lookupName_hit]
  · rw [lookupName_skip _ _ _ _ (rowToken_ne f_idx (by decide)), lookupName_hit]
  · rw [lookupName_hit]

theorem lookupName_past_rows (f_idx x0 x1 x2 x3 : Nat) (env : Env) (name : Line)
    (h : name[1]? ≠ some 'i') :
    lookupName ((rowToken f_idx '3', x3) :: (rowToken f_idx '2', x2) ::
        (rowToken f_idx '1', x1) :: (rowToken f_idx '0', x0) :: env) name =
      lookupName env name := by
  rw [lookupName_skip _ _ _ _ (ne_rowToken _ _ _ h),
    lookupName_skip _ _ _ _ (ne_rowToken _ _ _ h),
    lookupName_skip _ _ _ _ (ne_rowToken _ _ _ h),
    lookupName_skip _ _ _ _ (ne_rowToken _ _ _ h)]

theorem rowToken_of_fmt (f_idx i : Nat) (hi : i < 4) :
    "%i_f".toList ++ fmt f_idx ++ '_' :: fmt i = rowToken f_idx (Nat.digitChar i) := by
  rw [fmt_small i (by omega)]
  rfl

/-- The values of the inserted arithmetic: `%data_offset` is `offset + v * 4` and the row
value `%i_f<f_idx>_<i>` is `offset + v * 4 + (f_idx + i)`, both modulo 2^32. -/
theorem viewOffsetLines_values (f_idx offset v : Nat) :
    ∃ env, evalLines (initialEnv f_idx offset v) (viewOffsetLines f_idx) = some env ∧
      lookupName env "%data_offset".toList = some ((offset + v * 4) % 4294967296) ∧
      ∀ i, i < 4 → lookupName env ("%i_f".toList ++ fmt f_idx ++ '_' :: fmt i) =
        some ((offset + v * 4 + (f_idx + i)) % 4294967296) := by
  have hd : dataOffsetValue offset v = (offset + v * 4) % 4294967296 := by
    unfold dataOffsetValue
    omega
  by_cases hf : f_idx > 0
  · have hlines : viewOffsetLines f_idx =
        [viLine, viewOffsetLine, dataOffsetLine, faddLine '0', faddLine '1', faddLine '2',
          faddLine '3'] ++
        [rowFaddLine f_idx '0', rowFaddLine f_idx '1', rowFaddLine f_idx '2',
          rowFaddLine f_idx '3'] := by
      simp [viewOffsetLines, hf]
    have hrows := evalLines_rowFadd (faddEnv f_idx offset v) f_idx (dataOffsetValue offset v)
      ((0 + f_idx % 4294967296) % 4294967296) ((1 + f_idx % 4294967296) % 4294967296)
      ((2 + f_idx % 4294967296) % 4294967296) ((3 + f_idx % 4294967296) % 4294967296)
      rfl rfl rfl rfl rfl
    rw [hlines, evalLines_append, evalLines_common_fadd]
    simp only
    rw [hrows]
    refine ⟨_, rfl, ?_, ?_⟩
    · rw [lookupName_past_rows _ _ _ _ _ _ _ (by decide)]
      have : lookupName (faddEnv f_idx offset v) "%data_offset".toList =
          some (dataOffsetValue offset v) := rfl
      rw [this, hd]
    · intro i hi
      rw [rowToken_of_fmt f_idx i hi]
      obtain ⟨r0, r1, r2, r3⟩ := lookupName_rows f_idx
        ((dataOffsetValue offset v + (0 + f_idx % 4294967296) % 4294967296) % 4294967296)
        ((dataOffsetValue offset v + (1 + f_idx % 4294967296) % 4294967296) % 4294967296)
        ((dataOffsetValue offset v + (2 + f_idx % 4294967296) % 4294967296) % 4294967296)
        ((dataOffsetValue offset v + (3 + f_idx % 4294967296) % 4294967296) % 4294967296)
        (faddEnv f_idx offset v)
      interval_cases i
      · rw [show Nat.digitChar 0 = '0' from rfl, r0, hd]
        congr 1
        omega
      · rw [show Nat.digitChar 1 = '1' from rfl, r1, hd]
        congr 1
        omega
      · rw [show Nat.digitChar 2 = '2' from rfl, r2, hd]
        congr 1
        omega
      · rw [show Nat.digitChar 3 = '3' from rfl, r3, hd]
        congr 1
        omega
  · have hlines : viewOffsetLines f_idx =
        [viLine, viewOffsetLine, dataOffsetLine] ++
        [rowUintLine f_idx '0', rowUintLine f_idx '1', rowUintLine f_idx '2',
          rowUintLine f_idx '3'] := by
      simp [viewOffsetLines, hf]
    have hrows := evalLines_rowUint (commonEnv f_idx offset v) f_idx (dataOffsetValue offset v)
      0 1 2 3 rfl rfl rfl rfl rfl
    rw [hlines, evalLines_append, evalLines_common]
    simp only
    rw [hrows]
    refine ⟨_, rfl, ?_, ?_⟩
    · rw [lookupName_past_rows _ _ _ _ _ _ _ (by decide)]
      have : lookupName (commonEnv f_idx offset v) "%data_offset".toList =
          some (dataOffsetValue offset v) := rfl
      rw [this, hd]
    · intro i hi
      rw [rowToken_of_fmt f_idx i hi]
      obtain ⟨r0, r1, r2, r3⟩ := lookupName_rows f_idx
        ((dataOffsetValue offset v + 0) % 4294967296)
        ((dataOffsetValue offset v + 1) % 4294967296)
        ((dataOffsetValue offset v + 2) % 4294967296)
        ((dataOffsetValue offset v + 3) % 4294967296)
        (commonEnv f_idx offset v)
      interval_cases i
      · rw [show Nat.digitChar 0 = '0' from rfl, r0, hd]
        congr 1
        omega
      · rw [show Nat.digitChar 1 = '1' from rfl, r1, hd]
        congr 1
        omega
      · rw [show Nat.digitChar 2 = '2' from rfl, r2, hd]
        congr 1
        omega
      · rw [show Nat.digitChar 3 = '3' from rfl, r3, hd]
        congr 1
        omega


/-- The first label line of the input is the first label line after the decoration insert. -/
theorem getElem?_withDecoration_label (a : List Line) :
    (withDecoration a)[labelIndexAfterDecoration a]? = a[find_idx a needleOpLabel]? := by
  unfold withDecoration labelIndexAfterDecoration
  have hle : find_idx a needleOpDecorate ≤ a.length :=
    List.findIdx_le_length (fun x => contains x needleOpDecorate)
  have hlen : (a.take (find_idx a needleOpDecorate)).length = find_idx a needleOpDecorate := by
    simp [hle]
  by_cases h : find_idx a needleOpDecorate ≤ find_idx a needleOpLabel
  · rw [if_pos h, List.getElem?_append_right (by rw [hlen]; omega), hlen]
    have h1 : find_idx a needleOpLabel + 1 - find_idx a needleOpDecorate =
        (find_idx a needleOpLabel - find_idx a needleOpDecorate) + 1 := by omega
    rw [h1, List.getElem?_cons_succ, List.getElem?_drop]
    congr 1
    omega
  · rw [if_neg h, Nat.add_zero, List.getElem?_append_left (by rw [hlen]; omega),
      List.getElem?_take_of_lt (by omega)]

/-- Where the inserted arithmetic stands in the result: right after the label line, which
is at position `labelIndexAfterDecoration a + 4`. -/
theorem patchMatrixAccesses_block (fuel : Nat) (a : List Line) (f_idx offset : Nat)
    (hlab : find_idx a needleOpLabel < a.length) (h2 : 2 ≤ labelIndexAfterDecoration a)
    (hfuel : a.length + 18 ≤ fuel) :
    ∃ (out U : List Line) (lab : Line) (R : List Line),
      patchMatrixAccesses fuel a f_idx offset = .ok out ∧
      out = U ++ rewriteLine f_idx lab :: (viewOffsetLines f_idx ++ R) ∧
      U.length = labelIndexAfterDecoration a + 4 ∧
      a[find_idx a needleOpLabel]? = some lab := by
  obtain ⟨P, q1, q2, lab, R, hsplit, hlen, hP, hq1, hq2, hl⟩ := exists_split a hlab h2
  refine ⟨_, P.map (rewriteLine f_idx) ++ declarationLines f_idx offset ++
      [rewriteLine f_idx q1, rewriteLine f_idx q2], lab, R.map (rewriteLine f_idx),
    patchMatrixAccesses_eq fuel a f_idx offset P R q1 q2 lab hsplit hP hq1 hq2 hl hfuel,
    patched_form P R q1 q2 lab f_idx offset, ?_, ?_⟩
  · simp [declarationLines]
    omega
  · rw [← getElem?_withDecoration_label, hsplit, ← hlen]
    have h3 : P ++ q1 :: q2 :: lab :: R = (P ++ [q1, q2]) ++ lab :: R := by simp
    have h4 : P.length + 2 = (P ++ [q1, q2]).length := by simp
    rw [h3, h4, List.getElem?_append_right (le_refl _)]
    simp

/-- C7 (amended). For a sequence whose first label line is at position 2 or later once the
decoration is inserted, the lines that `patchMatrixAccesses` puts right after the label,
read in 32-bit unsigned arithmetic with `%uint_k` as `k`, `%shader_data_begin` as `offset`,
`%f_idx` as `f_idx` and view index `v`, give `%data_offset` the value `offset + v * 4` and
`%i_f<f_idx>_<i>` the value `data_offset + (f_idx + i)`, modulo 2^32, for each `i < 4`: the
row number is added as it is, not multiplied by 4. -/
theorem patchMatrixAccesses_values (fuel : Nat) (a : List Line) (f_idx offset v : Nat)
    (hlab : find_idx a needleOpLabel < a.length) (h2 : 2 ≤ labelIndexAfterDecoration a)
    (hfuel : a.length + 18 ≤ fuel) :
    ∃ (out U : List Line) (lab : Line) (R : List Line) (env : Env),
      patchMatrixAccesses fuel a f_idx offset = .ok out ∧
      out = U ++ rewriteLine f_idx lab :: (viewOffsetLines f_idx ++ R) ∧
      U.length = labelIndexAfterDecoration a + 4 ∧
      a[find_idx a needleOpLabel]? = some lab ∧
      evalLines (initialEnv f_idx offset v) (viewOffsetLines f_idx) = some env ∧
      lookupName env "%data_offset".toList = some ((offset + v * 4) % 4294967296) ∧
      ∀ i, i < 4 → lookupName env ("%i_f".toList ++ fmt f_idx ++ '_' :: fmt i) =
        some ((offset + v * 4 + (f_idx + i)) % 4294967296) := by
  obtain ⟨out, U, lab, R, h1, h2, h3, h4⟩ :=
    patchMatrixAccesses_block fuel a f_idx offset hlab h2 hfuel
  obtain ⟨env, h5, h6, h7⟩ := viewOffsetLines_values f_idx offset v
  exact ⟨out, U, lab, R, env, h1, h2, h3, h4, h5, h6, h7⟩

/-- The sample shader with `f_idx = 1`, `offset = 16` and view index 3. -/
theorem patchMatrixAccesses_values_witness :
    ∃ (out U : List Line) (lab : Line) (R : List Line) (env : Env),
      patchMatrixAccesses 40 sampleShader 1 16 = .ok out ∧
      out = U ++ rewriteLine 1 lab :: (viewOffsetLines 1 ++ R) ∧
      U.length = labelIndexAfterDecoration sampleShader + 4 ∧
      sampleShader[find_idx sampleShader needleOpLabel]? = some lab ∧
      evalLines (initialEnv 1 16 3) (viewOffsetLines 1) = some env ∧
      lookupName env "%data_offset".toList = some ((16 + 3 * 4) % 4294967296) ∧
      ∀ i, i < 4 → lookupName env ("%i_f".toList ++ fmt 1 ++ '_' :: fmt i) =
        some ((16 + 3 * 4 + (1 + i)) % 4294967296) :=
  patchMatrixAccesses_values 40 sampleShader 1 16 3 (by decide) (by decide) (by decide)

/-- C7 as stated fails: for the sample shader with `f_idx = 1`, `offset = 16` and view index
0, the eleven lines after the label (positions 14 to 24 of the output) give `%i_f1_0` the
value 17, which is `data_offset + (1 + 0)`; the claim's `data_offset + (1 * 4 + 0)` is 20. -/
theorem patchMatrixAccesses_values_counterexample :
    ((patchMatrixAccesses 40 sampleShader 1 16).toOption.bind
      (fun out => evalLines (initialEnv 1 16 0) ((out.drop 14).take 11))).bind
        (fun env => lookupName env "%i_f1_0".toList) = some 17 ∧
    17 ≠ (16 + 0 * 4 + (1 * 4 + 0)) % 4294967296 := by
  decide


/-! ## addMultiViewCapability: how often the capability line occurs -/

/-- C14 (amended). On a non-empty sequence `addMultiViewCapability` returns a sequence that
starts with the capability line; the line occurs once more than before unless it was the
first line, in which case nothing changes.  So it occurs exactly once afterwards when it did
not occur before, or occurred once, as the first line. -/
theorem addMultiViewCapability_count (a : List Line) (h : a ≠ []) :
    ∃ b, addMultiViewCapability a = .ok b ∧ b.head? = some capabilityLine ∧
      b.count capabilityLine =
        a.count capabilityLine + (if a.head? = some capabilityLine then 0 else 1) ∧
      ((a.count capabilityLine = 0 ∨
          (a.head? = some capabilityLine ∧ a.count capabilityLine = 1)) →
        b.count capabilityLine = 1) := by
  cases a with
  | nil => exact absurd rfl h
  | cons x rest =>
    by_cases hx : x = capabilityLine
    · refine ⟨x :: rest, by simp [addMultiViewCapability, hx], by simp [hx], by simp [hx], ?_⟩
      rintro (h0 | ⟨_, h1⟩)
      · exfalso
        rw [hx] at h0
        simp at h0
      · exact h1
    · refine ⟨capabilityLine :: x :: rest, by simp [addMultiViewCapability, hx], by simp,
        ?_, ?_⟩
      · have hx2 : ¬ (some x = some capabilityLine) := fun e => hx (Option.some.inj e)
        simp only [List.head?_cons, hx2, if_false]
        rw [List.count_cons_self]
      · rintro (h0 | ⟨h1, _⟩)
        · rw [List.count_cons_self, h0]
        · exact absurd (Option.some.inj h1) hx

/-- The sample shader has no capability line and gets one. -/
theorem addMultiViewCapability_count_witness :
    ∃ b, addMultiViewCapability sampleShader = .ok b ∧ b.head? = some capabilityLine ∧
      b.count capabilityLine =
        sampleShader.count capabilityLine +
          (if sampleShader.head? = some capabilityLine then 0 else 1) ∧
      ((sampleShader.count capabilityLine = 0 ∨
          (sampleShader.head? = some capabilityLine ∧
            sampleShader.count capabilityLine = 1)) →
        b.count capabilityLine = 1) :=
  addMultiViewCapability_count sampleShader (by decide)

/-- C14 as stated fails: in `capabilitySecond` the capability line occurs once, as the
second line; the first line is another one, so a second copy is put in front. -/
theorem addMultiViewCapability_count_counterexample :
    capabilitySecond ≠ [] ∧ capabilitySecond.count capabilityLine = 1 ∧
    ∃ b, addMultiViewCapability capabilitySecond = .ok b ∧ b.count capabilityLine = 2 :=
  ⟨by decide, by decide, capabilityLine :: capabilitySecond, by decide, by decide⟩

/-! ## patchEntryPoint: the line that is written -/

/-- The words of the line written by `patchEntryPoint`: the fixed head, then those of the
rest. -/
theorem words_entryHeader (flag : Bool) (rest : Line) :
    words (entryHeader flag ++ rest) =
      "OpEntryPoint".toList :: "Vertex".toList :: "%main".toList ::
        (dq :: "main".toList ++ [dq]) ::
        words ((if flag then "%ViewIndex".toList else []) ++ ' ' :: rest) := by
  have hform : entryHeader flag ++ rest =
      "OpEntryPoint".toList ++ ' ' :: ("Vertex".toList ++ ' ' :: ("%main".toList ++ ' ' ::
        ((dq :: "main".toList ++ [dq]) ++ ' ' ::
          ((if flag then "%ViewIndex".toList else []) ++ ' ' :: rest)))) := by
    simp [entryHeader]
  rw [hform, words_append_blank _ _ (by decide), words_append_blank _ _ (by decide),
    words_append_blank _ _ (by decide), words_append_blank _ _ (by decide)]

theorem entryIdentity_entryHeader (flag : Bool) (rest : Line) :
    entryIdentity (entryHeader flag ++ rest) =
      ["Vertex".toList, "%main".toList, dq :: "main".toList ++ [dq]] := by
  unfold entryIdentity
  rw [words_entryHeader]
  rfl

/-- C15 (amended). The line written by `patchEntryPoint` does not depend on the original
entry-point line: for every sequence with an entry-point line and either flag, it carries
the execution model `Vertex`, the function id `%main` and the name `"main"`.  The identity of
the original line is kept exactly when it was this one. -/
theorem patchEntryPoint_identity (a : List Line) (flag : Bool)
    (h : ∃ y ∈ a, contains y needleOpEntryPoint = true) :
    ∃ (out : List Line) (entry : Line),
      patchEntryPoint a flag = .ok out ∧
      out[find_idx a needleOpEntryPoint]? = some entry ∧
      entryIdentity entry = ["Vertex".toList, "%main".toList, dq :: "main".toList ++ [dq]] ∧
      ∀ old : Line, a[find_idx a needleOpEntryPoint]? = some old →
        (entryIdentity entry = entryIdentity old ↔
          entryIdentity old =
            ["Vertex".toList, "%main".toList, dq :: "main".toList ++ [dq]]) := by
  have hlt : find_idx a needleOpEntryPoint < a.length := List.findIdx_lt_length.mpr h
  refine ⟨_, _, patchEntryPoint_eq a flag hlt, List.getElem?_set_self hlt,
    entryIdentity_entryHeader flag _, ?_⟩
  intro old _
  rw [entryIdentity_entryHeader]
  exact eq_comm

/-- The sample shader, whose entry point is the vertex shader `main`. -/
theorem patchEntryPoint_identity_witness :
    ∃ (out : List Line) (entry : Line),
      patchEntryPoint sampleShader true = .ok out ∧
      out[find_idx sampleShader needleOpEntryPoint]? = some entry ∧
      entryIdentity entry = ["Vertex".toList, "%main".toList, dq :: "main".toList ++ [dq]] ∧
      ∀ old : Line, sampleShader[find_idx sampleShader needleOpEntryPoint]? = some old →
        (entryIdentity entry = entryIdentity old ↔
          entryIdentity old =
            ["Vertex".toList, "%main".toList, dq :: "main".toList ++ [dq]]) :=
  patchEntryPoint_identity sampleShader true (by decide)

/-- C15 as stated fails: the entry point of `fragmentEntry` has the execution model
`Fragment`, the function id `%frag` and the name `"ps_main"`; the line written in its place
has `Vertex`, `%main` and `"main"`. -/
theorem patchEntryPoint_identity_counterexample :
    fragmentEntry[1]? = some ("OpEntryPoint Fragment %frag ".toList ++ dq ::
      "ps_main".toList ++ dq :: " %o".toList) ∧
    entryIdentity ("OpEntryPoint Fragment %frag ".toList ++ dq ::
      "ps_main".toList ++ dq :: " %o".toList) =
      ["Fragment".toList, "%frag".toList, dq :: "ps_main".toList ++ [dq]] ∧
    ∃ out, patchEntryPoint fragmentEntry false = .ok out ∧
      out[1]? = some ("OpEntryPoint Vertex %main ".toList ++ dq :: "main".toList ++ dq ::
        "  %o ".toList) ∧
      entryIdentity ("OpEntryPoint Vertex %main ".toList ++ dq :: "main".toList ++ dq ::
        "  %o ".toList) = ["Vertex".toList, "%main".toList, dq :: "main".toList ++ [dq]] :=
  ⟨by decide, by decide, _, rfl, by decide, by decide⟩

/-! ## patchEntryPoint: which variables are collected -/

/-- C18. The code lists every line that contains `= OpVariable`, also behind the first
`OpFunction` line: in `localVariable` the first function starts at position 4, the variable
`%tmp` is declared at position 6, inside the function body, and the entry line written by
`patchEntryPoint` lists `%tmp`. -/
theorem patchEntryPoint_lists_local_variable :
    find_idx localVariable needleOpFunction = 4 ∧
    localVariable[6]? = some "%tmp = OpVariable %_ptr_Function_float Function".toList ∧
    patchEntryPoint localVariable true = .ok (localVariable.set 1
      ("OpEntryPoint Vertex %main ".toList ++ dq :: "main".toList ++ dq ::
        " %ViewIndex %a %tmp ".toList)) := by
  decide

/-! ## patchEntryPoint: layout and frame -/

theorem collectedVars_set (a : List Line) (e : Nat) (hdr : Line) (he : e < a.length)
    (hhdr : contains hdr needleOpVariable = false) :
    collectedVars (a.set e hdr) = collectedVars (a.eraseIdx e) := by
  rw [List.set_eq_take_append_cons_drop, if_pos he, List.eraseIdx_eq_take_drop_succ]
  simp [collectedVars, hhdr]

/-- C19. When the sequence has an entry-point line, `patchEntryPoint` returns a sequence of
the same length that differs from the input at the position of the entry line only; the line
written there is `OpEntryPoint Vertex %main "main" `, then `%ViewIndex` if and only if the
flag is set, a blank, and then, for every other line that contains `= OpVariable`, in the
order of the sequence and once per line, its text before the equals sign. -/
theorem patchEntryPoint_frame (a : List Line) (flag : Bool)
    (h : ∃ y ∈ a, contains y needleOpEntryPoint = true) :
    ∃ out, patchEntryPoint a flag = .ok out ∧
      out.length = a.length ∧
      (∀ k : Nat, k ≠ find_idx a needleOpEntryPoint → out[k]? = a[k]?) ∧
      out[find_idx a needleOpEntryPoint]? =
        some ("OpEntryPoint Vertex %main ".toList ++ dq :: "main".toList ++ dq :: ' ' ::
          (if flag then "%ViewIndex".toList else []) ++ ' ' ::
          ((((a.eraseIdx (find_idx a needleOpEntryPoint)).filter
            (fun x => contains x needleOpVariable)).map substrToEq).flatten)) := by
  have hlt : find_idx a needleOpEntryPoint < a.length := List.findIdx_lt_length.mpr h
  refine ⟨_, patchEntryPoint_eq a flag hlt, by simp, ?_, ?_⟩
  · intro k hk
    rw [List.getElem?_set_ne (Ne.symm hk)]
  · rw [List.getElem?_set_self hlt,
      collectedVars_set a _ _ hlt (not_var_of_no_eq (entryHeader_no_eq flag))]
    simp [entryHeader, collectedVars]

/-- The sample shader with the flag set. -/
theorem patchEntryPoint_frame_witness :
    ∃ out, patchEntryPoint sampleShader true = .ok out ∧
      out.length = sampleShader.length ∧
      (∀ k : Nat, k ≠ find_idx sampleShader needleOpEntryPoint → out[k]? = sampleShader[k]?) ∧
      out[find_idx sampleShader needleOpEntryPoint]? =
        some ("OpEntryPoint Vertex %main ".toList ++ dq :: "main".toList ++ dq :: ' ' ::
          (if true then "%ViewIndex".toList else []) ++ ' ' ::
          ((((sampleShader.eraseIdx (find_idx sampleShader needleOpEntryPoint)).filter
            (fun x => contains x needleOpVariable)).map substrToEq).flatten)) :=
  patchEntryPoint_frame sampleShader true (by decide)

/-! ## patchMatrixAccesses: termination of the rewrite loop -/

theorem countP_set_of_match (p : Line → Bool) (l : List Line) (k : Nat) (x y : Line)
    (h : l[k]? = some x) (hx : p x = true) (hy : p y = false) :
    (l.set k y).countP p + 1 = l.countP p := by
  have hk : k < l.length := by
    by_contra hc
    rw [List.getElem?_eq_none (by omega)] at h
    cases h
  have hxk : l[k] = x := by
    rw [List.getElem?_eq_getElem hk] at h
    exact Option.some.inj h
  have hl : l = l.take k ++ x :: l.drop (k + 1) := by
    rw [← hxk]
    simp
  rw [List.set_eq_take_append_cons_drop, if_pos hk]
  conv_rhs => rw [hl]
  simp [List.countP_append, List.countP_cons, hx, hy]
  omega

theorem matchesAny_rewriteAccess (f_idx i : Nat) (x : Line) :
    matchesAny f_idx (rewriteAccess f_idx i x) = false := by
  simp [matchesAny, rewriteAccess_not_match]

theorem matchesAny_of_match (f_idx i : Nat) (hi : i < 4) (x : Line)
    (h : ends_with x (accessPattern f_idx i) = true) : matchesAny f_idx x = true := by
  unfold matchesAny
  interval_cases i <;> simp [h]

/-- What the four passes make of a line: it is left alone or rewritten by one pass. -/
theorem rewriteLine_cases (f_idx : Nat) (x : Line) :
    (matchesAny f_idx x = false ∧ rewriteLine f_idx x = x) ∨
      ∃ i, i < 4 ∧ ends_with x (accessPattern f_idx i) = true ∧
        rewriteLine f_idx x = rewriteAccess f_idx i x := by
  unfold rewriteLine matchesAny
  by_cases h0 : ends_with x (accessPattern f_idx 0) = true
  · exact Or.inr ⟨0, by norm_num, h0, by simp [h0]⟩
  · by_cases h1 : ends_with x (accessPattern f_idx 1) = true
    · exact Or.inr ⟨1, by norm_num, h1, by simp [h0, h1]⟩
    · by_cases h2 : ends_with x (accessPattern f_idx 2) = true
      · exact Or.inr ⟨2, by norm_num, h2, by simp [h0, h1, h2]⟩
      · by_cases h3 : ends_with x (accessPattern f_idx 3) = true
        · exact Or.inr ⟨3, by norm_num, h3, by simp [h0, h1, h2, h3]⟩
        · exact Or.inl (by simp [h0, h1, h2, h3])

/-- C20. The rewrite loop ends for every sequence and every `f_idx`: with a budget of two
more rounds than the sequence has lines, the four passes return the sequence with every
line left alone or rewritten once, and pass `i` alone needs at most two rounds more than
there are lines ending with its pattern.  The reason: a rewritten line ends with none of the
four patterns, so every rewrite of a matching line lowers by one the number of lines that
end with the pattern of the pass, and the number of lines that end with any of the four. -/
theorem patchRows_terminates (fuel f_idx : Nat) (a : List Line) (hfuel : a.length + 2 ≤ fuel) :
    patchRows fuel f_idx a = .ok (a.map (rewriteLine f_idx)) ∧
    (∀ i budget : Nat,
      a.countP (fun y => ends_with y (accessPattern f_idx i)) + 2 ≤ budget →
      patchRow f_idx i budget a 0 = .ok (a.map (rewriteIf f_idx i))) ∧
    (∀ (i j : Nat) (x : Line),
      ends_with (rewriteAccess f_idx i x) (accessPattern f_idx j) = false) ∧
    (∀ x : Line, (matchesAny f_idx x = false ∧ rewriteLine f_idx x = x) ∨
      ∃ i, i < 4 ∧ ends_with x (accessPattern f_idx i) = true ∧
        rewriteLine f_idx x = rewriteAccess f_idx i x) ∧
    (∀ (l : List Line) (k i : Nat) (x : Line), i < 4 → l[k]? = some x →
      ends_with x (accessPattern f_idx i) = true →
      (l.set k (rewriteAccess f_idx i x)).countP
          (fun y => ends_with y (accessPattern f_idx i)) + 1 =
        l.countP (fun y => ends_with y (accessPattern f_idx i)) ∧
      (l.set k (rewriteAccess f_idx i x)).countP (matchesAny f_idx) + 1 =
        l.countP (matchesAny f_idx)) := by
  refine ⟨patchRows_eq fuel f_idx a hfuel, ?_, rewriteAccess_not_match f_idx,
    rewriteLine_cases f_idx, ?_⟩
  · intro i budget hb
    have := patchRow_eq f_idx i budget [] a hb
    simpa using this
  · intro l k i x hi hk hx
    exact ⟨countP_set_of_match _ l k x _ hk hx (rewriteAccess_not_match f_idx i i x),
      countP_set_of_match _ l k x _ hk (matchesAny_of_match f_idx i hi x hx)
        (matchesAny_rewriteAccess f_idx i x)⟩

/-- The sample shader with `f_idx = 0` and a budget of 40 rounds. -/
theorem patchRows_terminates_witness :
    patchRows 40 0 sampleShader = .ok (sampleShader.map (rewriteLine 0)) ∧
    (∀ i budget : Nat,
      sampleShader.countP (fun y => ends_with y (accessPattern 0 i)) + 2 ≤ budget →
      patchRow 0 i budget sampleShader 0 = .ok (sampleShader.map (rewriteIf 0 i))) ∧
    (∀ (i j : Nat) (x : Line),
      ends_with (rewriteAccess 0 i x) (accessPattern 0 j) = false) ∧
    (∀ x : Line, (matchesAny 0 x = false ∧ rewriteLine 0 x = x) ∨
      ∃ i, i < 4 ∧ ends_with x (accessPattern 0 i) = true ∧
        rewriteLine 0 x = rewriteAccess 0 i x) ∧
    (∀ (l : List Line) (k i : Nat) (x : Line), i < 4 → l[k]? = some x →
      ends_with x (accessPattern 0 i) = true →
      (l.set k (rewriteAccess 0 i x)).countP
          (fun y => ends_with y (accessPattern 0 i)) + 1 =
        l.countP (fun y => ends_with y (accessPattern 0 i)) ∧
      (l.set k (rewriteAccess 0 i x)).countP (matchesAny 0) + 1 =
        l.countP (matchesAny 0)) :=
  patchRows_terminates 40 0 sampleShader (by decide)

/-! ## patchMatrixAccesses: where the inserted lines stand -/

/-- The lines of the sequence after source line 96, by position. -/
theorem getElem?_withDecoration (a : List Line) (k : Nat) :
    (withDecoration a)[k]? =
      if k < find_idx a needleOpDecorate then a[k]?
      else if k = find_idx a needleOpDecorate then some decorationLine
      else a[k - 1]? := by
  unfold withDecoration
  have hle : find_idx a needleOpDecorate ≤ a.length :=
    List.findIdx_le_length (fun x => contains x needleOpDecorate)
  have hlen : (a.take (find_idx a needleOpDecorate)).length = find_idx a needleOpDecorate := by
    simp [hle]
  by_cases h1 : k < find_idx a needleOpDecorate
  · rw [if_pos h1, List.getElem?_append_left (by rw [hlen]; exact h1),
      List.getElem?_take_of_lt h1]
  · rw [if_neg h1, List.getElem?_append_right (by rw [hlen]; omega), hlen]
    by_cases h2 : k = find_idx a needleOpDecorate
    · rw [if_pos h2, h2]
      simp
    · rw [if_neg h2]
      have h3 : k - find_idx a needleOpDecorate =
          (k - find_idx a needleOpDecorate - 1) + 1 := by omega
      rw [h3, List.getElem?_cons_succ, List.getElem?_drop]
      congr 1
      omega

/-- A rewrite does not make a label line out of a line that is none. -/
theorem rewriteLine_no_label (f_idx : Nat) (y : Line)
    (h : contains y needleOpLabel = false) :
    contains (rewriteLine f_idx y) needleOpLabel = false := by
  rcases rewriteLine_cases f_idx y with ⟨_, h1⟩ | ⟨i, _, _, h1⟩
  · rw [h1]
    exact h
  · rw [h1, contains_eq_false_iff]
    intro hc
    have hform : rewriteAccess f_idx i y = substrToEq y ++ '=' ::
        (" OpAccessChain %_ptr_Uniform_v4float %c %uint_1 %i_f".toList ++
          (fmt f_idx ++ '_' :: fmt i)) := by
      simp [rewriteAccess]
    have hneedle : needleOpLabel = [' '] ++ '=' :: " OpLabel".toList := rfl
    rw [hform, hneedle] at hc
    rcases infix_split_at_char (substrToEq_no_eq y) (by decide) hc with ⟨_, h2⟩ | h2
    · have h3 : " OpLabel".toList <+:
          " OpAccessChain %_ptr_Uniform_v4float %c %uint_1 %i_f".toList :=
        List.prefix_of_prefix_length_le h2 (List.prefix_append _ _) (by decide)
      revert h3
      decide
    · have h3 : '=' ∈ " OpAccessChain %_ptr_Uniform_v4float %c %uint_1 %i_f".toList ++
          (fmt f_idx ++ '_' :: fmt i) := h2.subset (by simp)
      simp only [List.mem_append, List.mem_cons] at h3
      rcases h3 with h3 | h3 | h3 | h3
      · revert h3
        decide
      · exact not_mem_fmt (by decide) f_idx h3
      · revert h3
        decide
      · exact not_mem_fmt (by decide) i h3

/-- The inserted arithmetic, line by line. -/
theorem viewOffsetLines_explicit (f_idx : Nat) :
    viewOffsetLines f_idx =
      if f_idx > 0 then
        ["%vi = OpLoad %uint %ViewIndex".toList,
         "%view_offset = OpIMul %uint %vi %uint_4".toList,
         "%data_offset = OpIAdd %uint %shader_data_begin %view_offset".toList,
         "%fadd_0 = OpIAdd %uint %uint_0 %f_idx".toList,
         "%fadd_1 = OpIAdd %uint %uint_1 %f_idx".toList,
         "%fadd_2 = OpIAdd %uint %uint_2 %f_idx".toList,
         "%fadd_3 = OpIAdd %uint %uint_3 %f_idx".toList,
         "%i_f".toList ++ fmt f_idx ++ "_0 = OpIAdd %uint %data_offset %fadd_0".toList,
         "%i_f".toList ++ fmt f_idx ++ "_1 = OpIAdd %uint %data_offset %fadd_1".toList,
         "%i_f".toList ++ fmt f_idx ++ "_2 = OpIAdd %uint %data_offset %fadd_2".toList,
         "%i_f".toList ++ fmt f_idx ++ "_3 = OpIAdd %uint %data_offset %fadd_3".toList]
      else
        ["%vi = OpLoad %uint %ViewIndex".toList,
         "%view_offset = OpIMul %uint %vi %uint_4".toList,
         "%data_offset = OpIAdd %uint %shader_data_begin %view_offset".toList,
         "%i_f".toList ++ fmt f_idx ++ "_0 = OpIAdd %uint %data_offset %uint_0".toList,
         "%i_f".toList ++ fmt f_idx ++ "_1 = OpIAdd %uint %data_offset %uint_1".toList,
         "%i_f".toList ++ fmt f_idx ++ "_2 = OpIAdd %uint %data_offset %uint_2".toList,
         "%i_f".toList ++ fmt f_idx ++ "_3 = OpIAdd %uint %data_offset %uint_3".toList] := by
  by_cases hf : f_idx > 0
  · simp [viewOffsetLines, hf, viLine, viewOffsetLine, dataOffsetLine, faddLine, rowFaddLine]
  · simp [viewOffsetLines, hf, viLine, viewOffsetLine, dataOffsetLine, rowUintLine]

theorem labelIndexAfterDecoration_ge (a : List Line) :
    find_idx a needleOpLabel ≤ labelIndexAfterDecoration a := by
  unfold labelIndexAfterDecoration
  omega

/-- The output of `patchMatrixAccesses` around the label, with what is known of each part. -/
theorem patchMatrixAccesses_layout (fuel : Nat) (a : List Line) (f_idx offset : Nat)
    (hlab : find_idx a needleOpLabel < a.length) (h2 : 2 ≤ labelIndexAfterDecoration a)
    (hfuel : a.length + 18 ≤ fuel) :
    ∃ (P : List Line) (q1 q2 lab : Line) (R : List Line),
      patchMatrixAccesses fuel a f_idx offset =
        .ok (P.map (rewriteLine f_idx) ++ (declarationLines f_idx offset ++
          rewriteLine f_idx q1 :: rewriteLine f_idx q2 :: rewriteLine f_idx lab ::
            (viewOffsetLines f_idx ++ R.map (rewriteLine f_idx)))) ∧
      P.length + 2 = labelIndexAfterDecoration a ∧
      (∀ y ∈ P.map (rewriteLine f_idx), contains y needleOpLabel = false) ∧
      contains (rewriteLine f_idx q1) needleOpLabel = false ∧
      contains (rewriteLine f_idx q2) needleOpLabel = false ∧
      a[find_idx a needleOpLabel]? = some lab ∧
      (withDecoration a)[labelIndexAfterDecoration a - 2]? = some q1 ∧
      (withDecoration a)[labelIndexAfterDecoration a - 1]? = some q2 ∧
      R.head? = (withDecoration a)[labelIndexAfterDecoration a + 1]? := by
  obtain ⟨P, q1, q2, lab, R, hsplit, hlen, hP, hq1, hq2, hl⟩ := exists_split a hlab h2
  refine ⟨P, q1, q2, lab, R, ?_, hlen, ?_, rewriteLine_no_label f_idx q1 hq1,
    rewriteLine_no_label f_idx q2 hq2, ?_, ?_, ?_, ?_⟩
  · rw [patchMatrixAccesses_eq fuel a f_idx offset P R q1 q2 lab hsplit hP hq1 hq2 hl hfuel,
      patched_form]
    simp
  · intro y hy
    obtain ⟨z, hz, rfl⟩ := List.mem_map.mp hy
    exact rewriteLine_no_label f_idx z (hP z hz)
  · rw [← getElem?_withDecoration_label, hsplit, ← hlen]
    have h3 : P ++ q1 :: q2 :: lab :: R = (P ++ [q1, q2]) ++ lab :: R := by simp
    have h4 : P.length + 2 = (P ++ [q1, q2]).length := by simp
    rw [h3, h4, List.getElem?_append_right (le_refl _)]
    simp
  · rw [hsplit, ← hlen]
    have h4 : P.length + 2 - 2 = P.length := by omega
    rw [h4, List.getElem?_append_right (le_refl _)]
    simp
  · rw [hsplit, ← hlen]
    have h3 : P ++ q1 :: q2 :: lab :: R = (P ++ [q1]) ++ q2 :: lab :: R := by simp
    have h4 : P.length + 2 - 1 = (P ++ [q1]).length := by simp
    rw [h3, h4, List.getElem?_append_right (le_refl _)]
    simp
  · rw [hsplit, ← hlen]
    have h3 : P ++ q1 :: q2 :: lab :: R = (P ++ [q1, q2, lab]) ++ R := by simp
    have h4 : P.length + 2 + 1 = (P ++ [q1, q2, lab]).length := by simp
    rw [h3, h4, List.getElem?_append_right (le_refl _)]
    simp [List.head?_eq_getElem?]

/-- C16 (amended). For a sequence whose first label line is at position 2 or later, the
output of `patchMatrixAccesses` has no label line before position
`labelIndexAfterDecoration a + 4`; there stands the label line of the input, and right behind
it the definitions of `%vi`, `%view_offset`, `%data_offset` and then, when `f_idx > 0`,
`%fadd_0` to `%fadd_3` and `%i_f<f_idx>_0` to `%i_f<f_idx>_3` (11 lines), or, when
`f_idx = 0`, `%i_f0_0` to `%i_f0_3` (7 lines).  The line after them is the line that
followed the label in the input as the passes leave it, that is rewritten if it ends with a
searched pattern; it is the decoration line of source line 96 instead when that line was
inserted right behind the label. -/
theorem patchMatrixAccesses_block_placement (fuel : Nat) (a : List Line) (f_idx offset : Nat)
    (hlab : find_idx a needleOpLabel < a.length) (h2 : 2 ≤ find_idx a needleOpLabel)
    (hfuel : a.length + 18 ≤ fuel) :
    ∃ (out U : List Line) (lab : Line) (rest : List Line),
      patchMatrixAccesses fuel a f_idx offset = .ok out ∧
      out = U ++ rewriteLine f_idx lab ::
        ((if f_idx > 0 then
          ["%vi = OpLoad %uint %ViewIndex".toList,
           "%view_offset = OpIMul %uint %vi %uint_4".toList,
           "%data_offset = OpIAdd %uint %shader_data_begin %view_offset".toList,
           "%fadd_0 = OpIAdd %uint %uint_0 %f_idx".toList,
           "%fadd_1 = OpIAdd %uint %uint_1 %f_idx".toList,
           "%fadd_2 = OpIAdd %uint %uint_2 %f_idx".toList,
           "%fadd_3 = OpIAdd %uint %uint_3 %f_idx".toList,
           "%i_f".toList ++ fmt f_idx ++ "_0 = OpIAdd %uint %data_offset %fadd_0".toList,
           "%i_f".toList ++ fmt f_idx ++ "_1 = OpIAdd %uint %data_offset %fadd_1".toList,
           "%i_f".toList ++ fmt f_idx ++ "_2 = OpIAdd %uint %data_offset %fadd_2".toList,
           "%i_f".toList ++ fmt f_idx ++ "_3 = OpIAdd %uint %data_offset %fadd_3".toList]
        else
          ["%vi = OpLoad %uint %ViewIndex".toList,
           "%view_offset = OpIMul %uint %vi %uint_4".toList,
           "%data_offset = OpIAdd %uint %shader_data_begin %view_offset".toList,
           "%i_f".toList ++ fmt f_idx ++ "_0 = OpIAdd %uint %data_offset %uint_0".toList,
           "%i_f".toList ++ fmt f_idx ++ "_1 = OpIAdd %uint %data_offset %uint_1".toList,
           "%i_f".toList ++ fmt f_idx ++ "_2 = OpIAdd %uint %data_offset %uint_2".toList,
           "%i_f".toList ++ fmt f_idx ++ "_3 = OpIAdd %uint %data_offset %uint_3".toList]) ++
        rest) ∧
      U.length = labelIndexAfterDecoration a + 4 ∧
      (∀ y ∈ U, contains y needleOpLabel = false) ∧
      a[find_idx a needleOpLabel]? = some lab ∧
      rest.head? =
        (if find_idx a needleOpDecorate = find_idx a needleOpLabel + 1 then
          some decorationLine
        else (a[find_idx a needleOpLabel + 1]?).map (rewriteLine f_idx)) := by
  have h2b : 2 ≤ labelIndexAfterDecoration a :=
    Nat.le_trans h2 (labelIndexAfterDecoration_ge a)
  obtain ⟨P, q1, q2, lab, R, hout, hlen, hP, hq1, hq2, hl, _, _, hR⟩ :=
    patchMatrixAccesses_layout fuel a f_idx offset hlab h2b hfuel
  refine ⟨_, P.map (rewriteLine f_idx) ++ declarationLines f_idx offset ++
      [rewriteLine f_idx q1, rewriteLine f_idx q2], lab, R.map (rewriteLine f_idx), hout, ?_,
    ?_, ?_, hl, ?_⟩
  · rw [← viewOffsetLines_explicit]
    simp
  · simp [declarationLines]
    omega
  · intro y hy
    simp only [List.mem_append, List.mem_cons, List.mem_singleton, List.not_mem_nil,
      or_false] at hy
    rcases hy with (hy | hy) | rfl | rfl
    · exact hP y hy
    · exact declarationLines_no_label f_idx offset y hy
    · exact hq1
    · exact hq2
  · rw [List.head?_map, hR, getElem?_withDecoration]
    by_cases hd : find_idx a needleOpDecorate ≤ find_idx a needleOpLabel
    · have hL : labelIndexAfterDecoration a = find_idx a needleOpLabel + 1 := by
        unfold labelIndexAfterDecoration
        rw [if_pos hd]
      rw [hL,
        if_neg (show ¬ (find_idx a needleOpLabel + 1 + 1 < find_idx a needleOpDecorate) by
          omega),
        if_neg (show ¬ (find_idx a needleOpLabel + 1 + 1 = find_idx a needleOpDecorate) by
          omega),
        if_neg (show ¬ (find_idx a needleOpDecorate = find_idx a needleOpLabel + 1) by
          omega)]
      rfl
    · have hL : labelIndexAfterDecoration a = find_idx a needleOpLabel := by
        unfold labelIndexAfterDecoration
        rw [if_neg hd]
        rfl
      rw [hL]
      by_cases hd2 : find_idx a needleOpDecorate = find_idx a needleOpLabel + 1
      · rw [if_neg (show ¬ (find_idx a needleOpLabel + 1 < find_idx a needleOpDecorate) by
            omega),
          if_pos hd2.symm, if_pos hd2]
        simp only [Option.map_some']
        rw [rewriteLine_inserted f_idx offset decorationLine (by simp)]
      · rw [if_pos (show find_idx a needleOpLabel + 1 < find_idx a needleOpDecorate by
            omega),
          if_neg hd2]

/-- The sample shader with `f_idx = 1`. -/
theorem patchMatrixAccesses_block_placement_witness :
    ∃ (out U : List Line) (lab : Line) (rest : List Line),
      patchMatrixAccesses 40 sampleShader 1 16 = .ok out ∧
      out = U ++ rewriteLine 1 lab ::
        ((if 1 > 0 then
          ["%vi = OpLoad %uint %ViewIndex".toList,
           "%view_offset = OpIMul %uint %vi %uint_4".toList,
           "%data_offset = OpIAdd %uint %shader_data_begin %view_offset".toList,
           "%fadd_0 = OpIAdd %uint %uint_0 %f_idx".toList,
           "%fadd_1 = OpIAdd %uint %uint_1 %f_idx".toList,
           "%fadd_2 = OpIAdd %uint %uint_2 %f_idx".toList,
           "%fadd_3 = OpIAdd %uint %uint_3 %f_idx".toList,
           "%i_f".toList ++ fmt 1 ++ "_0 = OpIAdd %uint %data_offset %fadd_0".toList,
           "%i_f".toList ++ fmt 1 ++ "_1 = OpIAdd %uint %data_offset %fadd_1".toList,
           "%i_f".toList ++ fmt 1 ++ "_2 = OpIAdd %uint %data_offset %fadd_2".toList,
           "%i_f".toList ++ fmt 1 ++ "_3 = OpIAdd %uint %data_offset %fadd_3".toList]
        else
          ["%vi = OpLoad %uint %ViewIndex".toList,
           "%view_offset = OpIMul %uint %vi %uint_4".toList,
           "%data_offset = OpIAdd %uint %shader_data_begin %view_offset".toList,
           "%i_f".toList ++ fmt 1 ++ "_0 = OpIAdd %uint %data_offset %uint_0".toList,
           "%i_f".toList ++ fmt 1 ++ "_1 = OpIAdd %uint %data_offset %uint_1".toList,
           "%i_f".toList ++ fmt 1 ++ "_2 = OpIAdd %uint %data_offset %uint_2".toList,
           "%i_f".toList ++ fmt 1 ++ "_3 = OpIAdd %uint %data_offset %uint_3".toList]) ++
        rest) ∧
      U.length = labelIndexAfterDecoration sampleShader + 4 ∧
      (∀ y ∈ U, contains y needleOpLabel = false) ∧
      sampleShader[find_idx sampleShader needleOpLabel]? = some lab ∧
      rest.head? =
        (if find_idx sampleShader needleOpDecorate = find_idx sampleShader needleOpLabel + 1
          then some decorationLine
        else (sampleShader[find_idx sampleShader needleOpLabel + 1]?).map (rewriteLine 1)) :=
  patchMatrixAccesses_block_placement 40 sampleShader 1 16 (by decide) (by decide)
    (by decide)

/-- C16 as stated fails.  In the sample shader the label is at position 8 and the line
behind it is the access to row 0; with `f_idx = 0` the output has its label at position 13,
the seven inserted lines behind it, and then that access rewritten, not as it was.  In
`decorationAfterLabel` the label is at position 2 and the first decoration line right behind
it; the output has its label at position 6, and the line after the seven inserted ones is
the new decoration line, not the line that followed the label. -/
theorem patchMatrixAccesses_block_placement_counterexample :
    (find_idx sampleShader needleOpLabel = 8 ∧
      sampleShader[9]? =
        some "%7 = OpAccessChain %_ptr_Uniform_v4float %c %uint_1 %int_0".toList ∧
      ∃ out, patchMatrixAccesses 40 sampleShader 0 16 = .ok out ∧
        find_idx out needleOpLabel = 13 ∧ (out.drop 14).take 7 = viewOffsetLines 0 ∧
        out[21]? =
          some "%7 = OpAccessChain %_ptr_Uniform_v4float %c %uint_1 %i_f0_0".toList) ∧
    (find_idx decorationAfterLabel needleOpLabel = 2 ∧
      decorationAfterLabel[3]? = some "OpDecorate %a Location 0".toList ∧
      ∃ out, patchMatrixAccesses 40 decorationAfterLabel 0 16 = .ok out ∧
        find_idx out needleOpLabel = 6 ∧ (out.drop 7).take 7 = viewOffsetLines 0 ∧
        out[14]? = some "OpDecorate %ViewIndex BuiltIn ViewIndex".toList) :=
  ⟨⟨by decide, by decide, _, rfl, by decide, by decide, by decide⟩,
    ⟨by decide, by decide, _, rfl, by decide, by decide, by decide⟩⟩

/-- C17 (amended). For a sequence whose first label line is at position 2 or later, the
output of `patchMatrixAccesses` holds the four declarations one after the other, in the
order `%ptr`, `%ViewIndex`, `%shader_data_begin`, `%f_idx`, no label line before them, and
behind the fourth the two lines that stood before the label after source line 96, as the
passes leave them and neither of them a label line, and only then the label line: the
declarations are inserted two lines above the label.  Those two lines are the two lines
before the label in the input, unless the decoration line was inserted among them. -/
theorem patchMatrixAccesses_declaration_placement (fuel : Nat) (a : List Line)
    (f_idx offset : Nat) (hlab : find_idx a needleOpLabel < a.length)
    (h2 : 2 ≤ find_idx a needleOpLabel) (hfuel : a.length + 18 ≤ fuel) :
    ∃ (out P : List Line) (q1 q2 lab : Line) (rest : List Line),
      patchMatrixAccesses fuel a f_idx offset = .ok out ∧
      out = P ++ "%ptr = OpTypePointer Input %uint".toList ::
        "%ViewIndex = OpVariable %ptr Input".toList ::
        ("%shader_data_begin = OpConstant %uint ".toList ++ fmt offset) ::
        ("%f_idx = OpConstant %uint ".toList ++ fmt f_idx) ::
        rewriteLine f_idx q1 :: rewriteLine f_idx q2 :: rewriteLine f_idx lab :: rest ∧
      P.length + 2 = labelIndexAfterDecoration a ∧
      (∀ y ∈ P, contains y needleOpLabel = false) ∧
      contains (rewriteLine f_idx q1) needleOpLabel = false ∧
      contains (rewriteLine f_idx q2) needleOpLabel = false ∧
      a[find_idx a needleOpLabel]? = some lab ∧
      (withDecoration a)[labelIndexAfterDecoration a - 2]? = some q1 ∧
      (withDecoration a)[labelIndexAfterDecoration a - 1]? = some q2 ∧
      ((find_idx a needleOpDecorate + 2 ≤ find_idx a needleOpLabel ∨
          find_idx a needleOpLabel < find_idx a needleOpDecorate) →
        a[find_idx a needleOpLabel - 2]? = some q1 ∧
        a[find_idx a needleOpLabel - 1]? = some q2) := by
  have h2b : 2 ≤ labelIndexAfterDecoration a :=
    Nat.le_trans h2 (labelIndexAfterDecoration_ge a)
  obtain ⟨P, q1, q2, lab, R, hout, hlen, hP, hq1, hq2, hl, hw1, hw2, _⟩ :=
    patchMatrixAccesses_layout fuel a f_idx offset hlab h2b hfuel
  refine ⟨_, P.map (rewriteLine f_idx), q1, q2, lab,
    viewOffsetLines f_idx ++ R.map (rewriteLine f_idx), hout, ?_, ?_, hP, hq1, hq2, hl, hw1,
    hw2, ?_⟩
  · simp [declarationLines, ptrLine, viewIndexLine, dataBeginLine, fIdxLine]
  · simpa using hlen
  · intro hreg
    rw [getElem?_withDecoration] at hw1 hw2
    rcases hreg with hreg | hreg
    · have hL : labelIndexAfterDecoration a = find_idx a needleOpLabel + 1 := by
        unfold labelIndexAfterDecoration
        rw [if_pos (by omega)]
      rw [hL,
        if_neg (show ¬ (find_idx a needleOpLabel + 1 - 2 < find_idx a needleOpDecorate) by
          omega),
        if_neg (show ¬ (find_idx a needleOpLabel + 1 - 2 = find_idx a needleOpDecorate) by
          omega)] at hw1
      rw [hL,
        if_neg (show ¬ (find_idx a needleOpLabel + 1 - 1 < find_idx a needleOpDecorate) by
          omega),
        if_neg (show ¬ (find_idx a needleOpLabel + 1 - 1 = find_idx a needleOpDecorate) by
          omega)] at hw2
      have e1 : find_idx a needleOpLabel + 1 - 2 - 1 = find_idx a needleOpLabel - 2 := by
        omega
      have e2 : find_idx a needleOpLabel + 1 - 1 - 1 = find_idx a needleOpLabel - 1 := by
        omega
      rw [e1] at hw1
      rw [e2] at hw2
      exact ⟨hw1, hw2⟩
    · have hL : labelIndexAfterDecoration a = find_idx a needleOpLabel := by
        unfold labelIndexAfterDecoration
        rw [if_neg (by omega)]
        rfl
      rw [hL,
        if_pos (show find_idx a needleOpLabel - 2 < find_idx a needleOpDecorate by omega)]
        at hw1
      rw [hL,
        if_pos (show find_idx a needleOpLabel - 1 < find_idx a needleOpDecorate by omega)]
        at hw2
      exact ⟨hw1, hw2⟩

/-- The sample shader with `f_idx = 1`. -/
theorem patchMatrixAccesses_declaration_placement_witness :
    ∃ (out P : List Line) (q1 q2 lab : Line) (rest : List Line),
      patchMatrixAccesses 40 sampleShader 1 16 = .ok out ∧
      out = P ++ "%ptr = OpTypePointer Input %uint".toList ::
        "%ViewIndex = OpVariable %ptr Input".toList ::
        ("%shader_data_begin = OpConstant %uint ".toList ++ fmt 16) ::
        ("%f_idx = OpConstant %uint ".toList ++ fmt 1) ::
        rewriteLine 1 q1 :: rewriteLine 1 q2 :: rewriteLine 1 lab :: rest ∧
      P.length + 2 = labelIndexAfterDecoration sampleShader ∧
      (∀ y ∈ P, contains y needleOpLabel = false) ∧
      contains (rewriteLine 1 q1) needleOpLabel = false ∧
      contains (rewriteLine 1 q2) needleOpLabel = false ∧
      sampleShader[find_idx sampleShader needleOpLabel]? = some lab ∧
      (withDecoration sampleShader)[labelIndexAfterDecoration sampleShader - 2]? = some q1 ∧
      (withDecoration sampleShader)[labelIndexAfterDecoration sampleShader - 1]? = some q2 ∧
      ((find_idx sampleShader needleOpDecorate + 2 ≤ find_idx sampleShader needleOpLabel ∨
          find_idx sampleShader needleOpLabel < find_idx sampleShader needleOpDecorate) →
        sampleShader[find_idx sampleShader needleOpLabel - 2]? = some q1 ∧
        sampleShader[find_idx sampleShader needleOpLabel - 1]? = some q2) :=
  patchMatrixAccesses_declaration_placement 40 sampleShader 1 16 (by decide) (by decide)
    (by decide)

/-- C17 as stated fails: in the output for the sample shader (label at position 8 of the
input) the fourth declaration is at position 10; the line behind it is
`%b = OpVariable %x Output`, which is no label line, then comes the `OpFunction` line, and
the label line is at position 13. -/
theorem patchMatrixAccesses_declaration_placement_counterexample :
    find_idx sampleShader needleOpLabel = 8 ∧
    ∃ out, patchMatrixAccesses 40 sampleShader 0 16 = .ok out ∧
      (out.drop 7).take 4 =
        ["%ptr = OpTypePointer Input %uint".toList,
         "%ViewIndex = OpVariable %ptr Input".toList,
         "%shader_data_begin = OpConstant %uint 16".toList,
         "%f_idx = OpConstant %uint 0".toList] ∧
      out[11]? = some "%b = OpVariable %x Output".toList ∧
      contains "%b = OpVariable %x Output".toList needleOpLabel = false ∧
      out[12]? = some "%main = OpFunction %void None %3".toList ∧
      out[13]? = some "%5 = OpLabel".toList :=
  ⟨by decide, _, rfl, by decide, by decide, by decide, by decide, by decide⟩

theorem writeOutput_ret (out : List Nat) (st st' : Output) :
    (writeOutput out st >>= fun s => (Except.ok ((0 : Int), s) : Except Fault (Int × Output)))
      ≠ .ok (-1, st') := by
  cases h : writeOutput out st with
  | error e => simp [bind, Except.bind]
  | ok s => simp [bind, Except.bind]

theorem OptimizeSPIRV_failure (t : Toolchain) (data : List Nat) (st st' : Output)
    (h : OptimizeSPIRV t data st = .ok (-1, st')) : st' = st := by
  unfold OptimizeSPIRV at h
  cases ho : t.optimize data with
  | none =>
    rw [ho] at h
    simp only [Except.ok.injEq, Prod.mk.injEq, true_and] at h
    exact h.symm
  | some o =>
    rw [ho] at h
    exact absurd h (writeOutput_ret o st st')

theorem AddSPIRVMultiViewCapability_failure (t : Toolchain) (data : List Nat)
    (st st' : Output) (h : AddSPIRVMultiViewCapability t data st = .ok (-1, st')) :
    st' = st := by
  unfold AddSPIRVMultiViewCapability at h
  cases hd : disassembleShader t data with
  | none =>
    rw [hd] at h
    simp only [Except.ok.injEq, Prod.mk.injEq, true_and] at h
    exact h.symm
  | some a =>
    rw [hd] at h
    simp only at h
    cases ht : detectType a with
    | error e => rw [ht] at h; simp [bind, Except.bind] at h
    | ok typ =>
      rw [ht, ok_bind] at h
      by_cases hv : typ = ShaderType.VS
      · rw [if_pos hv] at h
        cases h1 : addMultiViewCapability a with
        | error e => rw [h1] at h; simp [bind, Except.bind] at h
        | ok a1 =>
          rw [h1, ok_bind] at h
          cases h2 : patchEntryPoint a1 false with
          | error e => rw [h2] at h; simp [bind, Except.bind] at h
          | ok a2 =>
            rw [h2, ok_bind] at h
            by_cases hval : t.validate (t.assemble (joinLines a2)) = true
            · rw [hval] at h
              simp only [Bool.not_true, Bool.false_eq_true, if_false] at h
              exact absurd h (writeOutput_ret _ st st')
            · rw [Bool.not_eq_true] at hval
              rw [hval] at h
              simp only [Bool.not_false, if_true, Except.ok.injEq, Prod.mk.injEq,
                true_and] at h
              exact h.symm
      · rw [if_neg hv] at h
        simp only [Except.ok.injEq, Prod.mk.injEq, true_and] at h
        exact h.symm

/-- The tail shared by the two branches of
`ChangeSPIRVMultiViewDataAccessLocation`: optimize or validate, then copy out. -/
theorem finish_failure (t : Toolchain) (out : List Nat) (st st' : Output) (optimize : Int)
    (h : (if optimize ≠ 0 then
        match t.optimize out with
        | none => (Except.ok ((-1 : Int), st) : Except Fault (Int × Output))
        | some optimized => do
          let st ← writeOutput optimized st
          .ok (0, st)
      else if !t.validate out then .ok (-1, st)
      else do
        let st ← writeOutput out st
        .ok (0, st)) = .ok (-1, st')) : st' = st := by
  by_cases ho : optimize ≠ 0
  · rw [if_pos ho] at h
    cases hopt : t.optimize out with
    | none =>
      rw [hopt] at h
      simp only [Except.ok.injEq, Prod.mk.injEq, true_and] at h
      exact h.symm
    | some o =>
      rw [hopt] at h
      exact absurd h (writeOutput_ret o st st')
  · rw [if_neg ho] at h
    by_cases hval : t.validate out = true
    · rw [hval] at h
      simp only [Bool.not_true, Bool.false_eq_true, if_false] at h
      exact absurd h (writeOutput_ret _ st st')
    · rw [Bool.not_eq_true] at hval
      rw [hval] at h
      simp only [Bool.not_false, if_true, Except.ok.injEq, Prod.mk.injEq, true_and] at h
      exact h.symm

theorem ChangeSPIRVMultiViewDataAccessLocation_failure (t : Toolchain) (fuel : Nat)
    (data : List Nat) (st st' : Output) (f_idx offset : Nat) (optimize : Int)
    (h : ChangeSPIRVMultiViewDataAccessLocation t fuel data st f_idx offset optimize =
      .ok (-1, st')) : st' = st := by
  unfold ChangeSPIRVMultiViewDataAccessLocation at h
  cases hd : disassembleShader t data with
  | none =>
    rw [hd] at h
    simp only [Except.ok.injEq, Prod.mk.injEq, true_and] at h
    exact h.symm
  | some a =>
    rw [hd] at h
    simp only at h
    cases ht : detectType a with
    | error e => rw [ht] at h; simp [bind, Except.bind] at h
    | ok typ =>
      rw [ht, ok_bind] at h
      by_cases hf : typ = ShaderType.FF_VS
      · rw [if_pos hf] at h
        exact finish_failure t data st st' optimize h
      · rw [if_neg hf] at h
        by_cases hv : typ = ShaderType.VS
        · rw [if_pos hv] at h
          cases h1 : patchVertexShader fuel a f_idx offset with
          | error e => rw [h1] at h; simp [bind, Except.bind] at h
          | ok a1 =>
            rw [h1, ok_bind] at h
            exact finish_failure t _ st st' optimize h
        · rw [if_neg hv] at h
          simp only [Except.ok.injEq, Prod.mk.injEq, true_and] at h
          exact h.symm

/-- C11. `AddSPIRVMultiViewCapability`, for a binary whose disassembly is classified
`FF_VS` or `BTB`, returns -1 and leaves the output memory as it was, whatever the assembler,
the validator and the optimizer of the toolchain are.  A run that returns 0 is a run on a
disassembly classified `VS`: the capability and the entry point were patched, the
assembled binary passed validation and was copied out. -/
theorem AddSPIRVMultiViewCapability_wrong_flavor (t : Toolchain) (data : List Nat)
    (st : Output) :
    (∀ a : List Line, disassembleShader t data = some a →
      (detectType a = .ok ShaderType.FF_VS ∨ detectType a = .ok ShaderType.BTB) →
      ∀ (asm : List Char → List Nat) (val : List Nat → Bool)
        (opt : List Nat → Option (List Nat)),
        AddSPIRVMultiViewCapability ⟨t.disassemble, asm, val, opt⟩ data st = .ok (-1, st)) ∧
    (∀ st' : Output, AddSPIRVMultiViewCapability t data st = .ok (0, st') →
      ∃ a a1 a2 : List Line, disassembleShader t data = some a ∧
        detectType a = .ok ShaderType.VS ∧ addMultiViewCapability a = .ok a1 ∧
        patchEntryPoint a1 false = .ok a2 ∧
        t.validate (t.assemble (joinLines a2)) = true ∧
        writeOutput (t.assemble (joinLines a2)) st = .ok st') := by
  constructor
  · intro a hdis htyp asm val opt
    have hdis2 : disassembleShader ⟨t.disassemble, asm, val, opt⟩ data = some a := hdis
    unfold AddSPIRVMultiViewCapability
    rw [hdis2]
    simp only
    rcases htyp with htyp | htyp
    · rw [htyp]
      rfl
    · rw [htyp]
      rfl
  · intro st' h
    unfold AddSPIRVMultiViewCapability at h
    cases hd : disassembleShader t data with
    | none =>
      rw [hd] at h
      simp at h
    | some a =>
      rw [hd] at h
      simp only at h
      cases ht : detectType a with
      | error e => rw [ht] at h; simp [bind, Except.bind] at h
      | ok typ =>
        rw [ht, ok_bind] at h
        by_cases hv : typ = ShaderType.VS
        · rw [if_pos hv] at h
          cases h1 : addMultiViewCapability a with
          | error e => rw [h1] at h; simp [bind, Except.bind] at h
          | ok a1 =>
            rw [h1, ok_bind] at h
            cases h2 : patchEntryPoint a1 false with
            | error e => rw [h2] at h; simp [bind, Except.bind] at h
            | ok a2 =>
              rw [h2, ok_bind] at h
              by_cases hval : t.validate (t.assemble (joinLines a2)) = true
              · rw [hval] at h
                simp only [Bool.not_true, Bool.false_eq_true, if_false] at h
                cases hw : writeOutput (t.assemble (joinLines a2)) st with
                | error e => rw [hw] at h; simp [bind, Except.bind] at h
                | ok s =>
                  rw [hw, ok_bind] at h
                  simp only [Except.ok.injEq, Prod.mk.injEq, true_and] at h
                  exact ⟨a, a1, a2, rfl, hv ▸ ht, h1, h2, hval, h ▸ hw⟩
              · rw [Bool.not_eq_true] at hval
                rw [hval] at h
                simp at h
        · rw [if_neg hv] at h
          simp at h

/-- The disassembly of `fixedFunctionToolchain` is classified `FF_VS`; with an assembler
and a validator that accept everything the call still returns -1. -/
theorem AddSPIRVMultiViewCapability_wrong_flavor_witness :
    disassembleShader fixedFunctionToolchain [7, 8] = some fixedFunctionLines ∧
    detectType fixedFunctionLines = .ok ShaderType.FF_VS ∧
    AddSPIRVMultiViewCapability
      ⟨fixedFunctionToolchain.disassemble, fun _ => [1, 2], fun _ => true, fun w => some w⟩
      [7, 8] sampleOutput = .ok (-1, sampleOutput) :=
  ⟨by decide, by decide,
    (AddSPIRVMultiViewCapability_wrong_flavor fixedFunctionToolchain [7, 8] sampleOutput).1
      fixedFunctionLines (by decide) (Or.inl (by decide)) _ _ _⟩

/-- C12. `ChangeSPIRVMultiViewDataAccessLocation` with `optimize = 0`, for a binary whose
disassembly is classified `FF_VS`: when the validator rejects the input binary the call
returns -1 and leaves the output memory as it was; when it accepts, the call is the copy of
the input binary itself to the output memory, followed by `return 0`.  With a size below
2^32 and a size cell, that copy stores the size of the input; with a buffer that holds the
input (of at most 2^31 - 1 words, the range of the loop counter) the buffer starts with the
words of the input, and without a buffer nothing else is written.  A return of 0 means the
validator accepted the input.  The result is the same for every `f_idx`, `offset` and loop
budget. -/
theorem ChangeSPIRVMultiViewDataAccessLocation_passthrough (t : Toolchain) (fuel : Nat)
    (data : List Nat) (st : Output) (f_idx offset : Nat) (a : List Line)
    (hdis : disassembleShader t data = some a)
    (htyp : detectType a = .ok ShaderType.FF_VS) :
    (t.validate data = false →
      ChangeSPIRVMultiViewDataAccessLocation t fuel data st f_idx offset 0 = .ok (-1, st)) ∧
    (t.validate data = true →
      ChangeSPIRVMultiViewDataAccessLocation t fuel data st f_idx offset 0 =
        (writeOutput data st >>= fun s => .ok (0, s))) ∧
    (t.validate data = true → data.length < 4294967296 →
      ∀ n : Nat, st.size_out = some n →
        (st.data_out = none →
          ChangeSPIRVMultiViewDataAccessLocation t fuel data st f_idx offset 0 =
            .ok (0, ⟨none, some data.length⟩)) ∧
        (∀ buf : List Nat, st.data_out = some buf → data.length ≤ buf.length →
          data.length ≤ 2147483647 →
          ChangeSPIRVMultiViewDataAccessLocation t fuel data st f_idx offset 0 =
            .ok (0, ⟨some (data ++ buf.drop data.length), some data.length⟩))) ∧
    (∀ st' : Output,
      ChangeSPIRVMultiViewDataAccessLocation t fuel data st f_idx offset 0 = .ok (0, st') →
      t.validate data = true ∧ writeOutput data st = .ok st') ∧
    (∀ (fuel2 f_idx2 offset2 : Nat),
      ChangeSPIRVMultiViewDataAccessLocation t fuel2 data st f_idx2 offset2 0 =
        ChangeSPIRVMultiViewDataAccessLocation t fuel data st f_idx offset 0) := by
  have hform : ∀ (fuel2 f_idx2 offset2 : Nat),
      ChangeSPIRVMultiViewDataAccessLocation t fuel2 data st f_idx2 offset2 0 =
        if t.validate data = true then (writeOutput data st >>= fun s => .ok (0, s))
        else .ok (-1, st) := by
    intro fuel2 f_idx2 offset2
    unfold ChangeSPIRVMultiViewDataAccessLocation
    rw [hdis]
    simp only
    rw [htyp, ok_bind, if_pos rfl, if_neg (by simp)]
    by_cases hval : t.validate data = true
    · rw [hval]
      simp
    · rw [Bool.not_eq_true] at hval
      rw [hval]
      simp
  refine ⟨?_, ?_, ?_, ?_, ?_⟩
  · intro hval
    rw [hform, hval]
    simp
  · intro hval
    rw [hform, if_pos hval]
  · intro hval hsize n hn
    constructor
    · intro hnone
      rw [hform, if_pos hval]
      unfold writeOutput
      rw [hnone, hn]
      simp only [ok_bind]
      rw [Nat.mod_eq_of_lt hsize]
    · intro buf hbuf hcap hint
      rw [hform, if_pos hval]
      unfold writeOutput
      rw [hbuf, hn]
      simp only [ok_bind]
      rw [if_pos ⟨hcap, hint⟩, ok_bind, Nat.mod_eq_of_lt hsize]
  · intro st' h
    rw [hform] at h
    by_cases hval : t.validate data = true
    · rw [if_pos hval] at h
      refine ⟨hval, ?_⟩
      cases hw : writeOutput data st with
      | error e => rw [hw] at h; simp [bind, Except.bind] at h
      | ok s =>
        rw [hw, ok_bind] at h
        simp only [Except.ok.injEq, Prod.mk.injEq, true_and] at h
        rw [h]
    · rw [if_neg hval] at h
      simp at h
  · intro fuel2 f_idx2 offset2
    rw [hform, hform]

/-- A binary of two words, accepted by the validator of `fixedFunctionToolchain`, is copied
to the front of the buffer of four words, and the size cell holds 2. -/
theorem ChangeSPIRVMultiViewDataAccessLocation_passthrough_witness :
    disassembleShader fixedFunctionToolchain [7, 8] = some fixedFunctionLines ∧
    detectType fixedFunctionLines = .ok ShaderType.FF_VS ∧
    ChangeSPIRVMultiViewDataAccessLocation fixedFunctionToolchain 0 [7, 8] sampleOutput 3
      16 0 = .ok (0, ⟨some [7, 8, 0, 0], some 2⟩) :=
  ⟨by decide, by decide,
    ((ChangeSPIRVMultiViewDataAccessLocation_passthrough fixedFunctionToolchain 0 [7, 8]
      sampleOutput 3 16 fixedFunctionLines (by decide) (by decide)).2.2.1 (by decide)
      (by decide) 9 rfl).2 [0, 0, 0, 0] rfl (by decide) (by decide)⟩

/-- C13. Whenever `OptimizeSPIRV`, `AddSPIRVMultiViewCapability` or
`ChangeSPIRVMultiViewDataAccessLocation` returns -1, the output memory (the buffer behind
`data_out` and the cell behind `size_out`) is as it was before the call.  Such runs exist:
a failing optimizer makes `OptimizeSPIRV` return -1, a failing disassembler makes the other
two return -1. -/
theorem exported_failure_leaves_output (t : Toolchain) (fuel : Nat) (data : List Nat)
    (st : Output) (f_idx offset : Nat) (optimize : Int) :
    (∀ st' : Output, OptimizeSPIRV t data st = .ok (-1, st') → st' = st) ∧
    (∀ st' : Output, AddSPIRVMultiViewCapability t data st = .ok (-1, st') → st' = st) ∧
    (∀ st' : Output,
      ChangeSPIRVMultiViewDataAccessLocation t fuel data st f_idx offset optimize =
        .ok (-1, st') → st' = st) ∧
    (t.optimize data = none → OptimizeSPIRV t data st = .ok (-1, st)) ∧
    (disassembleShader t data = none →
      AddSPIRVMultiViewCapability t data st = .ok (-1, st) ∧
      ChangeSPIRVMultiViewDataAccessLocation t fuel data st f_idx offset optimize =
        .ok (-1, st)) := by
  refine ⟨fun st' h => OptimizeSPIRV_failure t data st st' h,
    fun st' h => AddSPIRVMultiViewCapability_failure t data st st' h,
    fun st' h =>
      ChangeSPIRVMultiViewDataAccessLocation_failure t fuel data st st' f_idx offset
        optimize h, ?_, ?_⟩
  · intro h
    unfold OptimizeSPIRV
    rw [h]
  · intro h
    constructor
    · unfold AddSPIRVMultiViewCapability
      rw [h]
    · unfold ChangeSPIRVMultiViewDataAccessLocation
      rw [h]

/-- Three runs that return -1: the optimizer fails; the validator rejects the patched sample
shader in `AddSPIRVMultiViewCapability`; the validator rejects it in
`ChangeSPIRVMultiViewDataAccessLocation`. -/
theorem exported_failure_leaves_output_witness :
    (∃ st' : Output, OptimizeSPIRV failingToolchain [7, 8] sampleOutput = .ok (-1, st') ∧
      st' = sampleOutput) ∧
    (∃ st' : Output,
      AddSPIRVMultiViewCapability rejectingToolchain [7, 8] sampleOutput = .ok (-1, st') ∧
      st' = sampleOutput) ∧
    (∃ st' : Output,
      ChangeSPIRVMultiViewDataAccessLocation rejectingToolchain 60 [7, 8] sampleOutput 0 16
        0 = .ok (-1, st') ∧ st' = sampleOutput) :=
  ⟨⟨sampleOutput, by decide,
      (exported_failure_leaves_output failingToolchain 60 [7, 8] sampleOutput 0 16 0).1
        sampleOutput (by decide)⟩,
    ⟨sampleOutput, by decide,
      (exported_failure_leaves_output rejectingToolchain 60 [7, 8] sampleOutput 0 16 0).2.1
        sampleOutput (by decide)⟩,
    ⟨sampleOutput, by decide,
      (exported_failure_leaves_output rejectingToolchain 60 [7, 8] sampleOutput 0 16
        0).2.2.1 sampleOutput (by decide)⟩⟩

end MultiViewPatcher
